import Mathlib

/-!
# mc-yggdrasil-go: identifier derivation and the in-memory token authority

A shallow embedding of `utils/uuid.go` and `service/service.go`.

* Go strings are Lean `String`s; a `[]byte` or `[16]byte` is a `List Nat` of
  values below 256 (arithmetic on machine words is reduced `% 2^32`).
* A Go `map[string]V` is an association list with distinct keys
  (`AList`); Go leaves the iteration order of a map unspecified, and
  every order of the entries is a value of this type.
* `(T, error)` results are `Except String T`, the string being the message of
  `errors.New`.
* The random identifiers of `utils.GenerateUUID` and the clock `time.Now`
  are inputs of the operations that consume them.
-/

namespace Yggdrasil

/-! ## crypto/md5 (RFC 1321), as used by `md5.Sum` -/

/-- Per-round left-rotation amounts. -/
def md5Shifts : List Nat :=
  [7, 12, 17, 22, 7, 12, 17, 22, 7, 12, 17, 22, 7, 12, 17, 22,
   5, 9, 14, 20, 5, 9, 14, 20, 5, 9, 14, 20, 5, 9, 14, 20,
   4, 11, 16, 23, 4, 11, 16, 23, 4, 11, 16, 23, 4, 11, 16, 23,
   6, 10, 15, 21, 6, 10, 15, 21, 6, 10, 15, 21, 6, 10, 15, 21]

/-- The sine table: entry `i` is `floor (2^32 * |sin (i + 1)|)`. -/
def md5Table : List Nat :=
  [0xd76aa478, 0xe8c7b756, 0x242070db, 0xc1bdceee, 0xf57c0faf, 0x4787c62a, 0xa8304613, 0xfd469501,
   0x698098d8, 0x8b44f7af, 0xffff5bb1, 0x895cd7be, 0x6b901122, 0xfd987193, 0xa679438e, 0x49b40821,
   0xf61e2562, 0xc040b340, 0x265e5a51, 0xe9b6c7aa, 0xd62f105d, 0x02441453, 0xd8a1e681, 0xe7d3fbc8,
   0x21e1cde6, 0xc33707d6, 0xf4d50d87, 0x455a14ed, 0xa9e3e905, 0xfcefa3f8, 0x676f02d9, 0x8d2a4c8a,
   0xfffa3942, 0x8771f681, 0x6d9d6122, 0xfde5380c, 0xa4beea44, 0x4bdecfa9, 0xf6bb4b60, 0xbebfbc70,
   0x289b7ec6, 0xeaa127fa, 0xd4ef3085, 0x04881d05, 0xd9d4d039, 0xe6db99e5, 0x1fa27cf8, 0xc4ac5665,
   0xf4292244, 0x432aff97, 0xab9423a7, 0xfc93a039, 0x655b59c3, 0x8f0ccc92, 0xffeff47d, 0x85845dd1,
   0x6fa87e4f, 0xfe2ce6e0, 0xa3014314, 0x4e0811a1, 0xf7537e82, 0xbd3af235, 0x2ad7d2bb, 0xeb86d391]

/-- Reduction to a 32-bit word. -/
def w32 (x : Nat) : Nat := x % 2 ^ 32

/-- Bitwise complement of a 32-bit word. -/
def not32 (x : Nat) : Nat := w32 x ^^^ 0xffffffff

/-- Left rotation of a 32-bit word by `c` bits (`0 < c < 32`). -/
def rotl32 (x c : Nat) : Nat := w32 (w32 x <<< c) ||| (w32 x >>> (32 - c))

/-- Little-endian 32-bit word number `g` of a block of bytes. -/
def md5Word (block : List Nat) (g : Nat) : Nat :=
  block.getD (4 * g) 0 + 2 ^ 8 * block.getD (4 * g + 1) 0
    + 2 ^ 16 * block.getD (4 * g + 2) 0 + 2 ^ 24 * block.getD (4 * g + 3) 0

/-- The four chaining words `A, B, C, D`. -/
structure Md5State where
  a : Nat
  b : Nat
  c : Nat
  d : Nat
deriving DecidableEq, Repr

/-- Initial chaining value. -/
def md5Init : Md5State := ⟨0x67452301, 0xefcdab89, 0x98badcfe, 0x10325476⟩

/-- One of the 64 steps on a block. -/
def md5Step (block : List Nat) (st : Md5State) (i : Nat) : Md5State :=
  let f :=
    if i < 16 then (st.b &&& st.c) ||| (not32 st.b &&& st.d)
    else if i < 32 then (st.d &&& st.b) ||| (not32 st.d &&& st.c)
    else if i < 48 then st.b ^^^ st.c ^^^ st.d
    else st.c ^^^ (st.b ||| not32 st.d)
  let g :=
    if i < 16 then i
    else if i < 32 then (5 * i + 1) % 16
    else if i < 48 then (3 * i + 5) % 16
    else (7 * i) % 16
  let t := w32 (f + st.a + md5Table.getD i 0 + md5Word block g)
  ⟨st.d, w32 (st.b + rotl32 t (md5Shifts.getD i 0)), st.b, st.c⟩

/-- Compression of one 64-byte block into the chaining value. -/
def md5Block (st : Md5State) (block : List Nat) : Md5State :=
  let r := (List.range 64).foldl (md5Step block) st
  ⟨w32 (st.a + r.a), w32 (st.b + r.b), w32 (st.c + r.c), w32 (st.d + r.d)⟩

/-- Little-endian bytes of a value, `n` of them. -/
def leBytes : Nat → Nat → List Nat
  | 0, _ => []
  | n + 1, x => x % 256 :: leBytes n (x / 256)

/-- Message padding: `0x80`, zeros up to 56 modulo 64, the bit length on 8 bytes. -/
def md5Pad (msg : List Nat) : List Nat :=
  msg ++ 0x80 :: List.replicate ((119 - msg.length % 64) % 64) 0
    ++ leBytes 8 ((8 * msg.length) % 2 ^ 64)

/-- The digest `md5.Sum data`, a `[16]byte`. -/
def md5Sum (data : List Nat) : List Nat :=
  let padded := md5Pad data
  let st := (List.range (padded.length / 64)).foldl
    (fun st k => md5Block st ((padded.drop (64 * k)).take 64)) md5Init
  leBytes 4 st.a ++ leBytes 4 st.b ++ leBytes 4 st.c ++ leBytes 4 st.d

/-! ## encoding/hex, strings and github.com/google/uuid -/

/-- The bytes of a Go string (`[]byte(s)`): its UTF-8 encoding. -/
def stringBytes (s : String) : List Nat :=
  s.data.flatMap fun c => (String.utf8EncodeChar c).map UInt8.toNat

/-- The digit table of `encoding/hex`. -/
def hextable : List Char := "0123456789abcdef".data

/-- Encoding of bytes by `hex.Encode`: two digits per byte, high nibble first. -/
def hexEncode (src : List Nat) : List Char :=
  src.flatMap fun v => [hextable.getD (v >>> 4) '0', hextable.getD (v &&& 0x0f) '0']

/-- Result of `uuid.FromBytes`: the 16 bytes, or an error for any other length. -/
def uuidFromBytes (b : List Nat) : Except String (List Nat) :=
  if b.length ≠ 16 then .error ("invalid UUID (got " ++ toString b.length ++ " bytes)") else .ok b

/-- Rendering by `UUID.String`: lowercase hex in groups of 4, 2, 2, 2 and 6 bytes. -/
def uuidString (u : List Nat) : List Char :=
  hexEncode (u.take 4) ++ '-' :: hexEncode ((u.drop 4).take 2) ++ '-' ::
    hexEncode ((u.drop 6).take 2) ++ '-' :: hexEncode ((u.drop 8).take 2) ++ '-' ::
    hexEncode (u.drop 10)

/-- The call `strings.ReplaceAll(s, old, new)` for a one-character `old`. -/
def replaceAllChar (s : List Char) (old : Char) (new : List Char) : List Char :=
  s.flatMap fun c => if c = old then new else [c]

/-! ## utils/uuid.go -/

/-- Embedding of `GenerateOfflinePlayerUUID`. -/
def GenerateOfflinePlayerUUID (playerName : String) : Except String String :=
  let hashStr := "OfflinePlayer:" ++ playerName
  let data := stringBytes hashStr
  let hash := md5Sum data
  let hash := hash.set 6 (hash.getD 6 0 &&& 0x0f)
  let hash := hash.set 6 (hash.getD 6 0 ||| 0x30)
  let hash := hash.set 8 (hash.getD 8 0 &&& 0x3f)
  let hash := hash.set 8 (hash.getD 8 0 ||| 0x80)
  match uuidFromBytes hash with
  | .error err => .error err
  | .ok parsedUUID => .ok (String.mk (replaceAllChar (uuidString parsedUUID) '-' []))

/-! ## Rendering of bytes in the words of the specification -/

/-- Lowercase hexadecimal digit of a value below 16. -/
def lowerHexDigit (n : Nat) : Char := Char.ofNat (if n < 10 then 48 + n else 87 + n)

/-- Rendering of bytes as lowercase hex, two digits per byte, without separators. -/
def hexRendering (bytes : List Nat) : String :=
  String.mk (bytes.flatMap fun b => [lowerHexDigit (b / 16), lowerHexDigit (b % 16)])

/-! ## models/models.go -/

/-- Embedding of `models.Property`. -/
structure Property where
  Name : String
  Value : String
  Signature : String
deriving DecidableEq, Repr

/-- Embedding of `models.User`. -/
structure User where
  ID : String
  Properties : List Property
deriving DecidableEq, Repr

/-- Embedding of `models.Profile`. -/
structure Profile where
  ID : String
  Name : String
  Properties : List Property
deriving DecidableEq, Repr

/-- Embedding of `models.Agent`. -/
structure Agent where
  Name : String
  Version : Int
deriving DecidableEq, Repr

/-- Embedding of `models.AuthRequest`. -/
structure AuthRequest where
  Agent : Agent
  Username : String
  Password : String
  ClientToken : String
  RequestUser : Bool
deriving DecidableEq, Repr

/-- Embedding of `models.AuthResponse`; a nil pointer is `none`, a nil slice `[]`. -/
structure AuthResponse where
  AccessToken : String
  ClientToken : String
  AvailableProfiles : List Profile
  SelectedProfile : Option Profile
  User : Option User
deriving DecidableEq, Repr

/-- Embedding of `models.RefreshRequest`. -/
structure RefreshRequest where
  AccessToken : String
  ClientToken : String
  RequestUser : Bool
  SelectedProfile : Option Profile
deriving DecidableEq, Repr

/-- Embedding of `models.ValidateRequest`. -/
structure ValidateRequest where
  AccessToken : String
  ClientToken : String
deriving DecidableEq, Repr

/-- Embedding of `models.InvalidateRequest`. -/
structure InvalidateRequest where
  AccessToken : String
  ClientToken : String
deriving DecidableEq, Repr

/-- Embedding of `models.SignoutRequest`. -/
structure SignoutRequest where
  Username : String
  Password : String
deriving DecidableEq, Repr

/-! ## service/service.go -/

/-- A Go `map[string]V`. -/
abbrev GoMap (V : Type) := AList (fun _ : String => V)

/-- Embedding of `UserCredentials`. -/
structure UserCredentials where
  ID : String
  Password : String
deriving DecidableEq, Repr

/-- Embedding of `AccessTokenInfo`; `CreatedAt` is the reading of the clock. -/
structure AccessTokenInfo where
  UserID : String
  ClientToken : String
  ProfileID : String
  CreatedAt : Nat
deriving DecidableEq, Repr

/-- The four maps of `MemoryYggdrasilService`; `profiles` holds the pointed-to values, which
are never written after `AddProfile` creates them. The mutex has no sequential content. -/
structure MemoryYggdrasilService where
  users : GoMap UserCredentials
  accessTokens : GoMap AccessTokenInfo
  clientTokens : GoMap String
  profiles : GoMap Profile

/-- Embedding of `NewMemoryYggdrasilService`: four empty maps. -/
def NewMemoryYggdrasilService : MemoryYggdrasilService := ⟨∅, ∅, ∅, ∅⟩

/-- The guarded removal `if old, exists := m[c]; exists && old == a { delete(m, c) }`. -/
def deleteClientToken (m : GoMap String) (c a : String) : GoMap String :=
  match m.lookup c with
  | some oldAccessToken => if oldAccessToken = a then m.erase c else m
  | none => m

/-- The `User` value attached to a response when `RequestUser` is set. -/
def responseUser (requestUser : Bool) (userID : String) : Option User :=
  if requestUser then
    some { ID := userID, Properties := [{ Name := "preferredLanguage", Value := "en", Signature := "" }] }
  else none

/-- Embedding of `Auth`. `accessToken'` is the value of the first `utils.GenerateUUID()`,
`clientToken'` that of the second one (made only for an empty request token), `now` the
clock. The result is the store after the call and the returned pair. -/
def Auth (s : MemoryYggdrasilService) (req : AuthRequest) (accessToken' clientToken' : String)
    (now : Nat) : MemoryYggdrasilService × Except String AuthResponse :=
  match s.users.lookup req.Username with
  | none => (s, .error "Invalid credentials. Invalid username or password.")
  | some userCreds =>
    if userCreds.Password ≠ req.Password then
      (s, .error "Invalid credentials. Invalid username or password.")
    else
      match s.profiles.lookup userCreds.ID with
      | none => (s, .error "No profile found for user")
      | some profile =>
        let accessToken := accessToken'
        let clientToken := if req.ClientToken = "" then clientToken' else req.ClientToken
        let accessTokens := s.accessTokens.insert accessToken
          { UserID := userCreds.ID, ClientToken := clientToken, ProfileID := profile.ID,
            CreatedAt := now }
        let clientTokens := s.clientTokens.insert clientToken accessToken
        ({ s with accessTokens := accessTokens, clientTokens := clientTokens },
          .ok { AccessToken := accessToken, ClientToken := clientToken, AvailableProfiles := [],
                SelectedProfile := some profile,
                User := responseUser req.RequestUser userCreds.ID })

/-- Embedding of `Refresh`; `newAccessToken` is the value of `utils.GenerateUUID()`. -/
def Refresh (s : MemoryYggdrasilService) (req : RefreshRequest) (newAccessToken : String)
    (now : Nat) : MemoryYggdrasilService × Except String AuthResponse :=
  match s.accessTokens.lookup req.AccessToken with
  | none => (s, .error "Invalid token.")
  | some tokenInfo =>
    if req.ClientToken ≠ "" ∧ req.ClientToken ≠ tokenInfo.ClientToken then
      (s, .error "Invalid token.")
    else
      match s.profiles.lookup tokenInfo.UserID with
      | none => (s, .error "No profile found for user")
      | some profile =>
        let accessTokens := s.accessTokens.erase req.AccessToken
        let clientTokens := deleteClientToken s.clientTokens tokenInfo.ClientToken req.AccessToken
        let accessTokens := accessTokens.insert newAccessToken
          { UserID := tokenInfo.UserID, ClientToken := tokenInfo.ClientToken,
            ProfileID := tokenInfo.ProfileID, CreatedAt := now }
        let clientTokens := clientTokens.insert tokenInfo.ClientToken newAccessToken
        ({ s with accessTokens := accessTokens, clientTokens := clientTokens },
          .ok { AccessToken := newAccessToken, ClientToken := tokenInfo.ClientToken,
                AvailableProfiles := [], SelectedProfile := some profile,
                User := responseUser req.RequestUser tokenInfo.UserID })

/-- Embedding of `Validate`: the store is only read. -/
def Validate (s : MemoryYggdrasilService) (req : ValidateRequest) :
    MemoryYggdrasilService × Except String Bool :=
  match s.accessTokens.lookup req.AccessToken with
  | none => (s, .ok false)
  | some tokenInfo =>
    if req.ClientToken ≠ "" ∧ req.ClientToken ≠ tokenInfo.ClientToken then (s, .ok false)
    else (s, .ok true)

/-- Embedding of `Invalidate`; the returned `error` is `none` for nil. -/
def Invalidate (s : MemoryYggdrasilService) (req : InvalidateRequest) :
    MemoryYggdrasilService × Option String :=
  match s.accessTokens.lookup req.AccessToken with
  | none => (s, some "Invalid token.")
  | some tokenInfo =>
    if req.ClientToken ≠ tokenInfo.ClientToken then (s, some "Invalid token.")
    else
      ({ s with
          accessTokens := s.accessTokens.erase req.AccessToken,
          clientTokens := deleteClientToken s.clientTokens tokenInfo.ClientToken req.AccessToken },
        none)

/-- Body of the loop of `Signout` at one entry `accessToken, tokenInfo` of the range. -/
def signoutStep (userID : String) (s : MemoryYggdrasilService)
    (e : (_ : String) × AccessTokenInfo) : MemoryYggdrasilService :=
  if e.2.UserID = userID then
    { s with
        accessTokens := s.accessTokens.erase e.1,
        clientTokens := deleteClientToken s.clientTokens e.2.ClientToken e.1 }
  else s

/-- Embedding of `Signout`. The range loop meets each entry of `accessTokens` once (an
iteration deletes only the entry it is at), in the order of the entries. -/
def Signout (s : MemoryYggdrasilService) (req : SignoutRequest) :
    MemoryYggdrasilService × Option String :=
  match s.users.lookup req.Username with
  | none => (s, some "Invalid credentials. Invalid username or password.")
  | some userCreds =>
    if userCreds.Password ≠ req.Password then
      (s, some "Invalid credentials. Invalid username or password.")
    else
      (s.accessTokens.entries.foldl (signoutStep userCreds.ID) s, none)

/-- Embedding of `AddUser`; `userID` is the value of `utils.GenerateUUID()`. -/
def AddUser (s : MemoryYggdrasilService) (username password : String) (userID : String) :
    MemoryYggdrasilService × Except String String :=
  ({ s with users := s.users.insert username { ID := userID, Password := password } },
    .ok userID)

/-- Embedding of `AddProfile`. -/
def AddProfile (s : MemoryYggdrasilService) (userID name : String) :
    MemoryYggdrasilService × Except String Profile :=
  match GenerateOfflinePlayerUUID name with
  | .error err => (s, .error err)
  | .ok profileID =>
    let profile : Profile := { ID := profileID, Name := name, Properties := [] }
    ({ s with profiles := s.profiles.insert userID profile }, .ok profile)

/-! ## Reachable stores -/

/-- One call of a public operation; the identifiers minted by `utils.GenerateUUID` are
non-empty strings. -/
inductive Step : MemoryYggdrasilService → MemoryYggdrasilService → Prop
  | addUser (s : MemoryYggdrasilService) (username password userID : String)
      (hid : userID ≠ "") : Step s (AddUser s username password userID).1
  | addProfile (s : MemoryYggdrasilService) (userID name : String) :
      Step s (AddProfile s userID name).1
  | auth (s : MemoryYggdrasilService) (req : AuthRequest) (a c : String) (now : Nat)
      (ha : a ≠ "") (hc : c ≠ "") : Step s (Auth s req a c now).1
  | refresh (s : MemoryYggdrasilService) (req : RefreshRequest) (a : String) (now : Nat)
      (ha : a ≠ "") : Step s (Refresh s req a now).1
  | validate (s : MemoryYggdrasilService) (req : ValidateRequest) : Step s (Validate s req).1
  | invalidate (s : MemoryYggdrasilService) (req : InvalidateRequest) :
      Step s (Invalidate s req).1
  | signout (s : MemoryYggdrasilService) (req : SignoutRequest) : Step s (Signout s req).1

/-- Stores reachable from the empty store of `NewMemoryYggdrasilService`. -/
inductive Reachable : MemoryYggdrasilService → Prop
  | init : Reachable NewMemoryYggdrasilService
  | step {s t : MemoryYggdrasilService} : Reachable s → Step s t → Reachable t

/-! ## Stores and requests used as concrete inputs -/

/-- A store with one user `alice` owning the profile `Alice`, and no session. -/
def aliceStore : MemoryYggdrasilService :=
  { users := (∅ : GoMap UserCredentials).insert "alice" { ID := "u1", Password := "secret" },
    accessTokens := ∅,
    clientTokens := ∅,
    profiles := (∅ : GoMap Profile).insert "u1" { ID := "p1", Name := "Alice", Properties := [] } }

/-- An authentication request of `alice` with an empty client token. -/
def aliceAuth : AuthRequest :=
  { Agent := { Name := "Minecraft", Version := 1 }, Username := "alice", Password := "secret",
    ClientToken := "", RequestUser := false }

/-- The store reached by registering `alice`, giving her a profile and authenticating her. -/
def demoStore : MemoryYggdrasilService :=
  (Auth (AddProfile (AddUser NewMemoryYggdrasilService "alice" "secret" "u1").1 "u1" "Alice").1
    aliceAuth "a1" "c1" 7).1

/-- A store where `alice` holds two sessions under the client tokens `c1` and `c2`. -/
def twoSessions : MemoryYggdrasilService :=
  (Auth (Auth aliceStore aliceAuth "a1" "c1" 7).1 { aliceAuth with ClientToken := "c2" }
    "a2" "c3" 8).1

/-! ## Parsing: github.com/google/uuid `Parse`, encoding/hex `DecodeString` -/

/-- Entry of the table `xvalues` of the uuid package, the same as `reverseHexTable` of
encoding/hex: the value of the hex digit with this byte, 255 for any other byte. -/
def xvalue (b : Nat) : Nat :=
  if 48 ≤ b ∧ b ≤ 57 then b - 48
  else if 65 ≤ b ∧ b ≤ 70 then b - 55
  else if 97 ≤ b ∧ b ≤ 102 then b - 87
  else 255

/-- The function `xtob`: the byte written by two hex digits, and whether both are digits. -/
def xtob (x1 x2 : Nat) : Nat × Bool :=
  let b1 := xvalue x1
  let b2 := xvalue x2
  (((b1 <<< 4) ||| b2) % 256, b1 != 255 && b2 != 255)

/-- Offsets of the 16 digit pairs in `xxxxxxxx-xxxx-xxxx-xxxx-xxxxxxxxxxxx`. -/
def uuidOffsets : List Nat := [0, 2, 4, 6, 9, 11, 14, 16, 19, 21, 24, 26, 28, 30, 32, 34]

/-- Tail of `uuid.Parse` for the dashed form: dashes at 8, 13, 18 and 23, then the 16 pairs;
every failure carries the same error. -/
def uuidParseDashed (s : List Nat) : Except String (List Nat) :=
  if s.getD 8 0 ≠ 45 ∨ s.getD 13 0 ≠ 45 ∨ s.getD 18 0 ≠ 45 ∨ s.getD 23 0 ≠ 45 then
    .error "invalid UUID format"
  else if uuidOffsets.all fun x => (xtob (s.getD x 0) (s.getD (x + 1) 0)).2 then
    .ok (uuidOffsets.map fun x => (xtob (s.getD x 0) (s.getD (x + 1) 0)).1)
  else .error "invalid UUID format"

/-- ASCII lower case of a byte. -/
def asciiLower (b : Nat) : Nat := if 65 ≤ b ∧ b ≤ 90 then b + 32 else b

/-- Embedding of `uuid.Parse` on the bytes of its argument: the forms of 36, 45 (`urn:uuid:`
prefix, compared without case), 38 (one enclosing byte on each side) and 32 bytes. The error
of a bad prefix is kept without the quoted input. -/
def uuidParse (s : List Nat) : Except String (List Nat) :=
  if s.length = 36 then uuidParseDashed s
  else if s.length = 45 then
    if (s.take 9).map asciiLower ≠ [117, 114, 110, 58, 117, 117, 105, 100, 58] then
      .error "invalid urn prefix"
    else uuidParseDashed (s.drop 9)
  else if s.length = 38 then uuidParseDashed (s.drop 1)
  else if s.length = 32 then
    if (List.range 16).all fun i => (xtob (s.getD (i * 2) 0) (s.getD (i * 2 + 1) 0)).2 then
      .ok ((List.range 16).map fun i => (xtob (s.getD (i * 2) 0) (s.getD (i * 2 + 1) 0)).1)
    else .error "invalid UUID format"
  else .error ("invalid UUID length: " ++ toString s.length)

/-- Embedding of `hex.DecodeString` on the bytes of its argument; of the error of an invalid
byte only the kind is kept. -/
def hexDecode : List Nat → Except String (List Nat)
  | [] => .ok []
  | [p] =>
    if xvalue p > 0x0f then .error "encoding/hex: invalid byte"
    else .error "encoding/hex: odd length hex string"
  | p :: q :: rest =>
    if xvalue p > 0x0f then .error "encoding/hex: invalid byte"
    else if xvalue q > 0x0f then .error "encoding/hex: invalid byte"
    else
      match hexDecode rest with
      | .error err => .error err
      | .ok dst => .ok ((((xvalue p) <<< 4) ||| xvalue q) % 256 :: dst)

/-- The Go string made of the given bytes, for bytes that are ASCII. -/
def asciiString (b : List Nat) : String := String.mk (b.map Char.ofNat)

/-! ## utils/uuid.go, continued -/

/-- Embedding of `FormatUUID`; `len` and the slices count bytes. The result is returned only
after `uuid.Parse` accepted it, and its bytes are then ASCII. -/
def FormatUUID (undashedUUID : String) : Except String String :=
  let u := stringBytes undashedUUID
  if u.length ≠ 32 then .error "invalid undashed UUID length"
  else
    let formatted := u.take 8 ++ 45 :: (u.drop 8).take 4 ++ 45 :: (u.drop 12).take 4
      ++ 45 :: (u.drop 16).take 4 ++ 45 :: (u.drop 20).take 12
    match uuidParse formatted with
    | .error err => .error err
    | .ok _ => .ok (asciiString formatted)

/-- Embedding of `ParseUndashedUUID`. -/
def ParseUndashedUUID (undashedUUID : String) : Except String (List Nat) :=
  match FormatUUID undashedUUID with
  | .error err => .error err
  | .ok formatted => uuidParse (stringBytes formatted)

/-- Embedding of `ValidateUndashedUUID`. -/
def ValidateUndashedUUID (undashedUUID : String) : Bool :=
  if (stringBytes undashedUUID).length ≠ 32 then false
  else
    match hexDecode (stringBytes undashedUUID) with
    | .error _ => false
    | .ok _ =>
      match ParseUndashedUUID undashedUUID with
      | .error _ => false
      | .ok _ => true

/-- Hexadecimal digit, of either case. -/
def isHexChar (c : Char) : Bool :=
  ('0' ≤ c && c ≤ '9') || ('a' ≤ c && c ≤ 'f') || ('A' ≤ c && c ≤ 'F')

/-- The grouping 8-4-4-4-12 of the characters of a string, with `-` between the groups. -/
def dashedForm (u : String) : String :=
  String.mk (u.data.take 8 ++ '-' :: (u.data.drop 8).take 4 ++ '-' :: (u.data.drop 12).take 4
    ++ '-' :: (u.data.drop 16).take 4 ++ '-' :: (u.data.drop 20).take 12)

/-- One of the characters `0`-`9` and `a`-`f`. -/
def isLowerHexChar (c : Char) : Bool :=
  ('0' ≤ c && c ≤ '9') || ('a' ≤ c && c ≤ 'f')

/-! ## Calls and reachability under a condition on the calls -/

/-- A call of a public operation with its arguments and the values it draws from
`utils.GenerateUUID` and the clock. -/
inductive Call where
  | addUser (username password userID : String)
  | addProfile (userID name : String)
  | auth (req : AuthRequest) (accessToken' clientToken' : String) (now : Nat)
  | refresh (req : RefreshRequest) (newAccessToken : String) (now : Nat)
  | validate (req : ValidateRequest)
  | invalidate (req : InvalidateRequest)
  | signout (req : SignoutRequest)

/-- The store after a call. -/
def Call.run (s : MemoryYggdrasilService) : Call → MemoryYggdrasilService
  | .addUser username password userID => (AddUser s username password userID).1
  | .addProfile userID name => (AddProfile s userID name).1
  | .auth req a c now => (Auth s req a c now).1
  | .refresh req a now => (Refresh s req a now).1
  | .validate req => (Validate s req).1
  | .invalidate req => (Invalidate s req).1
  | .signout req => (Signout s req).1

/-- Stores reachable from the empty store by calls made one after another, each returning
before the next one starts and each satisfying `ok` in the store it is made in. -/
inductive ReachableBy (ok : MemoryYggdrasilService → Call → Prop) :
    MemoryYggdrasilService → Prop
  | init : ReachableBy ok NewMemoryYggdrasilService
  | step {s : MemoryYggdrasilService} (c : Call) :
      ReachableBy ok s → ok s c → ReachableBy ok (c.run s)

/-- Condition on a call: the identifiers it mints are non-empty, and a minted access token is
not an access token already in the store. -/
def mintsFresh (s : MemoryYggdrasilService) : Call → Prop
  | .addUser _ _ userID => userID ≠ ""
  | .auth _ a c _ => a ≠ "" ∧ c ≠ "" ∧ a ∉ s.accessTokens
  | .refresh _ a _ => a ≠ "" ∧ a ∉ s.accessTokens
  | _ => True

/-- Condition on a call: the client token an `Auth` records, the caller's when it is non-empty
and the minted one otherwise, is not the client token of a session already in the store. -/
def clientTokenUnused (s : MemoryYggdrasilService) : Call → Prop
  | .auth req _ c _ =>
    ∀ k info, s.accessTokens.lookup k = some info →
      info.ClientToken ≠ (if req.ClientToken = "" then c else req.ClientToken)
  | _ => True

/-- Condition on a call: `AddUser` registers a username that is not registered yet, and
`AddProfile` is given the ID of a user record of the store. -/
def ownersKnown (s : MemoryYggdrasilService) : Call → Prop
  | .addUser username _ _ => username ∉ s.users
  | .addProfile userID _ => ∃ name u, s.users.lookup name = some u ∧ u.ID = userID
  | _ => True

/-- Every entry of `clientTokens` points at a session that is recorded under that client
token. -/
def IndexSound (s : MemoryYggdrasilService) : Prop :=
  ∀ c a, s.clientTokens.lookup c = some a →
    ∃ info, s.accessTokens.lookup a = some info ∧ info.ClientToken = c

/-- No two sessions carry the same client token. -/
def OneSessionPerClient (s : MemoryYggdrasilService) : Prop :=
  ∀ a b ia ib, s.accessTokens.lookup a = some ia → s.accessTokens.lookup b = some ib →
    ia.ClientToken = ib.ClientToken → a = b

/-- Every key of `profiles` and every `UserID` of a session is the ID of a user record. -/
def OwnersRegistered (s : MemoryYggdrasilService) : Prop :=
  (∀ k, k ∈ s.profiles → ∃ name u, s.users.lookup name = some u ∧ u.ID = k)
  ∧ ∀ a info, s.accessTokens.lookup a = some info →
      ∃ name u, s.users.lookup name = some u ∧ u.ID = info.UserID

/-- The calls that register `alice` and give her a profile. -/
def registerAlice : List Call :=
  [.addUser "alice" "secret" "u1", .addProfile "u1" "Alice"]

/-- The store where `alice` authenticated twice with the client token `c1` of her choice. -/
def sharedClientStore : MemoryYggdrasilService :=
  ([.auth { aliceAuth with ClientToken := "c1" } "a1" "m1" 7,
    .auth { aliceAuth with ClientToken := "c1" } "a2" "m2" 8] : List Call).foldl Call.run
    (registerAlice.foldl Call.run NewMemoryYggdrasilService)

/-- The store after `AddProfile` for a user ID that was never registered. -/
def ghostProfileStore : MemoryYggdrasilService :=
  (AddProfile NewMemoryYggdrasilService "ghost" "Herobrine").1

/-- The store where `alice` authenticated and her username was then registered again. -/
def reRegisteredStore : MemoryYggdrasilService :=
  (AddUser demoStore "alice" "other" "u2").1

/-- The store where `alice` authenticated twice, with the client tokens `c1` (minted) and
`c2` (her choice). -/
def twoChains : MemoryYggdrasilService :=
  ([.auth aliceAuth "a1" "c1" 7,
    .auth { aliceAuth with ClientToken := "c2" } "a2" "m2" 8] : List Call).foldl Call.run
    (registerAlice.foldl Call.run NewMemoryYggdrasilService)

/-! ## Further conditions on calls and invariants -/

/-- Condition on a call: a minted access token is not an access token already in the store. -/
def accessTokenFresh (s : MemoryYggdrasilService) : Call → Prop
  | .auth _ a _ _ => a ∉ s.accessTokens
  | .refresh _ a _ => a ∉ s.accessTokens
  | _ => True

/-- Condition on a call: a minted access token is not an access token already in the store,
and the client token an `Auth` records is not the client token of a session already in it. -/
def freshAndUnused (s : MemoryYggdrasilService) (c : Call) : Prop :=
  accessTokenFresh s c ∧ clientTokenUnused s c

/-- Every session is the one that the index entry of its client token points at. -/
def IndexComplete (s : MemoryYggdrasilService) : Prop :=
  ∀ a info, s.accessTokens.lookup a = some info →
    s.clientTokens.lookup info.ClientToken = some a

/-- Every session has a profile registered for its `UserID`. -/
def SessionsHaveProfile (s : MemoryYggdrasilService) : Prop :=
  ∀ a info, s.accessTokens.lookup a = some info → info.UserID ∈ s.profiles

/-! ## Concurrent callers of `Refresh`

The mutex makes each lock-protected section of `Refresh` atomic; between two sections of one
caller, sections of other callers may run. -/

/-- Where a call of `Refresh` stands between its lock-protected sections, with the values it
holds in local variables. -/
inductive RefreshPhase where
  | start
  | gotToken (tokenInfo : AccessTokenInfo)
  | gotProfile (tokenInfo : AccessTokenInfo) (profile : Profile)
  | done (result : Except String AuthResponse)

/-- A caller of `Refresh`: its request, the identifier `utils.GenerateUUID` gives it, its
clock, and where it stands. -/
structure RefreshCaller where
  req : RefreshRequest
  newAccessToken : String
  now : Nat
  phase : RefreshPhase

/-- The next lock-protected section of a caller, with the unlocked code that follows it:
the read of `accessTokens` and the two token checks; the read of `profiles` and its check;
the locked update with the construction of the response. -/
def refreshSection (s : MemoryYggdrasilService) (c : RefreshCaller) :
    MemoryYggdrasilService × RefreshCaller :=
  match c.phase with
  | .start =>
    match s.accessTokens.lookup c.req.AccessToken with
    | none => (s, { c with phase := .done (.error "Invalid token.") })
    | some tokenInfo =>
      if c.req.ClientToken ≠ "" ∧ c.req.ClientToken ≠ tokenInfo.ClientToken then
        (s, { c with phase := .done (.error "Invalid token.") })
      else (s, { c with phase := .gotToken tokenInfo })
  | .gotToken tokenInfo =>
    match s.profiles.lookup tokenInfo.UserID with
    | none => (s, { c with phase := .done (.error "No profile found for user") })
    | some profile => (s, { c with phase := .gotProfile tokenInfo profile })
  | .gotProfile tokenInfo profile =>
    let accessTokens := s.accessTokens.erase c.req.AccessToken
    let clientTokens :=
      deleteClientToken s.clientTokens tokenInfo.ClientToken c.req.AccessToken
    let accessTokens := accessTokens.insert c.newAccessToken
      { UserID := tokenInfo.UserID, ClientToken := tokenInfo.ClientToken,
        ProfileID := tokenInfo.ProfileID, CreatedAt := c.now }
    let clientTokens := clientTokens.insert tokenInfo.ClientToken c.newAccessToken
    ({ s with accessTokens := accessTokens, clientTokens := clientTokens },
      { c with phase := .done (.ok
          { AccessToken := c.newAccessToken, ClientToken := tokenInfo.ClientToken,
            AvailableProfiles := [], SelectedProfile := some profile,
            User := responseUser c.req.RequestUser tokenInfo.UserID }) })
  | .done result => (s, { c with phase := .done result })

/-- Caller number `i` runs its next section. -/
def stepCaller (st : MemoryYggdrasilService × List RefreshCaller) (i : Nat) :
    MemoryYggdrasilService × List RefreshCaller :=
  match st.2[i]? with
  | none => st
  | some c => ((refreshSection st.1 c).1, st.2.set i (refreshSection st.1 c).2)

/-- The store and the callers after the sections ran in the order of the schedule. -/
def runSchedule (s : MemoryYggdrasilService) (callers : List RefreshCaller)
    (schedule : List Nat) : MemoryYggdrasilService × List RefreshCaller :=
  schedule.foldl stepCaller (s, callers)

/-- The result a caller returned, if it has returned. -/
def RefreshCaller.result (c : RefreshCaller) : Option (Except String AuthResponse) :=
  match c.phase with
  | .done r => some r
  | _ => none

/-- Two callers refreshing the access token `a1` of `alice` with her client token `c1`. -/
def racingCallers : List RefreshCaller :=
  [{ req := ⟨"a1", "c1", false, none⟩, newAccessToken := "n1", now := 8, phase := .start },
   { req := ⟨"a1", "c1", false, none⟩, newAccessToken := "n2", now := 9, phase := .start }]

/-- The store where `alice` holds the one session `a1` under the client token `c1`. -/
def oneSession : MemoryYggdrasilService := (Auth aliceStore aliceAuth "a1" "c1" 7).1

/-! ## Identifier derivation -/

theorem leBytes_length (n x : Nat) : (leBytes n x).length = n := by
  induction n generalizing x with
  | zero => rfl
  | succ n ih => simp [leBytes, ih]

theorem leBytes_lt (n x : Nat) : ∀ b ∈ leBytes n x, b < 256 := by
  induction n generalizing x with
  | zero => simp [leBytes]
  | succ n ih =>
    intro b hb
    simp only [leBytes, List.mem_cons] at hb
    rcases hb with rfl | hb
    · exact Nat.mod_lt _ (by decide)
    · exact ih _ b hb

theorem md5Sum_length (data : List Nat) : (md5Sum data).length = 16 := by
  simp [md5Sum, leBytes_length]

theorem md5Sum_lt (data : List Nat) : ∀ b ∈ md5Sum data, b < 256 := by
  intro b hb
  simp only [md5Sum, List.mem_append] at hb
  rcases hb with ((hb | hb) | hb) | hb <;> exact leBytes_lt _ _ b hb

theorem hextable_getD_ne_dash (k : Nat) : hextable.getD k '0' ≠ '-' := by
  by_cases h : k < 16
  · interval_cases k <;> decide
  · have hlen : hextable.length = 16 := by rfl
    rw [List.getD_eq_default _ _ (by omega)]
    decide

theorem hextable_getD_eq (k : Nat) (h : k < 16) : hextable.getD k '0' = lowerHexDigit k := by
  interval_cases k <;> rfl

theorem replaceAllChar_append (s t : List Char) (old : Char) (new : List Char) :
    replaceAllChar (s ++ t) old new = replaceAllChar s old new ++ replaceAllChar t old new := by
  simp [replaceAllChar]

theorem replaceAllChar_dash_cons (s : List Char) :
    replaceAllChar ('-' :: s) '-' [] = replaceAllChar s '-' [] := by
  simp [replaceAllChar]

theorem replaceAllChar_hexEncode (src : List Nat) :
    replaceAllChar (hexEncode src) '-' [] = hexEncode src := by
  induction src with
  | nil => rfl
  | cons v vs ih =>
    have h : hexEncode (v :: vs)
        = hextable.getD (v >>> 4) '0' :: hextable.getD (v &&& 0x0f) '0' :: hexEncode vs := by
      simp [hexEncode]
    rw [h]
    unfold replaceAllChar at ih ⊢
    simp only [List.flatMap_cons, if_neg (hextable_getD_ne_dash _), ih]
    rfl

theorem hexEncode_append (s t : List Nat) : hexEncode (s ++ t) = hexEncode s ++ hexEncode t := by
  simp [hexEncode]

theorem uuid_groups (u : List Nat) :
    u.take 4 ++ ((u.drop 4).take 2 ++ ((u.drop 6).take 2 ++ ((u.drop 8).take 2 ++ u.drop 10)))
      = u := by
  have h1 : (u.drop 8).take 2 ++ u.drop 10 = u.drop 8 := by
    have := List.take_append_drop 2 (u.drop 8)
    simpa [List.drop_drop] using this
  have h2 : (u.drop 6).take 2 ++ u.drop 8 = u.drop 6 := by
    have := List.take_append_drop 2 (u.drop 6)
    simpa [List.drop_drop] using this
  have h3 : (u.drop 4).take 2 ++ u.drop 6 = u.drop 4 := by
    have := List.take_append_drop 2 (u.drop 4)
    simpa [List.drop_drop] using this
  rw [h1, h2, h3, List.take_append_drop]

theorem replaceAllChar_uuidString (u : List Nat) :
    replaceAllChar (uuidString u) '-' [] = hexEncode u := by
  unfold uuidString
  simp only [replaceAllChar_append, replaceAllChar_dash_cons, replaceAllChar_hexEncode]
  rw [← hexEncode_append, ← hexEncode_append, ← hexEncode_append, ← hexEncode_append]
  simp only [List.append_assoc]
  rw [uuid_groups]

theorem hexEncode_eq_rendering (src : List Nat) (h : ∀ b ∈ src, b < 256) :
    String.mk (hexEncode src) = hexRendering src := by
  unfold hexRendering hexEncode
  congr 1
  induction src with
  | nil => rfl
  | cons v vs ih =>
    have hv : v < 256 := h v (List.mem_cons_self _ _)
    have e1 : v >>> 4 = v / 16 := by rw [Nat.shiftRight_eq_div_pow]
    have e2 : v &&& 0x0f = v % 16 := Nat.and_pow_two_sub_one_eq_mod v 4
    simp only [List.flatMap_cons]
    rw [ih (fun b hb => h b (List.mem_cons_of_mem _ hb)), e1, e2,
      hextable_getD_eq _ (by omega), hextable_getD_eq _ (Nat.mod_lt _ (by decide))]


theorem getD_set_eq (l : List Nat) (i v : Nat) (h : i < l.length) : (l.set i v).getD i 0 = v := by
  simp [List.getD_eq_getElem?_getD, List.getElem?_set, h]

theorem getD_set_ne (l : List Nat) (i j v : Nat) (h : i ≠ j) :
    (l.set i v).getD j 0 = l.getD j 0 := by
  simp [List.getD_eq_getElem?_getD, List.getElem?_set, h]

theorem mem_set_lt (l : List Nat) (i v : Nat) (hl : ∀ b ∈ l, b < 256) (hv : v < 256) :
    ∀ b ∈ l.set i v, b < 256 := by
  intro b hb
  rcases List.mem_or_eq_of_mem_set hb with h | h
  · exact hl b h
  · exact h ▸ hv

theorem hexRendering_length (l : List Nat) : (hexRendering l).length = 2 * l.length := by
  unfold hexRendering String.length
  induction l with
  | nil => rfl
  | cons v vs ih =>
    simp only [List.flatMap_cons, List.length_append, List.length_cons, List.length_nil] at ih ⊢
    omega

theorem offlineUUID_digest (n : String) :
    ∃ d' : List Nat,
      GenerateOfflinePlayerUUID n = .ok (hexRendering d')
      ∧ d'.length = 16
      ∧ (∀ b ∈ d', b < 256)
      ∧ d'.getD 6 0 = ((md5Sum (stringBytes ("OfflinePlayer:" ++ n))).getD 6 0 &&& 0x0f) ||| 0x30
      ∧ d'.getD 8 0 = ((md5Sum (stringBytes ("OfflinePlayer:" ++ n))).getD 8 0 &&& 0x3f) ||| 0x80
      ∧ ∀ i, i ≠ 6 → i ≠ 8 →
          d'.getD i 0 = (md5Sum (stringBytes ("OfflinePlayer:" ++ n))).getD i 0 := by
  generalize hd : md5Sum (stringBytes ("OfflinePlayer:" ++ n)) = d
  have hlen : d.length = 16 := hd ▸ md5Sum_length _
  have hlt : ∀ b ∈ d, b < 256 := hd ▸ md5Sum_lt _
  let h1 := d.set 6 (d.getD 6 0 &&& 0x0f)
  let h2 := h1.set 6 (h1.getD 6 0 ||| 0x30)
  let h3 := h2.set 8 (h2.getD 8 0 &&& 0x3f)
  let h4 := h3.set 8 (h3.getD 8 0 ||| 0x80)
  have l4 : h4.length = 16 := by simp [h4, h3, h2, h1, hlen]
  have e6 : h4.getD 6 0 = (d.getD 6 0 &&& 0x0f) ||| 0x30 := by
    simp only [h4, h3, h2, h1]
    rw [getD_set_ne _ 8 6 _ (by decide), getD_set_ne _ 8 6 _ (by decide),
      getD_set_eq _ 6 _ (by simp [hlen]), getD_set_eq _ 6 _ (by simp [hlen])]
  have e8 : h4.getD 8 0 = (d.getD 8 0 &&& 0x3f) ||| 0x80 := by
    simp only [h4, h3, h2, h1]
    rw [getD_set_eq _ 8 _ (by simp [hlen]), getD_set_eq _ 8 _ (by simp [hlen]),
      getD_set_ne _ 6 8 _ (by decide), getD_set_ne _ 6 8 _ (by decide)]
  have eo : ∀ i, i ≠ 6 → i ≠ 8 → h4.getD i 0 = d.getD i 0 := by
    intro i i6 i8
    simp only [h4, h3, h2, h1]
    rw [getD_set_ne _ 8 i _ (Ne.symm i8), getD_set_ne _ 8 i _ (Ne.symm i8),
      getD_set_ne _ 6 i _ (Ne.symm i6), getD_set_ne _ 6 i _ (Ne.symm i6)]
  have b4 : ∀ b ∈ h4, b < 256 := by
    have a1 : ∀ b ∈ h1, b < 256 :=
      mem_set_lt _ _ _ hlt (lt_of_le_of_lt Nat.and_le_right (by decide))
    have a2 : ∀ b ∈ h2, b < 256 := by
      refine mem_set_lt _ _ _ a1 ?_
      have : h1.getD 6 0 < 2 ^ 8 := by
        simp only [h1]
        rw [getD_set_eq _ 6 _ (by simp [hlen])]
        exact lt_of_le_of_lt Nat.and_le_right (by decide)
      exact Nat.or_lt_two_pow this (by decide)
    have a3 : ∀ b ∈ h3, b < 256 :=
      mem_set_lt _ _ _ a2 (lt_of_le_of_lt Nat.and_le_right (by decide))
    refine mem_set_lt _ _ _ a3 ?_
    have : h3.getD 8 0 < 2 ^ 8 := by
      simp only [h3]
      rw [getD_set_eq _ 8 _ (by simp [h2, h1, hlen])]
      exact lt_of_le_of_lt Nat.and_le_right (by decide)
    exact Nat.or_lt_two_pow this (by decide)
  have hres : GenerateOfflinePlayerUUID n = .ok (hexRendering h4) := by
    unfold GenerateOfflinePlayerUUID
    simp only [hd]
    have : uuidFromBytes h4 = .ok h4 := by simp [uuidFromBytes, l4]
    show (match uuidFromBytes h4 with
      | .error err => Except.error err
      | .ok parsedUUID => Except.ok (String.mk (replaceAllChar (uuidString parsedUUID) '-' [])))
      = _
    rw [this]
    simp only [replaceAllChar_uuidString, hexEncode_eq_rendering h4 b4]
  exact ⟨h4, hres, l4, b4, e6, e8, eo⟩

set_option maxRecDepth 100000 in
theorem offlineUUID_Bob :
    GenerateOfflinePlayerUUID "Bob" = .ok "faa5dca3c3d4354bae1bdde9e5a14b3b" := by
  rfl

/-- C1: `GenerateOfflinePlayerUUID` never fails and returns the lowercase hex rendering
(32 characters, no separators) of the MD5 digest of `"OfflinePlayer:" + n` with byte 6 replaced
by `(d[6] AND 0x0f) OR 0x30`, byte 8 by `(d[8] AND 0x3f) OR 0x80` and the other 14 bytes kept; it
is a function of the name, and the value for `"Bob"` is pinned. -/
theorem GenerateOfflinePlayerUUID_spec :
    (∀ n : String, ∃ d' : List Nat,
      GenerateOfflinePlayerUUID n = .ok (hexRendering d')
      ∧ (hexRendering d').length = 32
      ∧ (md5Sum (stringBytes ("OfflinePlayer:" ++ n))).length = 16
      ∧ d'.length = 16
      ∧ d'.getD 6 0 = ((md5Sum (stringBytes ("OfflinePlayer:" ++ n))).getD 6 0 &&& 0x0f) ||| 0x30
      ∧ d'.getD 8 0 = ((md5Sum (stringBytes ("OfflinePlayer:" ++ n))).getD 8 0 &&& 0x3f) ||| 0x80
      ∧ ∀ i, i ≠ 6 → i ≠ 8 →
          d'.getD i 0 = (md5Sum (stringBytes ("OfflinePlayer:" ++ n))).getD i 0)
    ∧ (∀ n m : String, n = m → GenerateOfflinePlayerUUID n = GenerateOfflinePlayerUUID m)
    ∧ GenerateOfflinePlayerUUID "Bob" = .ok "faa5dca3c3d4354bae1bdde9e5a14b3b" := by
  refine ⟨?_, fun n m h => by rw [h], offlineUUID_Bob⟩
  intro n
  obtain ⟨d', hres, l4, _, e6, e8, eo⟩ := offlineUUID_digest n
  refine ⟨d', hres, ?_, md5Sum_length _, l4, e6, e8, eo⟩
  rw [hexRendering_length, l4]

/-! ## The token authority -/

theorem lookup_insert_some {V : Type} (m : GoMap V) (a k : String) (v w : V)
    (h : (m.insert a v).lookup k = some w) : (k = a ∧ w = v) ∨ (k ≠ a ∧ m.lookup k = some w) := by
  by_cases hk : k = a
  · subst hk
    rw [AList.lookup_insert] at h
    exact Or.inl ⟨rfl, (Option.some.inj h).symm⟩
  · rw [AList.lookup_insert_ne hk] at h
    exact Or.inr ⟨hk, h⟩

theorem lookup_erase_some {V : Type} (m : GoMap V) (a k : String) (w : V)
    (h : (m.erase a).lookup k = some w) : k ≠ a ∧ m.lookup k = some w := by
  by_cases hk : k = a
  · subst hk
    rw [AList.lookup_erase] at h
    exact absurd h (by simp)
  · rw [AList.lookup_erase_ne hk] at h
    exact ⟨hk, h⟩

theorem mem_of_lookup {V : Type} (m : GoMap V) (k : String) (v : V)
    (h : m.lookup k = some v) : k ∈ m :=
  AList.lookup_isSome.mp (by rw [h]; rfl)

theorem lookup_of_mem {V : Type} (m : GoMap V) (k : String) (h : k ∈ m) :
    ∃ v, m.lookup k = some v :=
  Option.isSome_iff_exists.mp (AList.lookup_isSome.mpr h)

/-- C2: `Auth` returns the credentials error exactly when the username is not registered or
the stored password differs from the request's, otherwise the profile error exactly when the
user's ID has no profile, otherwise a response with a nil error. -/
theorem Auth_result (s : MemoryYggdrasilService) (req : AuthRequest) (a c : String) (now : Nat) :
    ((Auth s req a c now).2 = .error "Invalid credentials. Invalid username or password." ↔
        (req.Username ∉ s.users ∨
          ∃ u, s.users.lookup req.Username = some u ∧ u.Password ≠ req.Password))
    ∧ ((Auth s req a c now).2 = .error "No profile found for user" ↔
        ∃ u, s.users.lookup req.Username = some u ∧ u.Password = req.Password
          ∧ u.ID ∉ s.profiles)
    ∧ ((∃ resp, (Auth s req a c now).2 = .ok resp) ↔
        ∃ u, s.users.lookup req.Username = some u ∧ u.Password = req.Password
          ∧ u.ID ∈ s.profiles) := by
  have hne : ("No profile found for user" : String)
      ≠ "Invalid credentials. Invalid username or password." := by decide
  unfold Auth
  cases hu : s.users.lookup req.Username with
  | none =>
    have hmem : req.Username ∉ s.users := AList.lookup_eq_none.mp hu
    simp [hmem, hne.symm]
  | some u =>
    have hmem : req.Username ∈ s.users := mem_of_lookup _ _ _ hu
    by_cases hp : u.Password = req.Password
    · cases hq : s.profiles.lookup u.ID with
      | none =>
        have hq2 : u.ID ∉ s.profiles := AList.lookup_eq_none.mp hq
        simp [hp, hmem, hq, hq2, hne]
      | some p =>
        have hq2 : u.ID ∈ s.profiles := mem_of_lookup _ _ _ hq
        simp [hp, hmem, hq, hq2]
    · simp [hp, hmem, hne.symm]

theorem Auth_ok_inv (s : MemoryYggdrasilService) (req : AuthRequest) (a c : String) (now : Nat)
    (resp : AuthResponse) (h : (Auth s req a c now).2 = .ok resp) :
    ∃ u p, s.users.lookup req.Username = some u ∧ u.Password = req.Password
      ∧ s.profiles.lookup u.ID = some p
      ∧ (Auth s req a c now).1 =
          { s with
            accessTokens := s.accessTokens.insert a
              { UserID := u.ID,
                ClientToken := if req.ClientToken = "" then c else req.ClientToken,
                ProfileID := p.ID, CreatedAt := now },
            clientTokens :=
              s.clientTokens.insert (if req.ClientToken = "" then c else req.ClientToken) a }
      ∧ resp =
          { AccessToken := a,
            ClientToken := if req.ClientToken = "" then c else req.ClientToken,
            AvailableProfiles := [], SelectedProfile := some p,
            User := responseUser req.RequestUser u.ID } := by
  unfold Auth at h ⊢
  cases hu : s.users.lookup req.Username with
  | none => simp [hu] at h
  | some u =>
    by_cases hp : u.Password = req.Password
    · cases hq : s.profiles.lookup u.ID with
      | none => simp [hu, hp, hq] at h
      | some p =>
        simp only [hu, hp, hq, ne_eq, not_true_eq_false, if_false] at h ⊢
        exact ⟨u, p, rfl, hp, hq, rfl, (Except.ok.inj h).symm⟩
    · simp [hu, hp] at h

theorem Validate_eq (s : MemoryYggdrasilService) (req : ValidateRequest) :
    Validate s req =
      (s, .ok (match s.accessTokens.lookup req.AccessToken with
        | none => false
        | some info => decide (req.ClientToken = "" ∨ req.ClientToken = info.ClientToken))) := by
  unfold Validate
  cases s.accessTokens.lookup req.AccessToken with
  | none => rfl
  | some info =>
    by_cases h1 : req.ClientToken = ""
    · simp [h1]
    · by_cases h2 : req.ClientToken = info.ClientToken
      · simp [h2]
      · simp [h1, h2]

/-- C3: after a successful `Auth` the response carries the request's client token when that
is non-empty and the minted one otherwise, the minted access token and the user's registered
profile; in the resulting store the session is recorded under the access token, the client
token points at it, and `Validate` accepts the access token with that client token and with
the empty one. -/
theorem Auth_success (s : MemoryYggdrasilService) (req : AuthRequest) (a c : String) (now : Nat)
    (resp : AuthResponse) (h : (Auth s req a c now).2 = .ok resp) :
    (req.ClientToken ≠ "" → resp.ClientToken = req.ClientToken)
    ∧ (req.ClientToken = "" → resp.ClientToken = c)
    ∧ resp.AccessToken = a
    ∧ (∃ u p, s.users.lookup req.Username = some u ∧ s.profiles.lookup u.ID = some p
        ∧ resp.SelectedProfile = some p)
    ∧ (Validate (Auth s req a c now).1 ⟨resp.AccessToken, resp.ClientToken⟩).2 = .ok true
    ∧ (Validate (Auth s req a c now).1 ⟨resp.AccessToken, ""⟩).2 = .ok true
    ∧ (∃ info, (Auth s req a c now).1.accessTokens.lookup resp.AccessToken = some info
        ∧ info.ClientToken = resp.ClientToken)
    ∧ (Auth s req a c now).1.clientTokens.lookup resp.ClientToken = some resp.AccessToken := by
  obtain ⟨u, p, hu, _, hq, hs, hr⟩ := Auth_ok_inv s req a c now resp h
  subst hr
  rw [hs]
  refine ⟨fun hc => by simp [hc], fun hc => by simp [hc], rfl, ⟨u, p, hu, hq, rfl⟩, ?_, ?_,
    ⟨_, AList.lookup_insert _, rfl⟩, AList.lookup_insert _⟩
  · simp [Validate_eq, AList.lookup_insert]
  · simp [Validate_eq, AList.lookup_insert]

/-- Witness for C3: `alice` authenticates on a store holding her account and profile. -/
theorem Auth_success_witness :
    (Auth aliceStore aliceAuth "a1" "c1" 7).2
        = .ok ⟨"a1", "c1", [], some ⟨"p1", "Alice", []⟩, none⟩
    ∧ (Validate (Auth aliceStore aliceAuth "a1" "c1" 7).1 ⟨"a1", "c1"⟩).2 = .ok true
    ∧ (Validate (Auth aliceStore aliceAuth "a1" "c1" 7).1 ⟨"a1", ""⟩).2 = .ok true
    ∧ (Auth aliceStore aliceAuth "a1" "c1" 7).1.clientTokens.lookup "c1" = some "a1" :=
  have h := Auth_success aliceStore aliceAuth "a1" "c1" 7
    ⟨"a1", "c1", [], some ⟨"p1", "Alice", []⟩, none⟩ (by rfl)
  ⟨by rfl, h.2.2.2.2.1, h.2.2.2.2.2.1, h.2.2.2.2.2.2.2⟩

/-- C6: `Validate` never returns an error, answers true exactly when the access token is a key
of `accessTokens` and the request's client token is empty or equal to the stored one, and
leaves the store as it was. -/
theorem Validate_spec (s : MemoryYggdrasilService) (req : ValidateRequest) :
    (Validate s req).1 = s
    ∧ ∃ b, (Validate s req).2 = .ok b
      ∧ (b = true ↔ ∃ info, s.accessTokens.lookup req.AccessToken = some info
          ∧ (req.ClientToken = "" ∨ req.ClientToken = info.ClientToken))
      ∧ (req.AccessToken ∉ s.accessTokens → b = false) := by
  rw [Validate_eq]
  refine ⟨rfl, _, rfl, ?_, ?_⟩
  · cases s.accessTokens.lookup req.AccessToken with
    | none => simp
    | some info => simp
  · intro hn
    rw [AList.lookup_eq_none.mpr hn]

theorem Refresh_ok_eq (s : MemoryYggdrasilService) (req : RefreshRequest) (ra : String)
    (now : Nat) (info : AccessTokenInfo) (p : Profile)
    (hi : s.accessTokens.lookup req.AccessToken = some info)
    (hc : req.ClientToken = "" ∨ req.ClientToken = info.ClientToken)
    (hq : s.profiles.lookup info.UserID = some p) :
    Refresh s req ra now =
      ({ s with
          accessTokens := (s.accessTokens.erase req.AccessToken).insert ra
            { UserID := info.UserID, ClientToken := info.ClientToken,
              ProfileID := info.ProfileID, CreatedAt := now },
          clientTokens :=
            (deleteClientToken s.clientTokens info.ClientToken req.AccessToken).insert
              info.ClientToken ra },
        .ok { AccessToken := ra, ClientToken := info.ClientToken, AvailableProfiles := [],
              SelectedProfile := some p,
              User := responseUser req.RequestUser info.UserID }) := by
  unfold Refresh
  have hc2 : ¬ (req.ClientToken ≠ "" ∧ req.ClientToken ≠ info.ClientToken) := by
    rintro ⟨h1, h2⟩
    rcases hc with h | h
    · exact h1 h
    · exact h2 h
  simp only [hi, hq, if_neg hc2]

/-- C4: token chain integrity. After a successful `Auth` returning `(a, c)`, a `Refresh` of
`a` with client token `c` or with the empty one, minting `a'` different from `a`, succeeds
and answers the client token `c`; then `Validate` rejects `a` with every client token and
accepts `a'` with `c`, and the session of `a'` has the user, profile and client token of the
session of `a`. It holds for every store, reachable ones among them. -/
theorem token_chain_integrity (s : MemoryYggdrasilService) (req : AuthRequest) (a c : String)
    (now : Nat) (resp : AuthResponse) (x a' : String) (now' : Nat) (requestUser : Bool)
    (selected : Option Profile)
    (hauth : (Auth s req a c now).2 = .ok resp)
    (hx : x = resp.ClientToken ∨ x = "")
    (hne : a' ≠ resp.AccessToken) :
    ∃ resp' old new,
      (Refresh (Auth s req a c now).1 ⟨resp.AccessToken, x, requestUser, selected⟩ a' now').2
        = .ok resp'
      ∧ resp'.ClientToken = resp.ClientToken
      ∧ resp'.AccessToken = a'
      ∧ (∀ y, (Validate
          (Refresh (Auth s req a c now).1 ⟨resp.AccessToken, x, requestUser, selected⟩ a' now').1
          ⟨resp.AccessToken, y⟩).2 = .ok false)
      ∧ (Validate
          (Refresh (Auth s req a c now).1 ⟨resp.AccessToken, x, requestUser, selected⟩ a' now').1
          ⟨a', resp.ClientToken⟩).2 = .ok true
      ∧ (Auth s req a c now).1.accessTokens.lookup resp.AccessToken = some old
      ∧ (Refresh (Auth s req a c now).1 ⟨resp.AccessToken, x, requestUser, selected⟩ a'
          now').1.accessTokens.lookup a' = some new
      ∧ new.UserID = old.UserID ∧ new.ProfileID = old.ProfileID
      ∧ new.ClientToken = old.ClientToken := by
  obtain ⟨u, p, _, _, hq, hs, hr⟩ := Auth_ok_inv s req a c now resp hauth
  subst hr
  simp only at hx hne ⊢
  generalize hct : (if req.ClientToken = "" then c else req.ClientToken) = ct at hs hx ⊢
  have hi : (Auth s req a c now).1.accessTokens.lookup a = some ⟨u.ID, ct, p.ID, now⟩ := by
    rw [hs]
    exact AList.lookup_insert _
  have hq1 : (Auth s req a c now).1.profiles.lookup u.ID = some p := by
    rw [hs]
    exact hq
  have hR := Refresh_ok_eq (Auth s req a c now).1 ⟨a, x, requestUser, selected⟩ a' now'
    ⟨u.ID, ct, p.ID, now⟩ p hi (by rcases hx with h | h <;> simp [h]) hq1
  simp only at hR
  rw [hR]
  refine ⟨_, ⟨u.ID, ct, p.ID, now⟩, ⟨u.ID, ct, p.ID, now'⟩, rfl, rfl, rfl, ?_, ?_, hi,
    AList.lookup_insert _, rfl, rfl, rfl⟩
  · intro y
    simp [Validate_eq, AList.lookup_insert_ne (Ne.symm hne), AList.lookup_erase]
  · simp [Validate_eq, AList.lookup_insert]

/-- Witness for C4: `alice` authenticates and refreshes with her client token. -/
theorem token_chain_integrity_witness :
    (Auth aliceStore aliceAuth "a1" "c1" 7).2
        = .ok ⟨"a1", "c1", [], some ⟨"p1", "Alice", []⟩, none⟩
    ∧ ∃ resp' old new,
      (Refresh (Auth aliceStore aliceAuth "a1" "c1" 7).1 ⟨"a1", "c1", false, none⟩ "a2" 8).2
        = .ok resp'
      ∧ resp'.ClientToken = "c1"
      ∧ resp'.AccessToken = "a2"
      ∧ (∀ y, (Validate
          (Refresh (Auth aliceStore aliceAuth "a1" "c1" 7).1 ⟨"a1", "c1", false, none⟩ "a2" 8).1
          ⟨"a1", y⟩).2 = .ok false)
      ∧ (Validate
          (Refresh (Auth aliceStore aliceAuth "a1" "c1" 7).1 ⟨"a1", "c1", false, none⟩ "a2" 8).1
          ⟨"a2", "c1"⟩).2 = .ok true
      ∧ (Auth aliceStore aliceAuth "a1" "c1" 7).1.accessTokens.lookup "a1" = some old
      ∧ (Refresh (Auth aliceStore aliceAuth "a1" "c1" 7).1 ⟨"a1", "c1", false, none⟩ "a2"
          8).1.accessTokens.lookup "a2" = some new
      ∧ new.UserID = old.UserID ∧ new.ProfileID = old.ProfileID
      ∧ new.ClientToken = old.ClientToken :=
  ⟨by rfl, token_chain_integrity aliceStore aliceAuth "a1" "c1" 7
    ⟨"a1", "c1", [], some ⟨"p1", "Alice", []⟩, none⟩ "c1" "a2" 8 false none (by rfl)
    (Or.inl rfl) (by decide)⟩

/-- C5: `Refresh` returns no response and the error "Invalid token." exactly when the access
token is not a key of `accessTokens`, or the request's client token is non-empty and differs
from the stored one; the store is then unchanged, and an empty client token never causes this
failure for an access token that is present. -/
theorem Refresh_invalid_token (s : MemoryYggdrasilService) (req : RefreshRequest) (ra : String)
    (now : Nat) :
    ((Refresh s req ra now).2 = .error "Invalid token." ↔
      (req.AccessToken ∉ s.accessTokens ∨
        ∃ info, s.accessTokens.lookup req.AccessToken = some info
          ∧ req.ClientToken ≠ "" ∧ req.ClientToken ≠ info.ClientToken))
    ∧ ((Refresh s req ra now).2 = .error "Invalid token." → (Refresh s req ra now).1 = s)
    ∧ (req.AccessToken ∈ s.accessTokens → req.ClientToken = "" →
        (Refresh s req ra now).2 ≠ .error "Invalid token.") := by
  have hne : ("No profile found for user" : String) ≠ "Invalid token." := by decide
  unfold Refresh
  cases hi : s.accessTokens.lookup req.AccessToken with
  | none =>
    have hmem : req.AccessToken ∉ s.accessTokens := AList.lookup_eq_none.mp hi
    simp [hmem]
  | some info =>
    have hmem : req.AccessToken ∈ s.accessTokens := mem_of_lookup _ _ _ hi
    by_cases hc : req.ClientToken ≠ "" ∧ req.ClientToken ≠ info.ClientToken
    · simp [hmem, hc.1, hc.2]
    · cases hq : s.profiles.lookup info.UserID with
      | none =>
        simp only [if_neg hc, hq]
        refine ⟨⟨fun h => absurd (Except.error.inj h) hne, ?_⟩, fun _ => trivial,
          fun _ _ h => absurd (Except.error.inj h) hne⟩
        rintro (h | ⟨i, hi2, h1, h2⟩)
        · exact absurd hmem h
        · exact absurd ⟨h1, (Option.some.inj hi2) ▸ h2⟩ hc
      | some p =>
        simp only [if_neg hc, hq]
        refine ⟨⟨fun h => by simp at h, ?_⟩, fun h => by simp at h, fun _ _ h => by simp at h⟩
        rintro (h | ⟨i, hi2, h1, h2⟩)
        · exact absurd hmem h
        · exact absurd ⟨h1, (Option.some.inj hi2) ▸ h2⟩ hc

theorem Invalidate_eq_ok (s : MemoryYggdrasilService) (req : InvalidateRequest)
    (info : AccessTokenInfo) (hi : s.accessTokens.lookup req.AccessToken = some info)
    (hc : req.ClientToken = info.ClientToken) :
    Invalidate s req =
      ({ s with
          accessTokens := s.accessTokens.erase req.AccessToken,
          clientTokens := deleteClientToken s.clientTokens info.ClientToken req.AccessToken },
        none) := by
  unfold Invalidate
  simp [hi, hc]

theorem signoutStep_lookup (userID : String) (st : MemoryYggdrasilService)
    (e : (_ : String) × AccessTokenInfo) (k : String) (info : AccessTokenInfo)
    (h : (signoutStep userID st e).accessTokens.lookup k = some info) :
    st.accessTokens.lookup k = some info := by
  unfold signoutStep at h
  by_cases hU : e.2.UserID = userID
  · rw [if_pos hU] at h
    exact (lookup_erase_some _ _ _ _ h).2
  · rw [if_neg hU] at h
    exact h

theorem signout_fold_lookup (userID : String) (l : List ((_ : String) × AccessTokenInfo))
    (st : MemoryYggdrasilService) (k : String) (info : AccessTokenInfo)
    (h : (l.foldl (signoutStep userID) st).accessTokens.lookup k = some info) :
    st.accessTokens.lookup k = some info := by
  induction l generalizing st with
  | nil => exact h
  | cons e l ih =>
    rw [List.foldl_cons] at h
    exact signoutStep_lookup userID st e k info (ih _ h)

theorem signout_fold_none (userID : String) (l : List ((_ : String) × AccessTokenInfo))
    (st : MemoryYggdrasilService) (k : String) (h : st.accessTokens.lookup k = none) :
    (l.foldl (signoutStep userID) st).accessTokens.lookup k = none := by
  cases hf : (l.foldl (signoutStep userID) st).accessTokens.lookup k with
  | none => rfl
  | some info =>
    rw [signout_fold_lookup userID l st k info hf] at h
    exact absurd h (by simp)

theorem signout_fold_erased (userID : String) (l : List ((_ : String) × AccessTokenInfo))
    (st : MemoryYggdrasilService) (e : (_ : String) × AccessTokenInfo) (he : e ∈ l)
    (hU : e.2.UserID = userID) :
    (l.foldl (signoutStep userID) st).accessTokens.lookup e.1 = none := by
  induction l generalizing st with
  | nil => exact absurd he (List.not_mem_nil _)
  | cons e0 l ih =>
    rw [List.foldl_cons]
    rcases List.mem_cons.mp he with h | h
    · subst h
      apply signout_fold_none
      unfold signoutStep
      rw [if_pos hU]
      exact AList.lookup_erase _ _
    · exact ih _ h

theorem Signout_eq_ok (s : MemoryYggdrasilService) (req : SignoutRequest) (u : UserCredentials)
    (hu : s.users.lookup req.Username = some u) (hp : u.Password = req.Password) :
    Signout s req = (s.accessTokens.entries.foldl (signoutStep u.ID) s, none) := by
  unfold Signout
  simp [hu, hp]

theorem Step_clientToken_nonempty (s t : MemoryYggdrasilService) (hst : Step s t)
    (hs : ∀ k info, s.accessTokens.lookup k = some info → info.ClientToken ≠ "") :
    ∀ k info, t.accessTokens.lookup k = some info → info.ClientToken ≠ "" := by
  cases hst with
  | addUser username password userID hid => exact hs
  | addProfile userID name =>
    unfold AddProfile
    cases GenerateOfflinePlayerUUID name <;> exact hs
  | auth req a c now ha hc =>
    cases hr : (Auth s req a c now).2 with
    | error e =>
      unfold Auth at hr ⊢
      cases hu : s.users.lookup req.Username with
      | none => simpa [hu] using hs
      | some u =>
        by_cases hp : u.Password = req.Password
        · cases hq : s.profiles.lookup u.ID with
          | none => simpa [hu, hp, hq] using hs
          | some p => simp [hu, hp, hq] at hr
        · simpa [hu, hp] using hs
    | ok resp =>
      obtain ⟨u, p, _, _, _, hs1, _⟩ := Auth_ok_inv s req a c now resp hr
      rw [hs1]
      intro k info hk
      rcases lookup_insert_some _ _ _ _ _ hk with ⟨_, h⟩ | ⟨_, h⟩
      · subst h
        by_cases h0 : req.ClientToken = ""
        · simpa [h0] using hc
        · simp [h0]
      · exact hs k info h
  | refresh req a now ha =>
    unfold Refresh
    cases hi : s.accessTokens.lookup req.AccessToken with
    | none => exact hs
    | some ti =>
      by_cases hc : req.ClientToken ≠ "" ∧ req.ClientToken ≠ ti.ClientToken
      · simpa [hc.1, hc.2] using hs
      · cases hq : s.profiles.lookup ti.UserID with
        | none => simpa only [if_neg hc, hq] using hs
        | some p =>
          simp only [if_neg hc, hq]
          intro k info hk
          rcases lookup_insert_some _ _ _ _ _ hk with ⟨_, h⟩ | ⟨_, h⟩
          · subst h
            exact hs req.AccessToken ti hi
          · exact hs k info (lookup_erase_some _ _ _ _ h).2
  | validate req =>
    rw [Validate_eq]
    exact hs
  | invalidate req =>
    unfold Invalidate
    cases hi : s.accessTokens.lookup req.AccessToken with
    | none => exact hs
    | some ti =>
      by_cases hc : req.ClientToken = ti.ClientToken
      · simp only [hc, ne_eq, not_true_eq_false, if_false]
        intro k info hk
        exact hs k info (lookup_erase_some _ _ _ _ hk).2
      · simpa [hc] using hs
  | signout req =>
    unfold Signout
    cases hu : s.users.lookup req.Username with
    | none => exact hs
    | some u =>
      by_cases hp : u.Password = req.Password
      · simp only [hp, ne_eq, not_true_eq_false, if_false]
        intro k info hk
        exact hs k info (signout_fold_lookup _ _ _ _ _ hk)
      · simpa [hp] using hs

theorem Reachable_clientToken_nonempty (s : MemoryYggdrasilService) (h : Reachable s) :
    ∀ k info, s.accessTokens.lookup k = some info → info.ClientToken ≠ "" := by
  induction h with
  | init =>
    intro k info hk
    simp [NewMemoryYggdrasilService] at hk
  | step _ hst ih => exact Step_clientToken_nonempty _ _ hst ih

theorem demoStore_reachable : Reachable demoStore :=
  .step (.step (.step .init (.addUser _ "alice" "secret" "u1" (by decide)))
    (.addProfile _ "u1" "Alice")) (.auth _ aliceAuth "a1" "c1" 7 (by decide) (by decide))

/-- C7: in a store reachable through the public operations (minted identifiers non-empty),
`Invalidate` succeeds exactly when the access token is present and the request's client token
equals the stored one, and otherwise returns "Invalid token."; no stored session has an empty
client token, so an `Invalidate` with an empty client token fails for every access token. -/
theorem Invalidate_spec (s : MemoryYggdrasilService) (hs : Reachable s)
    (req : InvalidateRequest) :
    ((Invalidate s req).2 = none ↔
      ∃ info, s.accessTokens.lookup req.AccessToken = some info
        ∧ req.ClientToken = info.ClientToken)
    ∧ ((Invalidate s req).2 ≠ none → (Invalidate s req).2 = some "Invalid token.")
    ∧ (req.ClientToken = "" → (Invalidate s req).2 = some "Invalid token.")
    ∧ (∀ k info, s.accessTokens.lookup k = some info → info.ClientToken ≠ "") := by
  have hinv := Reachable_clientToken_nonempty s hs
  refine ⟨?_, ?_, ?_, hinv⟩
  · unfold Invalidate
    cases hi : s.accessTokens.lookup req.AccessToken with
    | none => simp
    | some info =>
      by_cases hc : req.ClientToken = info.ClientToken
      · simp [hc]
      · simp [hc]
  · unfold Invalidate
    cases hi : s.accessTokens.lookup req.AccessToken with
    | none => simp
    | some info =>
      by_cases hc : req.ClientToken = info.ClientToken
      · simp [hc]
      · simp [hc]
  · intro h0
    unfold Invalidate
    cases hi : s.accessTokens.lookup req.AccessToken with
    | none => rfl
    | some info =>
      have hc : req.ClientToken ≠ info.ClientToken := by
        rw [h0]
        exact Ne.symm (hinv _ _ hi)
      simp [hc]

set_option maxRecDepth 100000 in
theorem demoStore_invalidate_ok : (Invalidate demoStore ⟨"a1", "c1"⟩).2 = none := by
  rfl

/-- Witness for C7: on the reachable store `demoStore`, invalidating the live token `a1` with
an empty client token fails. -/
theorem Invalidate_spec_witness :
    Reachable demoStore
    ∧ (Invalidate demoStore ⟨"a1", ""⟩).2 = some "Invalid token."
    ∧ (Invalidate demoStore ⟨"a1", "c1"⟩).2 = none :=
  ⟨demoStore_reachable,
    (Invalidate_spec demoStore demoStore_reachable ⟨"a1", ""⟩).2.2.1 rfl,
    demoStore_invalidate_ok⟩

theorem length_erase_of_mem {V : Type} (m : GoMap V) (a : String) (h : a ∈ m) :
    (m.erase a).entries.length + 1 = m.entries.length := by
  have hk : ∀ n : GoMap V, n.entries.length = n.keys.length := by
    intro n
    simp [AList.keys, List.keys]
  have hpos : 0 < m.keys.length := List.length_pos_of_mem (AList.mem_keys.mp h)
  rw [hk, hk, AList.keys_erase, List.length_erase_of_mem (AList.mem_keys.mp h)]
  omega

/-- C8: `Invalidate` removes exactly one session. For two distinct access tokens `A` and `B`
present in `accessTokens`, `Invalidate(A, client token of A)` succeeds, after which `A` is no
longer a key, the entry of `B` is the same, `Validate(B, x)` answers as before for every `x`,
and there is exactly one session less. -/
theorem Invalidate_removes_one (s : MemoryYggdrasilService) (A B : String)
    (infoA infoB : AccessTokenInfo)
    (hA : s.accessTokens.lookup A = some infoA) (hB : s.accessTokens.lookup B = some infoB)
    (hAB : A ≠ B) :
    (Invalidate s ⟨A, infoA.ClientToken⟩).2 = none
    ∧ A ∉ (Invalidate s ⟨A, infoA.ClientToken⟩).1.accessTokens
    ∧ (Invalidate s ⟨A, infoA.ClientToken⟩).1.accessTokens.lookup B = some infoB
    ∧ (∀ x, (Validate (Invalidate s ⟨A, infoA.ClientToken⟩).1 ⟨B, x⟩).2
        = (Validate s ⟨B, x⟩).2)
    ∧ (Invalidate s ⟨A, infoA.ClientToken⟩).1.accessTokens.entries.length + 1
        = s.accessTokens.entries.length := by
  rw [Invalidate_eq_ok s ⟨A, infoA.ClientToken⟩ infoA hA rfl]
  have hB2 : (s.accessTokens.erase A).lookup B = some infoB := by
    rw [AList.lookup_erase_ne (Ne.symm hAB)]
    exact hB
  refine ⟨rfl, ?_, hB2, ?_, length_erase_of_mem _ _ (mem_of_lookup _ _ _ hA)⟩
  · exact AList.lookup_eq_none.mp (AList.lookup_erase _ _)
  · intro x
    simp only [Validate_eq, hB2, hB]

/-- Witness for C8: of the two sessions of `alice`, invalidating `a1` leaves `a2` alone. -/
theorem Invalidate_removes_one_witness :
    twoSessions.accessTokens.lookup "a1" = some ⟨"u1", "c1", "p1", 7⟩
    ∧ twoSessions.accessTokens.lookup "a2" = some ⟨"u1", "c2", "p1", 8⟩
    ∧ (Invalidate twoSessions ⟨"a1", "c1"⟩).2 = none
    ∧ "a1" ∉ (Invalidate twoSessions ⟨"a1", "c1"⟩).1.accessTokens
    ∧ (Invalidate twoSessions ⟨"a1", "c1"⟩).1.accessTokens.lookup "a2"
        = some ⟨"u1", "c2", "p1", 8⟩
    ∧ (∀ x, (Validate (Invalidate twoSessions ⟨"a1", "c1"⟩).1 ⟨"a2", x⟩).2
        = (Validate twoSessions ⟨"a2", x⟩).2)
    ∧ (Invalidate twoSessions ⟨"a1", "c1"⟩).1.accessTokens.entries.length + 1
        = twoSessions.accessTokens.entries.length :=
  ⟨by rfl, by rfl,
    Invalidate_removes_one twoSessions "a1" "a2" ⟨"u1", "c1", "p1", 7⟩ ⟨"u1", "c2", "p1", 8⟩
      (by rfl) (by rfl) (by decide)⟩

/-- C9: sign-out is total. When `Signout` is called with a registered username and its
password it succeeds, no session of that user's ID remains in `accessTokens`, and `Validate`
answers false, for every client token, on every access token that belonged to the user. -/
theorem Signout_total (s : MemoryYggdrasilService) (req : SignoutRequest) (u : UserCredentials)
    (hu : s.users.lookup req.Username = some u) (hp : u.Password = req.Password) :
    (Signout s req).2 = none
    ∧ (∀ k info, (Signout s req).1.accessTokens.lookup k = some info → info.UserID ≠ u.ID)
    ∧ (∀ k info, s.accessTokens.lookup k = some info → info.UserID = u.ID →
        k ∉ (Signout s req).1.accessTokens
        ∧ ∀ x, (Validate (Signout s req).1 ⟨k, x⟩).2 = .ok false) := by
  rw [Signout_eq_ok s req u hu hp]
  have gone : ∀ k info, s.accessTokens.lookup k = some info → info.UserID = u.ID →
      (s.accessTokens.entries.foldl (signoutStep u.ID) s).accessTokens.lookup k = none := by
    intro k info hk hU
    exact signout_fold_erased u.ID s.accessTokens.entries s ⟨k, info⟩
      (AList.mem_lookup_iff.mp hk) hU
  refine ⟨rfl, ?_, ?_⟩
  · intro k info hk hU
    have h1 := signout_fold_lookup u.ID _ s k info hk
    rw [gone k info h1 hU] at hk
    exact absurd hk (by simp)
  · intro k info hk hU
    refine ⟨AList.lookup_eq_none.mp (gone k info hk hU), fun x => ?_⟩
    simp only [Validate_eq, gone k info hk hU]

/-- Witness for C9: `alice` holds the sessions `a1` and `a2` under two client tokens. -/
theorem Signout_total_witness :
    twoSessions.users.lookup "alice" = some ⟨"u1", "secret"⟩
    ∧ twoSessions.accessTokens.lookup "a1" = some ⟨"u1", "c1", "p1", 7⟩
    ∧ twoSessions.accessTokens.lookup "a2" = some ⟨"u1", "c2", "p1", 8⟩
    ∧ (Signout twoSessions ⟨"alice", "secret"⟩).2 = none
    ∧ (∀ x, (Validate (Signout twoSessions ⟨"alice", "secret"⟩).1 ⟨"a1", x⟩).2 = .ok false)
    ∧ (∀ x, (Validate (Signout twoSessions ⟨"alice", "secret"⟩).1 ⟨"a2", x⟩).2 = .ok false)
    ∧ (Signout twoSessions ⟨"alice", "secret"⟩).1.accessTokens.entries = [] :=
  have h := Signout_total twoSessions ⟨"alice", "secret"⟩ ⟨"u1", "secret"⟩ (by rfl) (by rfl)
  ⟨by rfl, by rfl, by rfl, h.1,
    (h.2.2 "a1" ⟨"u1", "c1", "p1", 7⟩ (by rfl) (by rfl)).2,
    (h.2.2 "a2" ⟨"u1", "c2", "p1", 8⟩ (by rfl) (by rfl)).2, by rfl⟩

theorem Auth_credentials_error_iff (s : MemoryYggdrasilService) (req : AuthRequest)
    (a c : String) (now : Nat) :
    (Auth s req a c now).2 = .error "Invalid credentials. Invalid username or password." ↔
      (req.Username ∉ s.users ∨
        ∃ u, s.users.lookup req.Username = some u ∧ u.Password ≠ req.Password) := by
  have hne : ("No profile found for user" : String)
      ≠ "Invalid credentials. Invalid username or password." := by decide
  unfold Auth
  cases hu : s.users.lookup req.Username with
  | none =>
    have hmem : req.Username ∉ s.users := AList.lookup_eq_none.mp hu
    simp [hmem]
  | some u =>
    have hmem : req.Username ∈ s.users := mem_of_lookup _ _ _ hu
    by_cases hp : u.Password = req.Password
    · cases hq : s.profiles.lookup u.ID with
      | none => simp [hp, hmem, hq, hne]
      | some p => simp [hp, hmem, hq]
    · simp [hp, hmem]

/-- C10: `Signout` checks credentials as `Auth` does. It returns the credentials error exactly
when `Auth` with the same username and password returns it, that is when the username is not
registered or the stored password differs, and returns nil otherwise. -/
theorem Signout_credentials (s : MemoryYggdrasilService) (req : SignoutRequest) (agent : Agent)
    (clientToken : String) (requestUser : Bool) (a c : String) (now : Nat) :
    ((Signout s req).2 = some "Invalid credentials. Invalid username or password." ↔
      (Auth s ⟨agent, req.Username, req.Password, clientToken, requestUser⟩ a c now).2
        = .error "Invalid credentials. Invalid username or password.")
    ∧ ((Signout s req).2 = some "Invalid credentials. Invalid username or password." ↔
      (req.Username ∉ s.users ∨
        ∃ u, s.users.lookup req.Username = some u ∧ u.Password ≠ req.Password))
    ∧ ((Signout s req).2 ≠ some "Invalid credentials. Invalid username or password." →
      (Signout s req).2 = none) := by
  have hA := Auth_credentials_error_iff s
    ⟨agent, req.Username, req.Password, clientToken, requestUser⟩ a c now
  simp only at hA
  have hS : (Signout s req).2 = some "Invalid credentials. Invalid username or password." ↔
      (req.Username ∉ s.users ∨
        ∃ u, s.users.lookup req.Username = some u ∧ u.Password ≠ req.Password) := by
    unfold Signout
    cases hu : s.users.lookup req.Username with
    | none =>
      have hmem : req.Username ∉ s.users := AList.lookup_eq_none.mp hu
      simp [hmem]
    | some u =>
      have hmem : req.Username ∈ s.users := mem_of_lookup _ _ _ hu
      by_cases hp : u.Password = req.Password
      · simp [hp, hmem]
      · simp [hp, hmem]
  refine ⟨hS.trans hA.symm, hS, ?_⟩
  unfold Signout
  cases hu : s.users.lookup req.Username with
  | none => simp
  | some u =>
    by_cases hp : u.Password = req.Password
    · simp [hp]
    · simp [hp]

/-! ## Responses, registration and failures -/

theorem Refresh_ok_inv (s : MemoryYggdrasilService) (req : RefreshRequest) (ra : String)
    (now : Nat) (resp : AuthResponse) (h : (Refresh s req ra now).2 = .ok resp) :
    ∃ info p, s.accessTokens.lookup req.AccessToken = some info
      ∧ (req.ClientToken = "" ∨ req.ClientToken = info.ClientToken)
      ∧ s.profiles.lookup info.UserID = some p
      ∧ (Refresh s req ra now).1 =
          { s with
            accessTokens := (s.accessTokens.erase req.AccessToken).insert ra
              { UserID := info.UserID, ClientToken := info.ClientToken,
                ProfileID := info.ProfileID, CreatedAt := now },
            clientTokens :=
              (deleteClientToken s.clientTokens info.ClientToken req.AccessToken).insert
                info.ClientToken ra }
      ∧ resp =
          { AccessToken := ra, ClientToken := info.ClientToken, AvailableProfiles := [],
            SelectedProfile := some p,
            User := responseUser req.RequestUser info.UserID } := by
  cases hi : s.accessTokens.lookup req.AccessToken with
  | none => simp [Refresh, hi] at h
  | some info =>
    by_cases hc : req.ClientToken ≠ "" ∧ req.ClientToken ≠ info.ClientToken
    · simp [Refresh, hi, hc.1, hc.2] at h
    · have hc2 : req.ClientToken = "" ∨ req.ClientToken = info.ClientToken := by
        by_cases h1 : req.ClientToken = ""
        · exact Or.inl h1
        · by_cases h2 : req.ClientToken = info.ClientToken
          · exact Or.inr h2
          · exact absurd ⟨h1, h2⟩ hc
      cases hq : s.profiles.lookup info.UserID with
      | none => simp [Refresh, hi, hc, hq] at h
      | some p =>
        have hR := Refresh_ok_eq s req ra now info p hi hc2 hq
        rw [hR] at h ⊢
        exact ⟨info, p, rfl, hc2, hq, rfl, (Except.ok.inj h).symm⟩

theorem responseUser_spec (requestUser : Bool) (userID : String) :
    ((responseUser requestUser userID).isSome ↔ requestUser = true)
    ∧ ∀ usr, responseUser requestUser userID = some usr →
        usr.ID = userID
        ∧ ∃ p, usr.Properties = [p] ∧ p.Name = "preferredLanguage" ∧ p.Value = "en" := by
  unfold responseUser
  cases requestUser with
  | false => simp
  | true =>
    refine ⟨by simp, ?_⟩
    intro usr h
    simp only [if_true] at h
    have h2 := (Option.some.inj h).symm
    subst h2
    exact ⟨rfl, _, rfl, rfl, rfl⟩

/-- C19: in the response of a successful `Auth` or `Refresh` the `User` field is present
exactly when the request's `RequestUser` flag is set; when present, its ID is the user ID of
the session recorded under the returned access token and its `Properties` list is the single
property named "preferredLanguage" with value "en". -/
theorem response_user_field :
    (∀ (s : MemoryYggdrasilService) (req : AuthRequest) (a c : String) (now : Nat)
        (resp : AuthResponse), (Auth s req a c now).2 = .ok resp →
      (resp.User.isSome ↔ req.RequestUser = true)
      ∧ ∀ usr, resp.User = some usr →
          (∃ info, (Auth s req a c now).1.accessTokens.lookup resp.AccessToken = some info
            ∧ usr.ID = info.UserID)
          ∧ ∃ p, usr.Properties = [p] ∧ p.Name = "preferredLanguage" ∧ p.Value = "en")
    ∧ (∀ (s : MemoryYggdrasilService) (req : RefreshRequest) (a : String) (now : Nat)
        (resp : AuthResponse), (Refresh s req a now).2 = .ok resp →
      (resp.User.isSome ↔ req.RequestUser = true)
      ∧ ∀ usr, resp.User = some usr →
          (∃ info, (Refresh s req a now).1.accessTokens.lookup resp.AccessToken = some info
            ∧ usr.ID = info.UserID)
          ∧ ∃ p, usr.Properties = [p] ∧ p.Name = "preferredLanguage" ∧ p.Value = "en") := by
  constructor
  · intro s req a c now resp h
    obtain ⟨u, p, _, _, _, hs, hr⟩ := Auth_ok_inv s req a c now resp h
    subst hr
    have hU := responseUser_spec req.RequestUser u.ID
    refine ⟨hU.1, fun usr husr => ?_⟩
    obtain ⟨hid, hp⟩ := hU.2 usr husr
    rw [hs]
    exact ⟨⟨_, AList.lookup_insert _, hid⟩, hp⟩
  · intro s req a now resp h
    obtain ⟨info, p, _, _, _, hs, hr⟩ := Refresh_ok_inv s req a now resp h
    subst hr
    have hU := responseUser_spec req.RequestUser info.UserID
    refine ⟨hU.1, fun usr husr => ?_⟩
    obtain ⟨hid, hp⟩ := hU.2 usr husr
    rw [hs]
    exact ⟨⟨_, AList.lookup_insert _, hid⟩, hp⟩

/-- Witness for C19: `alice` authenticates asking for user information, then without. -/
theorem response_user_field_witness :
    (Auth aliceStore { aliceAuth with RequestUser := true } "a1" "c1" 7).2
      = .ok ⟨"a1", "c1", [], some ⟨"p1", "Alice", []⟩,
          some ⟨"u1", [⟨"preferredLanguage", "en", ""⟩]⟩⟩
    ∧ ((Auth aliceStore aliceAuth "a1" "c1" 7).2
      = .ok ⟨"a1", "c1", [], some ⟨"p1", "Alice", []⟩, none⟩)
    ∧ ((none : Option User).isSome ↔ aliceAuth.RequestUser = true) :=
  ⟨by rfl, by rfl,
    (response_user_field.1 aliceStore aliceAuth "a1" "c1" 7
      ⟨"a1", "c1", [], some ⟨"p1", "Alice", []⟩, none⟩ (by rfl)).1⟩

theorem Auth_error_store (s : MemoryYggdrasilService) (req : AuthRequest) (a c : String)
    (now : Nat) (e : String) (h : (Auth s req a c now).2 = .error e) :
    (Auth s req a c now).1 = s := by
  unfold Auth at h ⊢
  cases hu : s.users.lookup req.Username with
  | none => rfl
  | some u =>
    by_cases hp : u.Password = req.Password
    · cases hq : s.profiles.lookup u.ID with
      | none => simp [hp, hq]
      | some p => simp [hu, hp, hq] at h
    · simp [hp]

theorem Refresh_error_store (s : MemoryYggdrasilService) (req : RefreshRequest) (a : String)
    (now : Nat) (e : String) (h : (Refresh s req a now).2 = .error e) :
    (Refresh s req a now).1 = s := by
  unfold Refresh at h ⊢
  cases hi : s.accessTokens.lookup req.AccessToken with
  | none => rfl
  | some info =>
    by_cases hc : req.ClientToken ≠ "" ∧ req.ClientToken ≠ info.ClientToken
    · simp [hc.1, hc.2]
    · cases hq : s.profiles.lookup info.UserID with
      | none => simp only [if_neg hc, hq]
      | some p => simp [hi, hc, hq] at h

theorem Invalidate_error_store (s : MemoryYggdrasilService) (req : InvalidateRequest)
    (e : String) (h : (Invalidate s req).2 = some e) : (Invalidate s req).1 = s := by
  unfold Invalidate at h ⊢
  cases hi : s.accessTokens.lookup req.AccessToken with
  | none => rfl
  | some info =>
    by_cases hc : req.ClientToken = info.ClientToken
    · simp [hi, hc] at h
    · simp [hc]

theorem Signout_error_store (s : MemoryYggdrasilService) (req : SignoutRequest)
    (e : String) (h : (Signout s req).2 = some e) : (Signout s req).1 = s := by
  unfold Signout at h ⊢
  cases hu : s.users.lookup req.Username with
  | none => rfl
  | some u =>
    by_cases hp : u.Password = req.Password
    · simp [hu, hp] at h
    · simp [hp]

/-- C20: failure atomicity. Whenever `Auth`, `Refresh`, `Invalidate` or `Signout` returns a
non-nil error, the store after the call (its four maps) is the store before the call. -/
theorem failure_atomicity :
    (∀ (s : MemoryYggdrasilService) (req : AuthRequest) (a c : String) (now : Nat) (e : String),
      (Auth s req a c now).2 = .error e → (Auth s req a c now).1 = s)
    ∧ (∀ (s : MemoryYggdrasilService) (req : RefreshRequest) (a : String) (now : Nat)
        (e : String), (Refresh s req a now).2 = .error e → (Refresh s req a now).1 = s)
    ∧ (∀ (s : MemoryYggdrasilService) (req : InvalidateRequest) (e : String),
      (Invalidate s req).2 = some e → (Invalidate s req).1 = s)
    ∧ (∀ (s : MemoryYggdrasilService) (req : SignoutRequest) (e : String),
      (Signout s req).2 = some e → (Signout s req).1 = s) :=
  ⟨Auth_error_store, Refresh_error_store, Invalidate_error_store, Signout_error_store⟩

/-- Witness for C20: a wrong password, an unknown token and a wrong client token leave the
store of two sessions as it was. -/
theorem failure_atomicity_witness :
    (Auth twoSessions { aliceAuth with Password := "Secret" } "a3" "c3" 9).2
      = .error "Invalid credentials. Invalid username or password."
    ∧ (Auth twoSessions { aliceAuth with Password := "Secret" } "a3" "c3" 9).1 = twoSessions
    ∧ (Refresh twoSessions ⟨"a9", "c1", false, none⟩ "a3" 9).1 = twoSessions
    ∧ (Invalidate twoSessions ⟨"a1", "c2"⟩).1 = twoSessions
    ∧ (Signout twoSessions ⟨"alice", ""⟩).1 = twoSessions :=
  ⟨by rfl,
    failure_atomicity.1 twoSessions { aliceAuth with Password := "Secret" } "a3" "c3" 9 _
      (by rfl),
    failure_atomicity.2.1 twoSessions ⟨"a9", "c1", false, none⟩ "a3" 9 "Invalid token." (by rfl),
    failure_atomicity.2.2.1 twoSessions ⟨"a1", "c2"⟩ "Invalid token." (by rfl),
    failure_atomicity.2.2.2 twoSessions ⟨"alice", ""⟩
      "Invalid credentials. Invalid username or password." (by rfl)⟩

/-- C18: `AddProfile` never fails. It returns the profile whose `Name` is the given name and
whose `ID` is `GenerateOfflinePlayerUUID(name)`, and stores it as the profile of `userID`,
leaving the other entries and maps alone; the profile ID is the same for any two calls with
the same name, whatever the stores and user IDs. -/
theorem AddProfile_spec (s : MemoryYggdrasilService) (userID name : String) :
    ∃ id, GenerateOfflinePlayerUUID name = .ok id
      ∧ (AddProfile s userID name).2 = .ok { ID := id, Name := name, Properties := [] }
      ∧ (AddProfile s userID name).1.profiles.lookup userID
          = some { ID := id, Name := name, Properties := [] }
      ∧ (∀ k, k ≠ userID →
          (AddProfile s userID name).1.profiles.lookup k = s.profiles.lookup k)
      ∧ (AddProfile s userID name).1.users = s.users
      ∧ (AddProfile s userID name).1.accessTokens = s.accessTokens
      ∧ (AddProfile s userID name).1.clientTokens = s.clientTokens
      ∧ ∀ (t : MemoryYggdrasilService) (userID' : String),
          ∃ p, (AddProfile t userID' name).2 = .ok p ∧ p.ID = id ∧ p.Name = name := by
  obtain ⟨d', hres, _⟩ := offlineUUID_digest name
  have hA : ∀ (t : MemoryYggdrasilService) (k : String), AddProfile t k name =
      ({ t with profiles := t.profiles.insert k ⟨hexRendering d', name, []⟩ },
        .ok ⟨hexRendering d', name, []⟩) := by
    intro t k
    unfold AddProfile
    rw [hres]
  refine ⟨hexRendering d', hres, ?_, ?_, ?_, ?_, ?_, ?_, ?_⟩
  · rw [hA]
  · rw [hA]
    exact AList.lookup_insert _
  · intro k hk
    rw [hA]
    exact AList.lookup_insert_ne hk
  · rw [hA]
  · rw [hA]
  · rw [hA]
  · intro t k
    rw [hA]
    exact ⟨_, rfl, rfl, rfl⟩

/-! ## Strings of ASCII bytes -/

theorem uint8_or_128_ge (y : UInt8) : 128 ≤ (y ||| 0x80).toNat := by
  show 128 ≤ (y.toBitVec ||| (0x80 : UInt8).toBitVec).toNat
  rw [BitVec.toNat_or]
  have h : (y.toBitVec.toNat ||| (0x80 : UInt8).toBitVec.toNat).testBit 7 = true := by
    rw [Nat.testBit_or]
    have : (0x80 : UInt8).toBitVec.toNat.testBit 7 = true := by decide
    rw [this, Bool.or_true]
  exact Nat.testBit_implies_ge h

theorem utf8_ascii (c : Char) (h : c.toNat < 128) :
    (String.utf8EncodeChar c).map UInt8.toNat = [c.toNat] := by
  have hle : c.val ≤ 0x7f := by
    show c.val.toNat ≤ 127
    have : c.toNat = c.val.toNat := rfl
    omega
  simp only [String.utf8EncodeChar, hle, if_true, List.map_cons, List.map_nil]
  congr 1
  show c.val.toNat % 256 = c.val.toNat
  have : c.toNat = c.val.toNat := rfl
  omega

theorem utf8_not_ascii (c : Char) (h : ¬ c.toNat < 128) :
    ∃ b ∈ String.utf8EncodeChar c, 128 ≤ b.toNat := by
  have hle : ¬ c.val ≤ 0x7f := by
    intro hc
    have h1 : c.val.toNat ≤ 127 := hc
    have : c.toNat = c.val.toNat := rfl
    omega
  refine ⟨c.val.toUInt8 &&& 0x3f ||| 0x80, ?_, uint8_or_128_ge _⟩
  simp only [String.utf8EncodeChar, hle, if_false]
  split_ifs <;> simp

theorem stringBytes_cons (c : Char) (cs : List Char) :
    stringBytes ⟨c :: cs⟩ = (String.utf8EncodeChar c).map UInt8.toNat ++ stringBytes ⟨cs⟩ := by
  simp [stringBytes]

theorem stringBytes_ascii (cs : List Char) (h : ∀ c ∈ cs, c.toNat < 128) :
    stringBytes ⟨cs⟩ = cs.map Char.toNat := by
  induction cs with
  | nil => rfl
  | cons c cs ih =>
    rw [stringBytes_cons, utf8_ascii c (h c (List.mem_cons_self _ _)),
      ih (fun d hd => h d (List.mem_cons_of_mem _ hd))]
    rfl

theorem chars_ascii_of_bytes (cs : List Char) (h : ∀ b ∈ stringBytes ⟨cs⟩, b < 128) :
    ∀ c ∈ cs, c.toNat < 128 := by
  induction cs with
  | nil => simp
  | cons c cs ih =>
    rw [stringBytes_cons] at h
    intro d hd
    rcases List.mem_cons.mp hd with rfl | hd
    · by_contra hn
      obtain ⟨b, hb, hge⟩ := utf8_not_ascii d hn
      have := h b.toNat (List.mem_append_left _ (List.mem_map_of_mem _ hb))
      omega
    · exact ih (fun b hb => h b (List.mem_append_right _ hb)) d hd

theorem ofNat_toNat_map (cs : List Char) : (cs.map Char.toNat).map Char.ofNat = cs := by
  induction cs with
  | nil => rfl
  | cons c cs ih =>
    simp only [List.map_cons, ih]
    congr 1
    exact Char.ofNat_toNat c

theorem toNat_ofNat_ascii (b : Nat) (h : b < 128) : (Char.ofNat b).toNat = b := by
  have hv : b.isValidChar := Or.inl (by omega)
  simp [Char.ofNat, hv, Char.ofNatAux, Char.toNat, UInt32.toNat]

theorem stringBytes_asciiString (b : List Nat) (h : ∀ x ∈ b, x < 128) :
    stringBytes (asciiString b) = b := by
  unfold asciiString
  rw [stringBytes_ascii]
  · rw [List.map_map]
    conv_rhs => rw [← List.map_id b]
    apply List.map_congr_left
    intro x hx
    exact toNat_ofNat_ascii x (h x hx)
  · intro c hc
    obtain ⟨x, hx, rfl⟩ := List.mem_map.mp hc
    rw [toNat_ofNat_ascii x (h x hx)]
    exact h x hx

/-! ## Hexadecimal digits -/

theorem xvalue_ne_iff (b : Nat) :
    xvalue b ≠ 255 ↔ (48 ≤ b ∧ b ≤ 57) ∨ (65 ≤ b ∧ b ≤ 70) ∨ (97 ≤ b ∧ b ≤ 102) := by
  unfold xvalue
  split_ifs <;> omega

theorem xvalue_le_iff (b : Nat) : xvalue b ≤ 15 ↔ xvalue b ≠ 255 := by
  unfold xvalue
  split_ifs <;> omega

theorem xvalue_lt_128 (b : Nat) (h : xvalue b ≠ 255) : b < 128 := by
  rw [xvalue_ne_iff] at h
  omega

theorem isHexChar_iff (c : Char) : isHexChar c = true ↔ xvalue c.toNat ≠ 255 := by
  rw [xvalue_ne_iff]
  have e : ∀ a b : Char, (decide (a ≤ b) = true) ↔ a.toNat ≤ b.toNat := by
    intro a b
    rw [decide_eq_true_iff]
    exact Iff.rfl
  have digits : Char.toNat '0' = 48 ∧ Char.toNat '9' = 57 := ⟨rfl, rfl⟩
  have lower : Char.toNat 'a' = 97 ∧ Char.toNat 'f' = 102 := ⟨rfl, rfl⟩
  have upper : Char.toNat 'A' = 65 ∧ Char.toNat 'F' = 70 := ⟨rfl, rfl⟩
  unfold isHexChar
  simp only [Bool.or_eq_true, Bool.and_eq_true, e, digits.1, digits.2, lower.1, lower.2,
    upper.1, upper.2]
  tauto

/-! ## `FormatUUID` and `ValidateUndashedUUID` -/

theorem length_succ_cases {α : Type} (l : List α) (n : Nat) (h : l.length = n + 1) :
    ∃ a t, l = a :: t ∧ t.length = n := by
  cases l with
  | nil => simp at h
  | cons a t => exact ⟨a, t, rfl, by simpa using h⟩

theorem list32 {α : Type} (u : List α) (h : u.length = 32) :
    ∃ b0 b1 b2 b3 b4 b5 b6 b7 b8 b9 b10 b11 b12 b13 b14 b15 b16 b17 b18 b19 b20 b21 b22 b23 b24 b25 b26 b27 b28 b29 b30 b31 : α,
      u = [b0, b1, b2, b3, b4, b5, b6, b7, b8, b9, b10, b11, b12, b13, b14, b15, b16, b17, b18, b19, b20, b21, b22, b23, b24, b25, b26, b27, b28, b29, b30, b31] := by
  obtain ⟨b0, t0, rfl, h0⟩ := length_succ_cases u 31 h
  obtain ⟨b1, t1, rfl, h1⟩ := length_succ_cases t0 30 h0
  obtain ⟨b2, t2, rfl, h2⟩ := length_succ_cases t1 29 h1
  obtain ⟨b3, t3, rfl, h3⟩ := length_succ_cases t2 28 h2
  obtain ⟨b4, t4, rfl, h4⟩ := length_succ_cases t3 27 h3
  obtain ⟨b5, t5, rfl, h5⟩ := length_succ_cases t4 26 h4
  obtain ⟨b6, t6, rfl, h6⟩ := length_succ_cases t5 25 h5
  obtain ⟨b7, t7, rfl, h7⟩ := length_succ_cases t6 24 h6
  obtain ⟨b8, t8, rfl, h8⟩ := length_succ_cases t7 23 h7
  obtain ⟨b9, t9, rfl, h9⟩ := length_succ_cases t8 22 h8
  obtain ⟨b10, t10, rfl, h10⟩ := length_succ_cases t9 21 h9
  obtain ⟨b11, t11, rfl, h11⟩ := length_succ_cases t10 20 h10
  obtain ⟨b12, t12, rfl, h12⟩ := length_succ_cases t11 19 h11
  obtain ⟨b13, t13, rfl, h13⟩ := length_succ_cases t12 18 h12
  obtain ⟨b14, t14, rfl, h14⟩ := length_succ_cases t13 17 h13
  obtain ⟨b15, t15, rfl, h15⟩ := length_succ_cases t14 16 h14
  obtain ⟨b16, t16, rfl, h16⟩ := length_succ_cases t15 15 h15
  obtain ⟨b17, t17, rfl, h17⟩ := length_succ_cases t16 14 h16
  obtain ⟨b18, t18, rfl, h18⟩ := length_succ_cases t17 13 h17
  obtain ⟨b19, t19, rfl, h19⟩ := length_succ_cases t18 12 h18
  obtain ⟨b20, t20, rfl, h20⟩ := length_succ_cases t19 11 h19
  obtain ⟨b21, t21, rfl, h21⟩ := length_succ_cases t20 10 h20
  obtain ⟨b22, t22, rfl, h22⟩ := length_succ_cases t21 9 h21
  obtain ⟨b23, t23, rfl, h23⟩ := length_succ_cases t22 8 h22
  obtain ⟨b24, t24, rfl, h24⟩ := length_succ_cases t23 7 h23
  obtain ⟨b25, t25, rfl, h25⟩ := length_succ_cases t24 6 h24
  obtain ⟨b26, t26, rfl, h26⟩ := length_succ_cases t25 5 h25
  obtain ⟨b27, t27, rfl, h27⟩ := length_succ_cases t26 4 h26
  obtain ⟨b28, t28, rfl, h28⟩ := length_succ_cases t27 3 h27
  obtain ⟨b29, t29, rfl, h29⟩ := length_succ_cases t28 2 h28
  obtain ⟨b30, t30, rfl, h30⟩ := length_succ_cases t29 1 h29
  obtain ⟨b31, t31, rfl, h31⟩ := length_succ_cases t30 0 h30
  have hnil := List.length_eq_zero.mp h31
  subst hnil
  exact ⟨b0, b1, b2, b3, b4, b5, b6, b7, b8, b9, b10, b11, b12, b13, b14, b15, b16, b17, b18, b19, b20, b21, b22, b23, b24, b25, b26, b27, b28, b29, b30, b31, rfl⟩

theorem exists_ok_ite {α ε : Type} (C : Prop) [Decidable C] (L : α) (e : ε) :
    (∃ r, (if C then Except.ok L else Except.error e : Except ε α) = .ok r) ↔ C := by
  split_ifs with h <;> simp [h]

theorem uuidParse_formatted (u : List Nat) (h : u.length = 32) :
    (∃ r, uuidParse (u.take 8 ++ 45 :: (u.drop 8).take 4 ++ 45 :: (u.drop 12).take 4
      ++ 45 :: (u.drop 16).take 4 ++ 45 :: (u.drop 20).take 12) = .ok r)
    ↔ ∀ b ∈ u, xvalue b ≠ 255 := by
  obtain ⟨b0, b1, b2, b3, b4, b5, b6, b7, b8, b9, b10, b11, b12, b13, b14, b15, b16, b17, b18, b19, b20, b21, b22, b23, b24, b25, b26, b27, b28, b29, b30, b31, rfl⟩ := list32 u h
  simp [uuidParse, uuidParseDashed, uuidOffsets, xtob, and_assoc, exists_ok_ite]

theorem FormatUUID_ok_iff (u : String) :
    (∃ d, FormatUUID u = .ok d) ↔
      (stringBytes u).length = 32 ∧ ∀ b ∈ stringBytes u, xvalue b ≠ 255 := by
  by_cases hlen : (stringBytes u).length = 32
  · have key := uuidParse_formatted (stringBytes u) hlen
    unfold FormatUUID
    simp only [hlen, ne_eq, not_true_eq_false, if_false, true_and]
    rw [← key]
    split
    · rename_i err h
      constructor
      · rintro ⟨d, hd⟩
        cases hd
      · rintro ⟨r, hr⟩
        rw [h] at hr
        cases hr
    · rename_i r h
      exact ⟨fun _ => ⟨r, h⟩, fun _ => ⟨_, rfl⟩⟩
  · unfold FormatUUID
    simp [hlen]

theorem FormatUUID_ok_bytes (u : String) (hlen : (stringBytes u).length = 32)
    (hall : ∀ b ∈ stringBytes u, xvalue b ≠ 255) :
    FormatUUID u = .ok (asciiString ((stringBytes u).take 8 ++ 45 ::
      ((stringBytes u).drop 8).take 4 ++ 45 :: ((stringBytes u).drop 12).take 4
      ++ 45 :: ((stringBytes u).drop 16).take 4 ++ 45 :: ((stringBytes u).drop 20).take 12)) := by
  obtain ⟨r, hr⟩ := (uuidParse_formatted (stringBytes u) hlen).mpr hall
  unfold FormatUUID
  simp only [hlen, ne_eq, not_true_eq_false, if_false, hr]

theorem hex_chars_iff_bytes (u : String) :
    ((stringBytes u).length = 32 ∧ ∀ b ∈ stringBytes u, xvalue b ≠ 255) ↔
      (u.length = 32 ∧ ∀ c ∈ u.data, isHexChar c = true) := by
  obtain ⟨cs⟩ := u
  show _ ↔ (cs.length = 32 ∧ ∀ c ∈ cs, isHexChar c = true)
  constructor
  · rintro ⟨hlen, hall⟩
    have hasc := chars_ascii_of_bytes cs (fun b hb => xvalue_lt_128 b (hall b hb))
    rw [stringBytes_ascii cs hasc] at hlen hall
    refine ⟨by simpa using hlen, fun c hc => ?_⟩
    exact (isHexChar_iff c).mpr (hall _ (List.mem_map_of_mem _ hc))
  · rintro ⟨hlen, hall⟩
    have hasc : ∀ c ∈ cs, c.toNat < 128 :=
      fun c hc => xvalue_lt_128 _ ((isHexChar_iff c).mp (hall c hc))
    rw [stringBytes_ascii cs hasc]
    refine ⟨by simpa using hlen, fun b hb => ?_⟩
    obtain ⟨c, hc, rfl⟩ := List.mem_map.mp hb
    exact (isHexChar_iff c).mp (hall c hc)

theorem FormatUUID_ok_chars (u : String) (hlen : u.length = 32)
    (hall : ∀ c ∈ u.data, isHexChar c = true) : FormatUUID u = .ok (dashedForm u) := by
  obtain ⟨hl, hb⟩ := (hex_chars_iff_bytes u).mpr ⟨hlen, hall⟩
  rw [FormatUUID_ok_bytes u hl hb]
  obtain ⟨cs⟩ := u
  have hasc : ∀ c ∈ cs, c.toNat < 128 :=
    fun c hc => xvalue_lt_128 _ ((isHexChar_iff c).mp (hall c hc))
  rw [stringBytes_ascii cs hasc]
  unfold asciiString dashedForm
  have hd : Char.ofNat 45 = '-' := rfl
  simp only [List.map_append, List.map_cons, List.map_take, List.map_drop, ofNat_toNat_map, hd]

theorem except_error_of_not_ok {α : Type} (x : Except String α) (h : ¬ ∃ d, x = .ok d) :
    ∃ e, x = .error e := by
  cases x with
  | error e => exact ⟨e, rfl⟩
  | ok d => exact absurd ⟨d, rfl⟩ h

theorem FormatUUID_upper :
    FormatUUID "FAA5dca3c3d4354bae1bdde9e5a14B3b" = .ok "FAA5dca3-c3d4-354b-ae1b-dde9e5a14B3b" := by
  rfl

/-- C15: `FormatUUID` returns an error when the length of its argument (in bytes, or in
characters) is not 32 and when one of its characters is not a hexadecimal digit; otherwise it
returns, with a nil error, the characters of the argument, unchanged in case, grouped as
`u[0:8]-u[8:12]-u[12:16]-u[16:20]-u[20:32]`. -/
theorem FormatUUID_spec (u : String) :
    ((stringBytes u).length ≠ 32 → ∃ e, FormatUUID u = .error e)
    ∧ (u.length ≠ 32 → ∃ e, FormatUUID u = .error e)
    ∧ ((∃ c ∈ u.data, isHexChar c = false) → ∃ e, FormatUUID u = .error e)
    ∧ ((u.length = 32 ∧ ∀ c ∈ u.data, isHexChar c = true) →
        FormatUUID u = .ok (dashedForm u))
    ∧ FormatUUID "FAA5dca3c3d4354bae1bdde9e5a14B3b"
        = .ok "FAA5dca3-c3d4-354b-ae1b-dde9e5a14B3b" := by
  refine ⟨?_, ?_, ?_, fun h => FormatUUID_ok_chars u h.1 h.2, FormatUUID_upper⟩
  · intro hlen
    apply except_error_of_not_ok
    intro hok
    exact hlen ((FormatUUID_ok_iff u).mp hok).1
  · intro hlen
    apply except_error_of_not_ok
    intro hok
    exact hlen ((hex_chars_iff_bytes u).mp ((FormatUUID_ok_iff u).mp hok)).1
  · rintro ⟨c, hc, hx⟩
    apply except_error_of_not_ok
    intro hok
    have := ((hex_chars_iff_bytes u).mp ((FormatUUID_ok_iff u).mp hok)).2 c hc
    rw [hx] at this
    exact absurd this (by decide)

theorem isHexChar_ne_dash (c : Char) (h : isHexChar c = true) : c ≠ '-' := by
  rintro rfl
  exact absurd h (by decide)

theorem dashedForm_roundtrip (cs : List Char) (hlen : cs.length = 32)
    (hall : ∀ c ∈ cs, c ≠ '-') :
    replaceAllChar (dashedForm ⟨cs⟩).data '-' [] = cs
    ∧ (dashedForm ⟨cs⟩).data.length = 36
    ∧ (dashedForm ⟨cs⟩).data[8]? = some '-' ∧ (dashedForm ⟨cs⟩).data[13]? = some '-'
    ∧ (dashedForm ⟨cs⟩).data[18]? = some '-' ∧ (dashedForm ⟨cs⟩).data[23]? = some '-' := by
  obtain ⟨c0, c1, c2, c3, c4, c5, c6, c7, c8, c9, c10, c11, c12, c13, c14, c15, c16, c17, c18, c19, c20, c21, c22, c23, c24, c25, c26, c27, c28, c29, c30, c31, rfl⟩ := list32 cs hlen
  simp only [List.mem_cons, List.mem_singleton, forall_eq_or_imp, forall_eq, List.not_mem_nil,
    false_imp_iff, implies_true, and_true] at hall
  obtain ⟨x0, x1, x2, x3, x4, x5, x6, x7, x8, x9, x10, x11, x12, x13, x14, x15, x16, x17, x18, x19, x20, x21, x22, x23, x24, x25, x26, x27, x28, x29, x30, x31⟩ := hall
  refine ⟨?_, rfl, rfl, rfl, rfl, rfl⟩
  simp [dashedForm, replaceAllChar, x0, x1, x2, x3, x4, x5, x6, x7, x8, x9, x10, x11, x12, x13, x14, x15, x16, x17, x18, x19, x20, x21, x22, x23, x24, x25, x26, x27, x28, x29, x30, x31]

theorem dashedForm_ascii (u : String) (hall : ∀ c ∈ u.data, isHexChar c = true) :
    ∀ c ∈ (dashedForm u).data, c.toNat < 128 := by
  have hasc : ∀ c ∈ u.data, c.toNat < 128 :=
    fun c hc => xvalue_lt_128 _ ((isHexChar_iff c).mp (hall c hc))
  intro c hc
  simp only [dashedForm, List.mem_append, List.mem_cons] at hc
  have hd : ('-' : Char).toNat < 128 := by decide
  rcases hc with (((h | h | h) | h | h) | h | h) | h | h
  · exact hasc c (List.mem_of_mem_take h)
  · exact h ▸ hd
  · exact hasc c (List.mem_of_mem_drop (List.mem_of_mem_take h))
  · exact h ▸ hd
  · exact hasc c (List.mem_of_mem_drop (List.mem_of_mem_take h))
  · exact h ▸ hd
  · exact hasc c (List.mem_of_mem_drop (List.mem_of_mem_take h))
  · exact h ▸ hd
  · exact hasc c (List.mem_of_mem_drop (List.mem_of_mem_take h))

theorem FormatUUID_ok_inv (u d : String) (h : FormatUUID u = .ok d) :
    u.length = 32 ∧ (∀ c ∈ u.data, isHexChar c = true) ∧ d = dashedForm u := by
  obtain ⟨hlen, hall⟩ := (hex_chars_iff_bytes u).mp ((FormatUUID_ok_iff u).mp ⟨d, h⟩)
  rw [FormatUUID_ok_chars u hlen hall] at h
  exact ⟨hlen, hall, (Except.ok.inj h).symm⟩

/-- C14: format round-trip. When `FormatUUID(u)` succeeds with result `d`, removing every `-`
from `d` (as `strings.ReplaceAll(d, "-", "")` does) gives back `u`, and `d` has length 36, in
characters and in bytes, with `-` at the indices 8, 13, 18 and 23. -/
theorem FormatUUID_roundtrip (u d : String) (h : FormatUUID u = .ok d) :
    String.mk (replaceAllChar d.data '-' []) = u
    ∧ d.length = 36
    ∧ (stringBytes d).length = 36
    ∧ d.data[8]? = some '-' ∧ d.data[13]? = some '-'
    ∧ d.data[18]? = some '-' ∧ d.data[23]? = some '-' := by
  obtain ⟨hlen, hall, rfl⟩ := FormatUUID_ok_inv u d h
  have hb : stringBytes (dashedForm u) = (dashedForm u).data.map Char.toNat :=
    stringBytes_ascii _ (dashedForm_ascii u hall)
  obtain ⟨cs⟩ := u
  obtain ⟨h1, h2, h3, h4, h5, h6⟩ :=
    dashedForm_roundtrip cs hlen (fun c hc => isHexChar_ne_dash c (hall c hc))
  refine ⟨by rw [h1], h2, ?_, h3, h4, h5, h6⟩
  rw [hb, List.length_map]
  exact h2

/-- Witness for C14: the identifier derived from the name `Bob`. -/
theorem FormatUUID_roundtrip_witness :
    FormatUUID "faa5dca3c3d4354bae1bdde9e5a14b3b" = .ok "faa5dca3-c3d4-354b-ae1b-dde9e5a14b3b"
    ∧ String.mk (replaceAllChar "faa5dca3-c3d4-354b-ae1b-dde9e5a14b3b".data '-' [])
        = "faa5dca3c3d4354bae1bdde9e5a14b3b"
    ∧ "faa5dca3-c3d4-354b-ae1b-dde9e5a14b3b".length = 36 :=
  have h := FormatUUID_roundtrip "faa5dca3c3d4354bae1bdde9e5a14b3b"
    "faa5dca3-c3d4-354b-ae1b-dde9e5a14b3b" (by rfl)
  ⟨by rfl, h.1, h.2.1⟩

theorem hexDecode_ok (n : Nat) (l : List Nat) (hlen : l.length = 2 * n)
    (hall : ∀ b ∈ l, xvalue b ≠ 255) : ∃ r, hexDecode l = .ok r := by
  induction n generalizing l with
  | zero =>
    have : l = [] := List.length_eq_zero.mp (by simpa using hlen)
    subst this
    exact ⟨[], rfl⟩
  | succ n ih =>
    obtain ⟨p, t, rfl, ht⟩ := length_succ_cases l (2 * n + 1) (by omega)
    obtain ⟨q, rest, rfl, hr⟩ := length_succ_cases t (2 * n) ht
    have hp : ¬ xvalue p > 0x0f := by
      have := (xvalue_le_iff p).mpr (hall p (by simp))
      omega
    have hq : ¬ xvalue q > 0x0f := by
      have := (xvalue_le_iff q).mpr (hall q (by simp))
      omega
    obtain ⟨r, hrest⟩ := ih rest hr (fun b hb => hall b (by simp [hb]))
    refine ⟨(xvalue p <<< 4 ||| xvalue q) % 256 :: r, ?_⟩
    simp only [hexDecode, if_neg hp, if_neg hq, hrest]

theorem ParseUndashedUUID_ok (u d : String) (h : FormatUUID u = .ok d) :
    ∃ r, ParseUndashedUUID u = .ok r := by
  obtain ⟨hlen, hall⟩ := (FormatUUID_ok_iff u).mp ⟨d, h⟩
  obtain ⟨r, hr⟩ := (uuidParse_formatted (stringBytes u) hlen).mpr hall
  have hF := FormatUUID_ok_bytes u hlen hall
  refine ⟨r, ?_⟩
  unfold ParseUndashedUUID
  rw [hF]
  simp only
  rw [stringBytes_asciiString, hr]
  intro b hb
  have h45 : (45 : Nat) < 128 := by decide
  have hu : ∀ x ∈ stringBytes u, x < 128 := fun x hx => xvalue_lt_128 x (hall x hx)
  simp only [List.mem_append, List.mem_cons] at hb
  rcases hb with (((h | h | h) | h | h) | h | h) | h | h
  · exact hu b (List.mem_of_mem_take h)
  · exact h ▸ h45
  · exact hu b (List.mem_of_mem_drop (List.mem_of_mem_take h))
  · exact h ▸ h45
  · exact hu b (List.mem_of_mem_drop (List.mem_of_mem_take h))
  · exact h ▸ h45
  · exact hu b (List.mem_of_mem_drop (List.mem_of_mem_take h))
  · exact h ▸ h45
  · exact hu b (List.mem_of_mem_drop (List.mem_of_mem_take h))

theorem ValidateUndashedUUID_iff (u : String) :
    ValidateUndashedUUID u = true ↔ ∃ d, FormatUUID u = .ok d := by
  constructor
  · intro hv
    cases hF : FormatUUID u with
    | ok d => exact ⟨d, rfl⟩
    | error e =>
      exfalso
      unfold ValidateUndashedUUID ParseUndashedUUID at hv
      rw [hF] at hv
      by_cases hlen : (stringBytes u).length = 32
      · cases hd : hexDecode (stringBytes u) with
        | error e2 => simp [hlen, hd] at hv
        | ok r => simp [hlen, hd] at hv
      · simp [hlen] at hv
  · rintro ⟨d, hF⟩
    obtain ⟨hlen, hall⟩ := (FormatUUID_ok_iff u).mp ⟨d, hF⟩
    obtain ⟨r, hd⟩ := hexDecode_ok 16 (stringBytes u) hlen hall
    obtain ⟨r2, hp⟩ := ParseUndashedUUID_ok u d hF
    unfold ValidateUndashedUUID
    simp [hlen, hd, hp]

/-- C16: `ValidateUndashedUUID(u)` is true exactly when `u` consists of 32 hexadecimal digits
(of either case) and `FormatUUID(u)` succeeds, which is exactly when `FormatUUID(u)` succeeds:
the hex-decoding check accepts every string that `FormatUUID` accepts. -/
theorem ValidateUndashedUUID_spec (u : String) :
    (ValidateUndashedUUID u = true ↔
      (u.length = 32 ∧ ∀ c ∈ u.data, isHexChar c = true) ∧ ∃ d, FormatUUID u = .ok d)
    ∧ (ValidateUndashedUUID u = true ↔ ∃ d, FormatUUID u = .ok d)
    ∧ ((∃ d, FormatUUID u = .ok d) → ∃ r, hexDecode (stringBytes u) = .ok r)
    ∧ (ValidateUndashedUUID u = true ↔ (u.length = 32 ∧ ∀ c ∈ u.data, isHexChar c = true)) := by
  have h1 := ValidateUndashedUUID_iff u
  have h2 : (∃ d, FormatUUID u = .ok d) ↔ (u.length = 32 ∧ ∀ c ∈ u.data, isHexChar c = true) :=
    (FormatUUID_ok_iff u).trans (hex_chars_iff_bytes u)
  refine ⟨?_, h1, ?_, h1.trans h2⟩
  · rw [h1]
    exact ⟨fun h => ⟨h2.mp h, h⟩, fun h => h.2⟩
  · intro hok
    obtain ⟨hlen, hall⟩ := (FormatUUID_ok_iff u).mp hok
    exact hexDecode_ok 16 (stringBytes u) hlen hall

theorem lowerHexDigit_isHex (k : Nat) (h : k < 16) :
    isLowerHexChar (lowerHexDigit k) = true ∧ isHexChar (lowerHexDigit k) = true := by
  interval_cases k <;> exact ⟨by decide, by decide⟩

theorem hexRendering_chars (l : List Nat) (h : ∀ b ∈ l, b < 256) :
    ∀ c ∈ (hexRendering l).data, isLowerHexChar c = true ∧ isHexChar c = true := by
  intro c hc
  simp only [hexRendering, List.mem_flatMap, List.mem_cons, List.mem_singleton,
    List.not_mem_nil, or_false] at hc
  obtain ⟨b, hb, rfl | rfl⟩ := hc
  · exact lowerHexDigit_isHex _ (by have := h b hb; omega)
  · exact lowerHexDigit_isHex _ (Nat.mod_lt _ (by decide))

theorem hexRendering_even (l : List Nat) (i : Nat) :
    (hexRendering l).data[2 * i]? = (l[i]?).map fun b => lowerHexDigit (b / 16) := by
  unfold hexRendering
  induction l generalizing i with
  | nil => simp
  | cons v vs ih =>
    cases i with
    | zero => simp
    | succ j =>
      have e : 2 * (j + 1) = 2 * j + 1 + 1 := by omega
      simp only [List.flatMap_cons, e, List.cons_append, List.nil_append,
        List.getElem?_cons_succ] at ih ⊢
      exact ih j

theorem version_nibble (x : Nat) : ((x &&& 0x0f) ||| 0x30) / 16 = 3 := by
  have h : ∀ y < 16, (y ||| 0x30) / 16 = 3 := by decide
  exact h _ (lt_of_le_of_lt Nat.and_le_right (by decide))

set_option maxRecDepth 10000 in
theorem variant_nibble (x : Nat) :
    ((x &&& 0x3f) ||| 0x80) / 16 = 8 ∨ ((x &&& 0x3f) ||| 0x80) / 16 = 9
      ∨ ((x &&& 0x3f) ||| 0x80) / 16 = 10 ∨ ((x &&& 0x3f) ||| 0x80) / 16 = 11 := by
  have h : ∀ y < 64, (y ||| 0x80) / 16 = 8 ∨ (y ||| 0x80) / 16 = 9
      ∨ (y ||| 0x80) / 16 = 10 ∨ (y ||| 0x80) / 16 = 11 := by decide
  exact h _ (lt_of_le_of_lt Nat.and_le_right (by decide))

theorem getElem?_of_getD (l : List Nat) (i : Nat) (h : i < l.length) :
    l[i]? = some (l.getD i 0) := by
  rw [List.getD_eq_getElem?_getD, List.getElem?_eq_getElem h]
  rfl

/-- C17: the string returned by `GenerateOfflinePlayerUUID` has length 32, holds only the
characters `0`-`9` and `a`-`f`, has `3` at index 12 and one of `8`, `9`, `a`, `b` at index 16,
and is accepted by `ValidateUndashedUUID`. -/
theorem GenerateOfflinePlayerUUID_shape (n : String) :
    ∃ r, GenerateOfflinePlayerUUID n = .ok r
      ∧ r.length = 32
      ∧ (stringBytes r).length = 32
      ∧ (∀ c ∈ r.data, isLowerHexChar c = true)
      ∧ r.data[12]? = some '3'
      ∧ (r.data[16]? = some '8' ∨ r.data[16]? = some '9' ∨ r.data[16]? = some 'a'
          ∨ r.data[16]? = some 'b')
      ∧ ValidateUndashedUUID r = true := by
  obtain ⟨d', hres, hlen, hlt, e6, e8, _⟩ := offlineUUID_digest n
  have hL : (hexRendering d').length = 32 := by rw [hexRendering_length, hlen]
  have hch := hexRendering_chars d' hlt
  have hv : ValidateUndashedUUID (hexRendering d') = true ∧
      (stringBytes (hexRendering d')).length = 32 := by
    have hb := (hex_chars_iff_bytes (hexRendering d')).mpr ⟨hL, fun c hc => (hch c hc).2⟩
    exact ⟨(ValidateUndashedUUID_iff _).mpr ((FormatUUID_ok_iff _).mpr hb), hb.1⟩
  have h12 : (hexRendering d').data[12]? = some '3' := by
    have := hexRendering_even d' 6
    rw [getElem?_of_getD d' 6 (by omega), e6] at this
    simp only [Option.map_some'] at this
    rw [version_nibble] at this
    exact this
  have h16 := hexRendering_even d' 8
  rw [getElem?_of_getD d' 8 (by omega), e8] at h16
  simp only [Option.map_some'] at h16
  refine ⟨hexRendering d', hres, hL, hv.2, fun c hc => (hch c hc).1, h12, ?_, hv.1⟩
  rcases variant_nibble ((md5Sum (stringBytes ("OfflinePlayer:" ++ n))).getD 8 0)
    with h | h | h | h <;> rw [h] at h16
  · exact Or.inl h16
  · exact Or.inr (Or.inl h16)
  · exact Or.inr (Or.inr (Or.inl h16))
  · exact Or.inr (Or.inr (Or.inr h16))

/-! ## Effect of each operation on the store -/

theorem AddProfile_store (s : MemoryYggdrasilService) (userID name : String) :
    ∃ p, (AddProfile s userID name).1 = { s with profiles := s.profiles.insert userID p } := by
  obtain ⟨d', hres, _⟩ := offlineUUID_digest name
  refine ⟨⟨hexRendering d', name, []⟩, ?_⟩
  unfold AddProfile
  rw [hres]

theorem Auth_store_cases (s : MemoryYggdrasilService) (req : AuthRequest) (a c : String)
    (now : Nat) :
    (Auth s req a c now).1 = s ∨
    ∃ u p, s.users.lookup req.Username = some u ∧ s.profiles.lookup u.ID = some p
      ∧ (Auth s req a c now).1 =
          { s with
            accessTokens := s.accessTokens.insert a
              { UserID := u.ID,
                ClientToken := if req.ClientToken = "" then c else req.ClientToken,
                ProfileID := p.ID, CreatedAt := now },
            clientTokens :=
              s.clientTokens.insert (if req.ClientToken = "" then c else req.ClientToken) a } := by
  cases h : (Auth s req a c now).2 with
  | error e => exact Or.inl (Auth_error_store s req a c now e h)
  | ok resp =>
    obtain ⟨u, p, hu, _, hq, hs, _⟩ := Auth_ok_inv s req a c now resp h
    exact Or.inr ⟨u, p, hu, hq, hs⟩

theorem Refresh_store_cases (s : MemoryYggdrasilService) (req : RefreshRequest) (a : String)
    (now : Nat) :
    (Refresh s req a now).1 = s ∨
    ∃ info, s.accessTokens.lookup req.AccessToken = some info
      ∧ (Refresh s req a now).1 =
          { s with
            accessTokens := (s.accessTokens.erase req.AccessToken).insert a
              { UserID := info.UserID, ClientToken := info.ClientToken,
                ProfileID := info.ProfileID, CreatedAt := now },
            clientTokens :=
              (deleteClientToken s.clientTokens info.ClientToken req.AccessToken).insert
                info.ClientToken a } := by
  cases h : (Refresh s req a now).2 with
  | error e => exact Or.inl (Refresh_error_store s req a now e h)
  | ok resp =>
    obtain ⟨info, p, hi, _, _, hs, _⟩ := Refresh_ok_inv s req a now resp h
    exact Or.inr ⟨info, hi, hs⟩

theorem Invalidate_store_cases (s : MemoryYggdrasilService) (req : InvalidateRequest) :
    (Invalidate s req).1 = s ∨
    ∃ info, s.accessTokens.lookup req.AccessToken = some info
      ∧ (Invalidate s req).1 =
          { s with
            accessTokens := s.accessTokens.erase req.AccessToken,
            clientTokens :=
              deleteClientToken s.clientTokens info.ClientToken req.AccessToken } := by
  cases h : (Invalidate s req).2 with
  | some e => exact Or.inl (Invalidate_error_store s req e h)
  | none =>
    cases hi : s.accessTokens.lookup req.AccessToken with
    | none => simp [Invalidate, hi] at h
    | some info =>
      by_cases hc : req.ClientToken = info.ClientToken
      · exact Or.inr ⟨info, rfl, by rw [Invalidate_eq_ok s req info hi hc]⟩
      · simp [Invalidate, hi, hc] at h

theorem Signout_store_cases (s : MemoryYggdrasilService) (req : SignoutRequest) :
    (Signout s req).1 = s ∨
    ∃ u, s.users.lookup req.Username = some u
      ∧ (Signout s req).1 = s.accessTokens.entries.foldl (signoutStep u.ID) s := by
  cases hu : s.users.lookup req.Username with
  | none => exact Or.inl (by simp [Signout, hu])
  | some u =>
    by_cases hp : u.Password = req.Password
    · exact Or.inr ⟨u, rfl, by rw [Signout_eq_ok s req u hu hp]⟩
    · exact Or.inl (by simp [Signout, hu, hp])

theorem foldl_preserves {α β : Type} (f : β → α → β) (Q : β → Prop) (l : List α)
    (hstep : ∀ b a, a ∈ l → Q b → Q (f b a)) (b0 : β) (h0 : Q b0) : Q (l.foldl f b0) := by
  induction l generalizing b0 with
  | nil => exact h0
  | cons a l ih =>
    rw [List.foldl_cons]
    exact ih (fun b x hx hb => hstep b x (List.mem_cons_of_mem _ hx) hb) _
      (hstep b0 a (List.mem_cons_self _ _) h0)

theorem signout_fold_frame (userID : String) (l : List ((_ : String) × AccessTokenInfo))
    (st : MemoryYggdrasilService) :
    (l.foldl (signoutStep userID) st).users = st.users
    ∧ (l.foldl (signoutStep userID) st).profiles = st.profiles := by
  refine foldl_preserves (signoutStep userID)
    (fun b => b.users = st.users ∧ b.profiles = st.profiles) l ?_ st ⟨rfl, rfl⟩
  intro b e _ hb
  unfold signoutStep
  split_ifs
  · exact hb
  · exact hb

theorem deleteClientToken_lookup (m : GoMap String) (c a k v : String)
    (h : (deleteClientToken m c a).lookup k = some v) :
    m.lookup k = some v ∧ ¬ (k = c ∧ v = a) := by
  unfold deleteClientToken at h
  cases hc : m.lookup c with
  | none =>
    simp only [hc] at h
    refine ⟨h, ?_⟩
    rintro ⟨rfl, _⟩
    rw [hc] at h
    cases h
  | some old =>
    simp only [hc] at h
    by_cases ho : old = a
    · rw [if_pos ho] at h
      obtain ⟨hk, hl⟩ := lookup_erase_some _ _ _ _ h
      exact ⟨hl, fun hka => hk hka.1⟩
    · rw [if_neg ho] at h
      refine ⟨h, ?_⟩
      rintro ⟨rfl, rfl⟩
      rw [hc] at h
      exact ho (Option.some.inj h)

/-! ## The client-token index points at sessions -/

theorem IndexSound_remove (st : MemoryYggdrasilService) (A : String) (iA : AccessTokenInfo)
    (hA : ∀ i, st.accessTokens.lookup A = some i → i = iA) (hI : IndexSound st) :
    IndexSound { st with
      accessTokens := st.accessTokens.erase A,
      clientTokens := deleteClientToken st.clientTokens iA.ClientToken A } := by
  intro c a h
  obtain ⟨hl, hn⟩ := deleteClientToken_lookup _ _ _ _ _ h
  obtain ⟨i, hi, hic⟩ := hI c a hl
  have hne : a ≠ A := by
    rintro rfl
    have := hA i hi
    subst this
    exact hn ⟨hic.symm, rfl⟩
  exact ⟨i, by simpa [AList.lookup_erase_ne hne] using hi, hic⟩

theorem IndexSound_insert (st : MemoryYggdrasilService) (a : String) (info : AccessTokenInfo)
    (ha : a ∉ st.accessTokens) (hI : IndexSound st) :
    IndexSound { st with
      accessTokens := st.accessTokens.insert a info,
      clientTokens := st.clientTokens.insert info.ClientToken a } := by
  intro c x h
  rcases lookup_insert_some _ _ _ _ _ h with ⟨hc, hx⟩ | ⟨_, hl⟩
  · subst hc hx
    exact ⟨info, AList.lookup_insert _, rfl⟩
  · obtain ⟨i, hi, hic⟩ := hI c x hl
    have hne : x ≠ a := by
      rintro rfl
      exact ha (mem_of_lookup _ _ _ hi)
    exact ⟨i, by simpa [AList.lookup_insert_ne hne] using hi, hic⟩

theorem IndexSound_signout (s : MemoryYggdrasilService) (userID : String)
    (hI : IndexSound s) :
    IndexSound (s.accessTokens.entries.foldl (signoutStep userID) s) := by
  have key := foldl_preserves (signoutStep userID)
    (fun b => IndexSound b ∧
      ∀ k i, b.accessTokens.lookup k = some i → s.accessTokens.lookup k = some i)
    s.accessTokens.entries ?_ s ⟨hI, fun _ _ h => h⟩
  · exact key.1
  · intro b e he hb
    have hs : s.accessTokens.lookup e.1 = some e.2 := AList.mem_lookup_iff.mpr he
    unfold signoutStep
    split_ifs
    · refine ⟨IndexSound_remove b e.1 e.2 ?_ hb.1, ?_⟩
      · intro i hi
        have := hb.2 _ _ hi
        rw [hs] at this
        exact (Option.some.inj this).symm
      · intro k i hk
        exact hb.2 k i (lookup_erase_some _ _ _ _ hk).2
    · exact hb

theorem IndexSound_step (s : MemoryYggdrasilService) (c : Call) (hok : mintsFresh s c)
    (hI : IndexSound s) : IndexSound (c.run s) := by
  cases c with
  | addUser username password userID => exact hI
  | addProfile userID name =>
    obtain ⟨p, hp⟩ := AddProfile_store s userID name
    show IndexSound (AddProfile s userID name).1
    rw [hp]
    exact hI
  | auth req a c now =>
    show IndexSound (Auth s req a c now).1
    rcases Auth_store_cases s req a c now with h | ⟨u, p, _, _, h⟩
    · rw [h]
      exact hI
    · rw [h]
      exact IndexSound_insert s a _ hok.2.2 hI
  | refresh req a now =>
    show IndexSound (Refresh s req a now).1
    rcases Refresh_store_cases s req a now with h | ⟨info, hi, h⟩
    · rw [h]
      exact hI
    · rw [h]
      have h1 := IndexSound_remove s req.AccessToken info
        (fun i hi2 => by rw [hi] at hi2; exact (Option.some.inj hi2).symm) hI
      have hfresh : a ∉ s.accessTokens.erase req.AccessToken :=
        fun hm => hok.2 (AList.mem_erase.mp hm).2
      exact IndexSound_insert _ a
        { UserID := info.UserID, ClientToken := info.ClientToken,
          ProfileID := info.ProfileID, CreatedAt := now } hfresh h1
  | validate req =>
    show IndexSound (Validate s req).1
    rw [Validate_eq]
    exact hI
  | invalidate req =>
    show IndexSound (Invalidate s req).1
    rcases Invalidate_store_cases s req with h | ⟨info, hi, h⟩
    · rw [h]
      exact hI
    · rw [h]
      exact IndexSound_remove s req.AccessToken info
        (fun i hi2 => by rw [hi] at hi2; exact (Option.some.inj hi2).symm) hI
  | signout req =>
    show IndexSound (Signout s req).1
    rcases Signout_store_cases s req with h | ⟨u, _, h⟩
    · rw [h]
      exact hI
    · rw [h]
      exact IndexSound_signout s u.ID hI

theorem IndexSound_reachable (s : MemoryYggdrasilService) (h : ReachableBy mintsFresh s) :
    IndexSound s := by
  induction h with
  | init =>
    intro c a hl
    simp [NewMemoryYggdrasilService] at hl
  | step c _ hok ih => exact IndexSound_step _ c hok ih

/-! ## One session per client token -/

theorem OneSessionPerClient_shrink (st t : MemoryYggdrasilService)
    (hsub : ∀ k i, t.accessTokens.lookup k = some i → st.accessTokens.lookup k = some i)
    (h : OneSessionPerClient st) : OneSessionPerClient t :=
  fun a b ia ib ha hb hc => h a b ia ib (hsub a ia ha) (hsub b ib hb) hc

theorem OneSessionPerClient_insert (m : GoMap AccessTokenInfo) (st t : MemoryYggdrasilService)
    (a : String) (info : AccessTokenInfo)
    (hm : ∀ x y ix iy, m.lookup x = some ix → m.lookup y = some iy →
      ix.ClientToken = iy.ClientToken → x = y)
    (hnew : ∀ k i, m.lookup k = some i → i.ClientToken ≠ info.ClientToken)
    (ht : t.accessTokens = m.insert a info) (_hst : OneSessionPerClient st) :
    OneSessionPerClient t := by
  intro x y ix iy hx hy hc
  rw [ht] at hx hy
  rcases lookup_insert_some _ _ _ _ _ hx with ⟨hxa, hxi⟩ | ⟨_, hxl⟩
  · rcases lookup_insert_some _ _ _ _ _ hy with ⟨hya, _⟩ | ⟨_, hyl⟩
    · rw [hxa, hya]
    · subst hxi
      exact absurd hc.symm (hnew y iy hyl)
  · rcases lookup_insert_some _ _ _ _ _ hy with ⟨_, hyi⟩ | ⟨_, hyl⟩
    · subst hyi
      exact absurd hc (hnew x ix hxl)
    · exact hm x y ix iy hxl hyl hc

theorem OneSessionPerClient_step (s : MemoryYggdrasilService) (c : Call)
    (hok : clientTokenUnused s c) (hI : OneSessionPerClient s) :
    OneSessionPerClient (c.run s) := by
  cases c with
  | addUser username password userID => exact hI
  | addProfile userID name =>
    obtain ⟨p, hp⟩ := AddProfile_store s userID name
    show OneSessionPerClient (AddProfile s userID name).1
    rw [hp]
    exact hI
  | auth req a c now =>
    show OneSessionPerClient (Auth s req a c now).1
    rcases Auth_store_cases s req a c now with h | ⟨u, p, _, _, h⟩
    · rw [h]
      exact hI
    · rw [h]
      exact OneSessionPerClient_insert s.accessTokens s _ a
        { UserID := u.ID, ClientToken := if req.ClientToken = "" then c else req.ClientToken,
          ProfileID := p.ID, CreatedAt := now } hI hok rfl hI
  | refresh req a now =>
    show OneSessionPerClient (Refresh s req a now).1
    rcases Refresh_store_cases s req a now with h | ⟨info, hi, h⟩
    · rw [h]
      exact hI
    · rw [h]
      refine OneSessionPerClient_insert (s.accessTokens.erase req.AccessToken) s _ a
        { UserID := info.UserID, ClientToken := info.ClientToken,
          ProfileID := info.ProfileID, CreatedAt := now } ?_ ?_ rfl hI
      · intro x y ix iy hx hy hc
        exact hI x y ix iy (lookup_erase_some _ _ _ _ hx).2 (lookup_erase_some _ _ _ _ hy).2 hc
      · intro k i hk hc
        obtain ⟨hne, hl⟩ := lookup_erase_some _ _ _ _ hk
        exact hne (hI k req.AccessToken i info hl hi hc)
  | validate req =>
    show OneSessionPerClient (Validate s req).1
    rw [Validate_eq]
    exact hI
  | invalidate req =>
    show OneSessionPerClient (Invalidate s req).1
    rcases Invalidate_store_cases s req with h | ⟨info, _, h⟩
    · rw [h]
      exact hI
    · rw [h]
      exact OneSessionPerClient_shrink s _
        (fun k i hk => (lookup_erase_some _ _ _ _ hk).2) hI
  | signout req =>
    show OneSessionPerClient (Signout s req).1
    rcases Signout_store_cases s req with h | ⟨u, _, h⟩
    · rw [h]
      exact hI
    · rw [h]
      exact OneSessionPerClient_shrink s _
        (fun k i hk => signout_fold_lookup u.ID _ s k i hk) hI

theorem OneSessionPerClient_reachable (s : MemoryYggdrasilService)
    (h : ReachableBy clientTokenUnused s) : OneSessionPerClient s := by
  induction h with
  | init =>
    intro a b ia ib ha
    simp [NewMemoryYggdrasilService] at ha
  | step c _ hok ih => exact OneSessionPerClient_step _ c hok ih

/-! ## Owners of profiles and sessions -/

theorem OwnersRegistered_sessions (st t : MemoryYggdrasilService)
    (hu : t.users = st.users) (hp : t.profiles = st.profiles)
    (hs : ∀ a i, t.accessTokens.lookup a = some i →
      st.accessTokens.lookup a = some i ∨
        ∃ name u, st.users.lookup name = some u ∧ u.ID = i.UserID)
    (h : OwnersRegistered st) : OwnersRegistered t := by
  refine ⟨?_, ?_⟩
  · intro k hk
    rw [hp] at hk
    rw [hu]
    exact h.1 k hk
  · intro a i ha
    rw [hu]
    rcases hs a i ha with h1 | h1
    · exact h.2 a i h1
    · exact h1

theorem OwnersRegistered_step (s : MemoryYggdrasilService) (c : Call)
    (hok : ownersKnown s c) (hI : OwnersRegistered s) : OwnersRegistered (c.run s) := by
  cases c with
  | addUser username password userID =>
    have hkeep : ∀ name u, s.users.lookup name = some u →
        (s.users.insert username ⟨userID, password⟩).lookup name = some u := by
      intro name u hl
      have hne : name ≠ username := by
        rintro rfl
        exact hok (mem_of_lookup _ _ _ hl)
      rw [AList.lookup_insert_ne hne]
      exact hl
    refine ⟨?_, ?_⟩
    · intro k hk
      obtain ⟨name, u, hl, hid⟩ := hI.1 k hk
      exact ⟨name, u, hkeep name u hl, hid⟩
    · intro a i ha
      obtain ⟨name, u, hl, hid⟩ := hI.2 a i ha
      exact ⟨name, u, hkeep name u hl, hid⟩
  | addProfile userID name =>
    obtain ⟨p, hp⟩ := AddProfile_store s userID name
    show OwnersRegistered (AddProfile s userID name).1
    rw [hp]
    refine ⟨?_, hI.2⟩
    intro k hk
    rcases (AList.mem_insert s.profiles).mp hk with h | h
    · rw [h]
      exact hok
    · exact hI.1 k h
  | auth req a c now =>
    show OwnersRegistered (Auth s req a c now).1
    rcases Auth_store_cases s req a c now with h | ⟨u, p, hu, _, h⟩
    · rw [h]
      exact hI
    · rw [h]
      refine OwnersRegistered_sessions s _ rfl rfl ?_ hI
      intro x i hx
      rcases lookup_insert_some _ _ _ _ _ hx with ⟨_, hi⟩ | ⟨_, hl⟩
      · subst hi
        exact Or.inr ⟨req.Username, u, hu, rfl⟩
      · exact Or.inl hl
  | refresh req a now =>
    show OwnersRegistered (Refresh s req a now).1
    rcases Refresh_store_cases s req a now with h | ⟨info, hi, h⟩
    · rw [h]
      exact hI
    · rw [h]
      refine OwnersRegistered_sessions s _ rfl rfl ?_ hI
      intro x i hx
      rcases lookup_insert_some _ _ _ _ _ hx with ⟨_, hxi⟩ | ⟨_, hl⟩
      · subst hxi
        exact Or.inr (hI.2 req.AccessToken info hi)
      · exact Or.inl (lookup_erase_some _ _ _ _ hl).2
  | validate req =>
    show OwnersRegistered (Validate s req).1
    rw [Validate_eq]
    exact hI
  | invalidate req =>
    show OwnersRegistered (Invalidate s req).1
    rcases Invalidate_store_cases s req with h | ⟨info, _, h⟩
    · rw [h]
      exact hI
    · rw [h]
      exact OwnersRegistered_sessions s _ rfl rfl
        (fun x i hx => Or.inl (lookup_erase_some _ _ _ _ hx).2) hI
  | signout req =>
    show OwnersRegistered (Signout s req).1
    rcases Signout_store_cases s req with h | ⟨u, _, h⟩
    · rw [h]
      exact hI
    · rw [h]
      obtain ⟨h1, h2⟩ := signout_fold_frame u.ID s.accessTokens.entries s
      exact OwnersRegistered_sessions s _ h1 h2
        (fun x i hx => Or.inl (signout_fold_lookup u.ID _ s x i hx)) hI

theorem OwnersRegistered_reachable (s : MemoryYggdrasilService)
    (h : ReachableBy ownersKnown s) : OwnersRegistered s := by
  induction h with
  | init =>
    refine ⟨?_, ?_⟩
    · intro k hk
      exact absurd hk (AList.not_mem_empty k)
    · intro a i ha
      simp [NewMemoryYggdrasilService] at ha
  | step c _ hok ih => exact OwnersRegistered_step _ c hok ih

theorem Reachable_of_mintsFresh (s : MemoryYggdrasilService) (h : ReachableBy mintsFresh s) :
    Reachable s := by
  induction h with
  | init => exact .init
  | step c _ hok ih =>
    cases c with
    | addUser username password userID => exact .step ih (.addUser _ _ _ _ hok)
    | addProfile userID name => exact .step ih (.addProfile _ _ _)
    | auth req a c now => exact .step ih (.auth _ req a c now hok.1 hok.2.1)
    | refresh req a now => exact .step ih (.refresh _ req a now hok.1)
    | validate req => exact .step ih (.validate _ req)
    | invalidate req => exact .step ih (.invalidate _ req)
    | signout req => exact .step ih (.signout _ req)

/-! ## Invariants of the reachable stores, and where the stated ones fail -/

theorem registerAlice_reachable (ok : MemoryYggdrasilService → Call → Prop)
    (h1 : ok NewMemoryYggdrasilService (.addUser "alice" "secret" "u1"))
    (h2 : ok (Call.run NewMemoryYggdrasilService (.addUser "alice" "secret" "u1"))
      (.addProfile "u1" "Alice")) :
    ReachableBy ok (registerAlice.foldl Call.run NewMemoryYggdrasilService) :=
  .step _ (.step _ .init h1) h2

set_option maxRecDepth 100000 in
theorem sharedClientStore_fresh : ReachableBy mintsFresh sharedClientStore := by
  have h0 := registerAlice_reachable mintsFresh (show "u1" ≠ "" by decide) True.intro
  have h1 := ReachableBy.step (.auth { aliceAuth with ClientToken := "c1" } "a1" "m1" 7) h0
    (show "a1" ≠ "" ∧ "m1" ≠ ""
        ∧ "a1" ∉ (registerAlice.foldl Call.run NewMemoryYggdrasilService).accessTokens
      from ⟨by decide, by decide, AList.lookup_eq_none.mp (by rfl)⟩)
  exact ReachableBy.step (.auth { aliceAuth with ClientToken := "c1" } "a2" "m2" 8) h1
    (show "a2" ≠ "" ∧ "m2" ≠ ""
        ∧ "a2" ∉ (Call.run (registerAlice.foldl Call.run NewMemoryYggdrasilService)
            (.auth { aliceAuth with ClientToken := "c1" } "a1" "m1" 7)).accessTokens
      from ⟨by decide, by decide, AList.lookup_eq_none.mp (by rfl)⟩)

set_option maxRecDepth 100000 in
theorem sharedClientStore_sessions :
    sharedClientStore.accessTokens.lookup "a1"
      = some ⟨"u1", "c1", "10920508d5d83eed93d292f193afe7d7", 7⟩
    ∧ sharedClientStore.accessTokens.lookup "a2"
      = some ⟨"u1", "c1", "10920508d5d83eed93d292f193afe7d7", 8⟩
    ∧ sharedClientStore.clientTokens.lookup "c1" = some "a2" :=
  ⟨by rfl, by rfl, by rfl⟩

/-- C11, as stated, fails: after two `Auth` calls with the same caller-chosen client token
`c1` (distinct minted access tokens `a1`, `a2`), `a1` is a key of `accessTokens` whose session
has client token `c1`, while `clientTokens[c1]` is `a2`. -/
theorem index_converse_counterexample :
    ReachableBy mintsFresh sharedClientStore
    ∧ Reachable sharedClientStore
    ∧ sharedClientStore.accessTokens.lookup "a1"
        = some ⟨"u1", "c1", "10920508d5d83eed93d292f193afe7d7", 7⟩
    ∧ sharedClientStore.clientTokens.lookup "c1" = some "a2"
    ∧ ¬ (∀ s, Reachable s →
        (∀ c a, s.clientTokens.lookup c = some a → a ∈ s.accessTokens)
        ∧ ∀ a info, s.accessTokens.lookup a = some info →
            s.clientTokens.lookup info.ClientToken = some a) := by
  refine ⟨sharedClientStore_fresh, Reachable_of_mintsFresh _ sharedClientStore_fresh,
    sharedClientStore_sessions.1, sharedClientStore_sessions.2.2, ?_⟩
  intro hall
  have h := (hall sharedClientStore (Reachable_of_mintsFresh _ sharedClientStore_fresh)).2
    "a1" _ sharedClientStore_sessions.1
  rw [sharedClientStore_sessions.2.2] at h
  exact absurd (Option.some.inj h) (by decide)

/-- C12, as stated, fails: after two `Auth` calls with the same caller-chosen client token
`c1`, the distinct access tokens `a1` and `a2` are both in `accessTokens` with client token
`c1`. -/
theorem client_chain_counterexample :
    ReachableBy mintsFresh sharedClientStore
    ∧ Reachable sharedClientStore
    ∧ (∃ ia ib, sharedClientStore.accessTokens.lookup "a1" = some ia
        ∧ sharedClientStore.accessTokens.lookup "a2" = some ib
        ∧ ia.ClientToken = "c1" ∧ ib.ClientToken = "c1" ∧ "a1" ≠ "a2")
    ∧ ¬ (∀ s, Reachable s → ∀ c a b ia ib, s.accessTokens.lookup a = some ia →
        s.accessTokens.lookup b = some ib → ia.ClientToken = c → ib.ClientToken = c →
        a = b) := by
  refine ⟨sharedClientStore_fresh, Reachable_of_mintsFresh _ sharedClientStore_fresh,
    ⟨_, _, sharedClientStore_sessions.1, sharedClientStore_sessions.2.1, rfl, rfl, by decide⟩,
    ?_⟩
  intro hall
  have h := hall sharedClientStore (Reachable_of_mintsFresh _ sharedClientStore_fresh)
    "c1" "a1" "a2" _ _ sharedClientStore_sessions.1 sharedClientStore_sessions.2.1 rfl rfl
  exact absurd h (by decide)

/-- C12, amended: in every store reachable from the empty store through the public
operations run one after another (each call returns before the next one starts), where each
`Auth` records a client token (the caller's when non-empty, the minted one otherwise) that no
session of the store carries yet, there is for every client token `c` at most one access
token in `accessTokens` whose session has `ClientToken = c`. Calls that overlap in time are
left out: `ReachableBy` composes whole calls. -/
theorem one_session_per_client (s : MemoryYggdrasilService)
    (h : ReachableBy clientTokenUnused s) (c a b : String) (ia ib : AccessTokenInfo)
    (ha : s.accessTokens.lookup a = some ia) (hb : s.accessTokens.lookup b = some ib)
    (hca : ia.ClientToken = c) (hcb : ib.ClientToken = c) : a = b :=
  OneSessionPerClient_reachable s h a b ia ib ha hb (hca.trans hcb.symm)

set_option maxRecDepth 100000 in
theorem twoChains_reachable : ReachableBy clientTokenUnused twoChains := by
  have h0 := registerAlice_reachable clientTokenUnused True.intro True.intro
  have h1 := ReachableBy.step (.auth aliceAuth "a1" "c1" 7) h0
    (show ∀ k info,
        (registerAlice.foldl Call.run NewMemoryYggdrasilService).accessTokens.lookup k
          = some info → info.ClientToken ≠ "c1" from by
      intro k info hk
      have hE : (registerAlice.foldl Call.run NewMemoryYggdrasilService).accessTokens
          = (∅ : GoMap AccessTokenInfo) := by rfl
      rw [hE] at hk
      simp at hk)
  exact ReachableBy.step (.auth { aliceAuth with ClientToken := "c2" } "a2" "m2" 8) h1
    (show ∀ k info,
        (Call.run (registerAlice.foldl Call.run NewMemoryYggdrasilService)
          (.auth aliceAuth "a1" "c1" 7)).accessTokens.lookup k = some info →
        info.ClientToken ≠ "c2" from by
      intro k info hk
      have hE : (Call.run (registerAlice.foldl Call.run NewMemoryYggdrasilService)
          (.auth aliceAuth "a1" "c1" 7)).accessTokens
          = (∅ : GoMap AccessTokenInfo).insert "a1"
              ⟨"u1", "c1", "10920508d5d83eed93d292f193afe7d7", 7⟩ := by rfl
      rw [hE] at hk
      rcases lookup_insert_some _ _ _ _ _ hk with ⟨_, hi⟩ | ⟨_, hl⟩
      · subst hi
        show "c1" ≠ "c2"
        decide
      · simp at hl)

set_option maxRecDepth 100000 in
theorem twoChains_sessions :
    twoChains.accessTokens.lookup "a1"
      = some ⟨"u1", "c1", "10920508d5d83eed93d292f193afe7d7", 7⟩
    ∧ twoChains.accessTokens.lookup "a2"
      = some ⟨"u1", "c2", "10920508d5d83eed93d292f193afe7d7", 8⟩ :=
  ⟨by rfl, by rfl⟩

/-- Witness for C12: two sessions of `alice` under the client tokens `c1` and `c2`. -/
theorem one_session_per_client_witness :
    ReachableBy clientTokenUnused twoChains
    ∧ twoChains.accessTokens.lookup "a1"
        = some ⟨"u1", "c1", "10920508d5d83eed93d292f193afe7d7", 7⟩
    ∧ twoChains.accessTokens.lookup "a2"
        = some ⟨"u1", "c2", "10920508d5d83eed93d292f193afe7d7", 8⟩
    ∧ ∀ b ib, twoChains.accessTokens.lookup b = some ib → ib.ClientToken = "c1" → "a1" = b :=
  ⟨twoChains_reachable, twoChains_sessions.1, twoChains_sessions.2,
    fun b ib hb hc => one_session_per_client twoChains twoChains_reachable "c1" "a1" b _ ib
      twoChains_sessions.1 hb rfl hc⟩

theorem ghostProfileStore_reachable : Reachable ghostProfileStore :=
  .step .init (.addProfile _ "ghost" "Herobrine")

theorem ghostProfileStore_facts :
    "ghost" ∈ ghostProfileStore.profiles ∧ ∀ name, ghostProfileStore.users.lookup name = none := by
  obtain ⟨p, hp⟩ := AddProfile_store NewMemoryYggdrasilService "ghost" "Herobrine"
  unfold ghostProfileStore
  rw [hp]
  exact ⟨(AList.mem_insert _).mpr (Or.inl rfl), fun name => AList.lookup_empty name⟩

theorem reRegisteredStore_reachable : Reachable reRegisteredStore :=
  .step demoStore_reachable (.addUser _ "alice" "other" "u2" (by decide))

set_option maxRecDepth 100000 in
theorem reRegisteredStore_session :
    reRegisteredStore.accessTokens.lookup "a1"
      = some ⟨"u1", "c1", "10920508d5d83eed93d292f193afe7d7", 7⟩ := by
  rfl

set_option maxRecDepth 100000 in
theorem reRegisteredStore_users (name : String) (u : UserCredentials)
    (h : reRegisteredStore.users.lookup name = some u) : u.ID = "u2" := by
  have hE : reRegisteredStore.users
      = ((∅ : GoMap UserCredentials).insert "alice" ⟨"u1", "secret"⟩).insert "alice"
          ⟨"u2", "other"⟩ := by rfl
  rw [hE] at h
  rcases lookup_insert_some _ _ _ _ _ h with ⟨_, hu⟩ | ⟨hne, hl⟩
  · rw [hu]
  · rcases lookup_insert_some _ _ _ _ _ hl with ⟨hn, _⟩ | ⟨_, hl2⟩
    · exact absurd hn hne
    · simp at hl2

/-- C13, as stated, fails: `AddProfile` on the empty store with a user ID that was never
registered leaves the key `ghost` in `profiles` while `users` is empty; and registering the
username `alice` again after she authenticated leaves her session and her profile under the
user ID `u1`, which is the ID of no user record any more. -/
theorem ownership_counterexample :
    (Reachable ghostProfileStore ∧ "ghost" ∈ ghostProfileStore.profiles
      ∧ ∀ name, ghostProfileStore.users.lookup name = none)
    ∧ (Reachable reRegisteredStore
      ∧ (∃ info, reRegisteredStore.accessTokens.lookup "a1" = some info ∧ info.UserID = "u1")
      ∧ ∀ name u, reRegisteredStore.users.lookup name = some u → u.ID ≠ "u1")
    ∧ ¬ (∀ s, Reachable s →
        (∀ k, k ∈ s.profiles → ∃ name u, s.users.lookup name = some u ∧ u.ID = k)
        ∧ ∀ a info, s.accessTokens.lookup a = some info →
            ∃ name u, s.users.lookup name = some u ∧ u.ID = info.UserID) := by
  refine ⟨⟨ghostProfileStore_reachable, ghostProfileStore_facts.1, ghostProfileStore_facts.2⟩,
    ⟨reRegisteredStore_reachable, ⟨_, reRegisteredStore_session, rfl⟩, ?_⟩, ?_⟩
  · intro name u h hid
    have := reRegisteredStore_users name u h
    rw [hid] at this
    exact absurd this (by decide)
  · intro hall
    obtain ⟨name, u, hl, _⟩ :=
      (hall ghostProfileStore ghostProfileStore_reachable).1 "ghost" ghostProfileStore_facts.1
    rw [ghostProfileStore_facts.2 name] at hl
    cases hl

/-- C13, amended: in every store reachable from the empty store through the public
operations, where `AddUser` is called only for usernames that are not registered yet and
`AddProfile` only with the ID of a user record of the store, every key of `profiles` and every
`UserID` recorded in a session of `accessTokens` is the ID of a user record in `users`. -/
theorem ownership_invariant (s : MemoryYggdrasilService) (h : ReachableBy ownersKnown s) :
    (∀ k, k ∈ s.profiles → ∃ name u, s.users.lookup name = some u ∧ u.ID = k)
    ∧ ∀ a info, s.accessTokens.lookup a = some info →
        ∃ name u, s.users.lookup name = some u ∧ u.ID = info.UserID :=
  OwnersRegistered_reachable s h

theorem demoStore_ownersKnown : ReachableBy ownersKnown demoStore := by
  have h1 : ReachableBy ownersKnown
      (Call.run NewMemoryYggdrasilService (.addUser "alice" "secret" "u1")) :=
    .step _ .init (show "alice" ∉ (∅ : GoMap UserCredentials) from AList.not_mem_empty _)
  have h2 := ReachableBy.step (.addProfile "u1" "Alice") h1
    (show ∃ name u,
        (AddUser NewMemoryYggdrasilService "alice" "secret" "u1").1.users.lookup name = some u
          ∧ u.ID = "u1" from ⟨"alice", ⟨"u1", "secret"⟩, by rfl, rfl⟩)
  exact ReachableBy.step (.auth aliceAuth "a1" "c1" 7) h2 True.intro

/-- Witness for C13: `alice` is registered, given a profile and authenticated. -/
theorem ownership_invariant_witness :
    ReachableBy ownersKnown demoStore
    ∧ (Invalidate demoStore ⟨"a1", "c1"⟩).2 = none
    ∧ ((∀ k, k ∈ demoStore.profiles →
          ∃ name u, demoStore.users.lookup name = some u ∧ u.ID = k)
      ∧ ∀ a info, demoStore.accessTokens.lookup a = some info →
          ∃ name u, demoStore.users.lookup name = some u ∧ u.ID = info.UserID) :=
  ⟨demoStore_ownersKnown, demoStore_invalidate_ok,
    ownership_invariant demoStore demoStore_ownersKnown⟩

/-! ## User records -/

theorem run_users (s : MemoryYggdrasilService) (c : Call) :
    (c.run s).users = s.users
    ∨ ∃ username password userID, c = .addUser username password userID
        ∧ (c.run s).users = s.users.insert username ⟨userID, password⟩ := by
  cases c with
  | addUser username password userID => exact Or.inr ⟨username, password, userID, rfl, rfl⟩
  | addProfile userID name =>
    obtain ⟨p, hp⟩ := AddProfile_store s userID name
    refine Or.inl ?_
    show (AddProfile s userID name).1.users = s.users
    rw [hp]
  | auth req a c now =>
    refine Or.inl ?_
    show (Auth s req a c now).1.users = s.users
    rcases Auth_store_cases s req a c now with h | ⟨u, p, _, _, h⟩ <;> rw [h]
  | refresh req a now =>
    refine Or.inl ?_
    show (Refresh s req a now).1.users = s.users
    rcases Refresh_store_cases s req a now with h | ⟨info, _, h⟩ <;> rw [h]
  | validate req =>
    refine Or.inl ?_
    show (Validate s req).1.users = s.users
    rw [Validate_eq]
  | invalidate req =>
    refine Or.inl ?_
    show (Invalidate s req).1.users = s.users
    rcases Invalidate_store_cases s req with h | ⟨info, _, h⟩ <;> rw [h]
  | signout req =>
    refine Or.inl ?_
    show (Signout s req).1.users = s.users
    rcases Signout_store_cases s req with h | ⟨u, _, h⟩
    · rw [h]
    · rw [h]
      exact (signout_fold_frame u.ID s.accessTokens.entries s).1

set_option maxRecDepth 100000 in
theorem demoStore_alice : demoStore.users.lookup "alice" = some ⟨"u1", "secret"⟩ := by
  rfl

set_option maxRecDepth 100000 in
theorem reRegisteredStore_alice :
    reRegisteredStore.users.lookup "alice" = some ⟨"u2", "other"⟩ := by
  rfl

/-- C21, as stated, fails: in the reachable store `demoStore` the username `alice` is
registered with ID `u1` and password `secret`; after `AddUser("alice", "other")`, which mints
`u2`, her record holds ID `u2` and password `other`. -/
theorem user_record_counterexample :
    Reachable demoStore
    ∧ demoStore.users.lookup "alice" = some ⟨"u1", "secret"⟩
    ∧ (AddUser demoStore "alice" "other" "u2").1.users.lookup "alice" = some ⟨"u2", "other"⟩
    ∧ ¬ (∀ (s : MemoryYggdrasilService) (c : Call) (username : String) (u : UserCredentials),
        Reachable s → s.users.lookup username = some u →
        (c.run s).users.lookup username = some u) := by
  refine ⟨demoStore_reachable, demoStore_alice, reRegisteredStore_alice, ?_⟩
  intro hall
  have h := hall demoStore (.addUser "alice" "other" "u2") "alice" ⟨"u1", "secret"⟩
    demoStore_reachable demoStore_alice
  have h2 : (Call.run demoStore (.addUser "alice" "other" "u2")).users.lookup "alice"
      = some ⟨"u2", "other"⟩ := reRegisteredStore_alice
  rw [h2] at h
  exact absurd (Option.some.inj h) (by decide)

/-- C21, amended: for every store (reachable or not) and every call of a public operation
other than `AddUser` for that same username, the user ID and password stored in `users` for a
username that was registered before the call are the same after it. -/
theorem user_record_kept (s : MemoryYggdrasilService) (c : Call) (username : String)
    (u : UserCredentials) (hu : s.users.lookup username = some u)
    (hc : ∀ password userID, c ≠ .addUser username password userID) :
    (c.run s).users.lookup username = some u := by
  rcases run_users s c with h | ⟨name, password, userID, hcall, h⟩
  · rw [h]
    exact hu
  · rw [h]
    have hne : username ≠ name := by
      rintro rfl
      exact hc password userID hcall
    rw [AList.lookup_insert_ne hne]
    exact hu

/-- Witness for C21: the record of `alice` after her `Signout` and after another user's
registration. -/
theorem user_record_kept_witness :
    demoStore.users.lookup "alice" = some ⟨"u1", "secret"⟩
    ∧ (Signout demoStore ⟨"alice", "secret"⟩).1.users.lookup "alice" = some ⟨"u1", "secret"⟩
    ∧ (AddUser demoStore "bob" "hunter2" "u2").1.users.lookup "alice"
        = some ⟨"u1", "secret"⟩ :=
  ⟨demoStore_alice,
    user_record_kept demoStore (.signout ⟨"alice", "secret"⟩) "alice" _ demoStore_alice
      (fun _ _ h => by cases h),
    user_record_kept demoStore (.addUser "bob" "hunter2" "u2") "alice" _ demoStore_alice
      (fun _ _ h => by
        injection h with h1
        exact absurd h1 (by decide))⟩

/-! ## No dangling entry in the client-token index -/

theorem IndexSound_step_fresh (s : MemoryYggdrasilService) (c : Call)
    (hok : accessTokenFresh s c) (hI : IndexSound s) : IndexSound (c.run s) := by
  cases c with
  | addUser username password userID => exact hI
  | addProfile userID name =>
    obtain ⟨p, hp⟩ := AddProfile_store s userID name
    show IndexSound (AddProfile s userID name).1
    rw [hp]
    exact hI
  | auth req a c now =>
    show IndexSound (Auth s req a c now).1
    rcases Auth_store_cases s req a c now with h | ⟨u, p, _, _, h⟩
    · rw [h]
      exact hI
    · rw [h]
      exact IndexSound_insert s a _ hok hI
  | refresh req a now =>
    show IndexSound (Refresh s req a now).1
    rcases Refresh_store_cases s req a now with h | ⟨info, hi, h⟩
    · rw [h]
      exact hI
    · rw [h]
      have h1 := IndexSound_remove s req.AccessToken info
        (fun i hi2 => by rw [hi] at hi2; exact (Option.some.inj hi2).symm) hI
      have hfresh : a ∉ s.accessTokens.erase req.AccessToken :=
        fun hm => hok (AList.mem_erase.mp hm).2
      exact IndexSound_insert _ a
        { UserID := info.UserID, ClientToken := info.ClientToken,
          ProfileID := info.ProfileID, CreatedAt := now } hfresh h1
  | validate req =>
    show IndexSound (Validate s req).1
    rw [Validate_eq]
    exact hI
  | invalidate req =>
    show IndexSound (Invalidate s req).1
    rcases Invalidate_store_cases s req with h | ⟨info, hi, h⟩
    · rw [h]
      exact hI
    · rw [h]
      exact IndexSound_remove s req.AccessToken info
        (fun i hi2 => by rw [hi] at hi2; exact (Option.some.inj hi2).symm) hI
  | signout req =>
    show IndexSound (Signout s req).1
    rcases Signout_store_cases s req with h | ⟨u, _, h⟩
    · rw [h]
      exact hI
    · rw [h]
      exact IndexSound_signout s u.ID hI

theorem ReachableBy_mono (ok ok' : MemoryYggdrasilService → Call → Prop)
    (himp : ∀ s c, ok s c → ok' s c) (s : MemoryYggdrasilService) (h : ReachableBy ok s) :
    ReachableBy ok' s := by
  induction h with
  | init => exact .init
  | step c _ hok ih => exact .step c ih (himp _ c hok)

theorem accessTokenFresh_of_mintsFresh (s : MemoryYggdrasilService) (c : Call)
    (h : mintsFresh s c) : accessTokenFresh s c := by
  cases c with
  | auth req a c now => exact h.2.2
  | refresh req a now => exact h.2
  | addUser username password userID => exact True.intro
  | addProfile userID name => exact True.intro
  | validate req => exact True.intro
  | invalidate req => exact True.intro
  | signout req => exact True.intro

theorem IndexSound_reachable_fresh (s : MemoryYggdrasilService)
    (h : ReachableBy accessTokenFresh s) : IndexSound s := by
  induction h with
  | init =>
    intro c a hl
    simp [NewMemoryYggdrasilService] at hl
  | step c _ hok ih => exact IndexSound_step_fresh _ c hok ih

/-- C23: in every store reachable from the empty store through the public operations run one
after the other, each minted access token being different from every access token already
in the store, every entry `clientTokens[c] = a` has `a` as a key of `accessTokens`, with
`accessTokens[a].ClientToken = c`. -/
theorem no_dangling_index_entry (s : MemoryYggdrasilService)
    (h : ReachableBy accessTokenFresh s) (c a : String)
    (hc : s.clientTokens.lookup c = some a) :
    a ∈ s.accessTokens
    ∧ ∃ info, s.accessTokens.lookup a = some info ∧ info.ClientToken = c := by
  obtain ⟨info, hi, hic⟩ := IndexSound_reachable_fresh s h c a hc
  exact ⟨mem_of_lookup _ _ _ hi, info, hi, hic⟩

/-- Witness for C23: the index entry of `c1` after `alice` authenticated twice with it. -/
theorem no_dangling_index_entry_witness :
    ReachableBy accessTokenFresh sharedClientStore
    ∧ sharedClientStore.clientTokens.lookup "c1" = some "a2"
    ∧ "a2" ∈ sharedClientStore.accessTokens
    ∧ ∃ info, sharedClientStore.accessTokens.lookup "a2" = some info
        ∧ info.ClientToken = "c1" :=
  have hr := ReachableBy_mono mintsFresh accessTokenFresh accessTokenFresh_of_mintsFresh _
    sharedClientStore_fresh
  ⟨hr, sharedClientStore_sessions.2.2,
    no_dangling_index_entry sharedClientStore hr "c1" "a2" sharedClientStore_sessions.2.2⟩

/-! ## Sessions keep a profile -/

theorem SessionsHaveProfile_of (st t : MemoryYggdrasilService)
    (hp : ∀ k, k ∈ st.profiles → k ∈ t.profiles)
    (hs : ∀ a i, t.accessTokens.lookup a = some i →
      st.accessTokens.lookup a = some i ∨ i.UserID ∈ st.profiles)
    (h : SessionsHaveProfile st) : SessionsHaveProfile t := by
  intro a i ha
  rcases hs a i ha with h1 | h1
  · exact hp _ (h a i h1)
  · exact hp _ h1

theorem SessionsHaveProfile_step (s : MemoryYggdrasilService) (c : Call)
    (hI : SessionsHaveProfile s) : SessionsHaveProfile (c.run s) := by
  cases c with
  | addUser username password userID => exact hI
  | addProfile userID name =>
    obtain ⟨p, hp⟩ := AddProfile_store s userID name
    show SessionsHaveProfile (AddProfile s userID name).1
    rw [hp]
    exact SessionsHaveProfile_of s _ (fun k hk => (AList.mem_insert _).mpr (Or.inr hk))
      (fun a i ha => Or.inl ha) hI
  | auth req a c now =>
    show SessionsHaveProfile (Auth s req a c now).1
    rcases Auth_store_cases s req a c now with h | ⟨u, p, _, hq, h⟩
    · rw [h]
      exact hI
    · rw [h]
      refine SessionsHaveProfile_of s _ (fun k hk => hk) ?_ hI
      intro x i hx
      rcases lookup_insert_some _ _ _ _ _ hx with ⟨_, hi⟩ | ⟨_, hl⟩
      · subst hi
        exact Or.inr (mem_of_lookup _ _ _ hq)
      · exact Or.inl hl
  | refresh req a now =>
    show SessionsHaveProfile (Refresh s req a now).1
    rcases Refresh_store_cases s req a now with h | ⟨info, hi, h⟩
    · rw [h]
      exact hI
    · rw [h]
      refine SessionsHaveProfile_of s _ (fun k hk => hk) ?_ hI
      intro x i hx
      rcases lookup_insert_some _ _ _ _ _ hx with ⟨_, hxi⟩ | ⟨_, hl⟩
      · subst hxi
        exact Or.inr (hI req.AccessToken info hi)
      · exact Or.inl (lookup_erase_some _ _ _ _ hl).2
  | validate req =>
    show SessionsHaveProfile (Validate s req).1
    rw [Validate_eq]
    exact hI
  | invalidate req =>
    show SessionsHaveProfile (Invalidate s req).1
    rcases Invalidate_store_cases s req with h | ⟨info, _, h⟩
    · rw [h]
      exact hI
    · rw [h]
      exact SessionsHaveProfile_of s _ (fun k hk => hk)
        (fun x i hx => Or.inl (lookup_erase_some _ _ _ _ hx).2) hI
  | signout req =>
    show SessionsHaveProfile (Signout s req).1
    rcases Signout_store_cases s req with h | ⟨u, _, h⟩
    · rw [h]
      exact hI
    · rw [h]
      refine SessionsHaveProfile_of s _ ?_
        (fun x i hx => Or.inl (signout_fold_lookup u.ID _ s x i hx)) hI
      intro k hk
      rw [(signout_fold_frame u.ID s.accessTokens.entries s).2]
      exact hk

theorem SessionsHaveProfile_reachable (s : MemoryYggdrasilService) (h : Reachable s) :
    SessionsHaveProfile s := by
  induction h with
  | init =>
    intro a i ha
    simp [NewMemoryYggdrasilService] at ha
  | step _ hst ih =>
    cases hst with
    | addUser username password userID hid =>
      exact SessionsHaveProfile_step _ (.addUser username password userID) ih
    | addProfile userID name => exact SessionsHaveProfile_step _ (.addProfile userID name) ih
    | auth req a c now ha hc => exact SessionsHaveProfile_step _ (.auth req a c now) ih
    | refresh req a now ha => exact SessionsHaveProfile_step _ (.refresh req a now) ih
    | validate req => exact SessionsHaveProfile_step _ (.validate req) ih
    | invalidate req => exact SessionsHaveProfile_step _ (.invalidate req) ih
    | signout req => exact SessionsHaveProfile_step _ (.signout req) ih

theorem Refresh_ok_iff_Validate (s : MemoryYggdrasilService) (hI : SessionsHaveProfile s)
    (req : RefreshRequest) (ra : String) (now : Nat) :
    (Refresh s req ra now).2 ≠ .error "No profile found for user"
    ∧ ((∃ resp, (Refresh s req ra now).2 = .ok resp) ↔
        (Validate s ⟨req.AccessToken, req.ClientToken⟩).2 = .ok true) := by
  rw [Validate_eq]
  cases hi : s.accessTokens.lookup req.AccessToken with
  | none => simp [Refresh, hi]
  | some info =>
    obtain ⟨p, hq⟩ := lookup_of_mem _ _ (hI _ _ hi)
    by_cases hc : req.ClientToken = "" ∨ req.ClientToken = info.ClientToken
    · rw [Refresh_ok_eq s req ra now info p hi hc hq]
      simp [hc]
    · have hc2 : req.ClientToken ≠ "" ∧ req.ClientToken ≠ info.ClientToken := by
        constructor
        · exact fun h => hc (Or.inl h)
        · exact fun h => hc (Or.inr h)
      simp [Refresh, hi, hc2.1, hc2.2]

/-- C24: in every store reachable from the empty store through the public operations, every
session of `accessTokens` has a profile registered for its `UserID`; so `Refresh` never
returns "No profile found for user", and for every access token and client token `Refresh`
succeeds exactly when `Validate` answers true for the same pair. -/
theorem Refresh_succeeds_iff_Validate (s : MemoryYggdrasilService) (h : Reachable s) :
    (∀ a info, s.accessTokens.lookup a = some info → info.UserID ∈ s.profiles)
    ∧ (∀ (req : RefreshRequest) (ra : String) (now : Nat),
        (Refresh s req ra now).2 ≠ .error "No profile found for user")
    ∧ ∀ (req : RefreshRequest) (ra : String) (now : Nat),
        (∃ resp, (Refresh s req ra now).2 = .ok resp) ↔
          (Validate s ⟨req.AccessToken, req.ClientToken⟩).2 = .ok true :=
  have hI := SessionsHaveProfile_reachable s h
  ⟨hI, fun req ra now => (Refresh_ok_iff_Validate s hI req ra now).1,
    fun req ra now => (Refresh_ok_iff_Validate s hI req ra now).2⟩

set_option maxRecDepth 100000 in
theorem demoStore_validate :
    (Validate demoStore ⟨"a1", "c1"⟩).2 = .ok true
    ∧ (Validate demoStore ⟨"a1", "c9"⟩).2 = .ok false :=
  ⟨by rfl, by rfl⟩

/-- Witness for C24: on `demoStore` the token `a1` refreshes with the client token `c1` and
not with `c9`. -/
theorem Refresh_succeeds_iff_Validate_witness :
    Reachable demoStore
    ∧ (Validate demoStore ⟨"a1", "c1"⟩).2 = .ok true
    ∧ (∃ resp, (Refresh demoStore ⟨"a1", "c1", false, none⟩ "a2" 8).2 = .ok resp)
    ∧ ¬ (∃ resp, (Refresh demoStore ⟨"a1", "c9", false, none⟩ "a2" 8).2 = .ok resp) :=
  have h := Refresh_succeeds_iff_Validate demoStore demoStore_reachable
  ⟨demoStore_reachable, demoStore_validate.1,
    (h.2.2 ⟨"a1", "c1", false, none⟩ "a2" 8).mpr demoStore_validate.1,
    fun hex => by
      have h2 := (h.2.2 ⟨"a1", "c9", false, none⟩ "a2" 8).mp hex
      rw [demoStore_validate.2] at h2
      exact absurd (Except.ok.inj h2) (by decide)⟩

/-! ## What `Signout` leaves in place -/

theorem deleteClientToken_lookup_eq (m : GoMap String) (c0 a0 c : String) :
    (deleteClientToken m c0 a0).lookup c
      = if c = c0 ∧ m.lookup c = some a0 then none else m.lookup c := by
  unfold deleteClientToken
  cases h0 : m.lookup c0 with
  | none =>
    by_cases hc : c = c0
    · subst hc
      simp [h0]
    · simp [hc]
  | some old =>
    by_cases ho : old = a0
    · subst ho
      by_cases hc : c = c0
      · subst hc
        simp [h0, AList.lookup_erase]
      · simp [hc, AList.lookup_erase_ne hc]
    · by_cases hc : c = c0
      · subst hc
        simp [h0, ho]
      · simp [hc, ho]

theorem signout_fold_clientTokens (userID : String)
    (l : List ((_ : String) × AccessTokenInfo)) (st : MemoryYggdrasilService) (c : String) :
    ((l.foldl (signoutStep userID) st).clientTokens.lookup c = none ↔
      (st.clientTokens.lookup c = none ∨
        ∃ e ∈ l, e.2.UserID = userID ∧ e.2.ClientToken = c
          ∧ st.clientTokens.lookup c = some e.1))
    ∧ ∀ a, (l.foldl (signoutStep userID) st).clientTokens.lookup c = some a →
        st.clientTokens.lookup c = some a := by
  induction l generalizing st with
  | nil => simp
  | cons e l ih =>
    rw [List.foldl_cons]
    obtain ⟨ihA, ihB⟩ := ih (signoutStep userID st e)
    by_cases hD : e.2.UserID = userID ∧ e.2.ClientToken = c
        ∧ st.clientTokens.lookup c = some e.1
    · have h1 : (signoutStep userID st e).clientTokens.lookup c = none := by
        unfold signoutStep
        rw [if_pos hD.1]
        show (deleteClientToken st.clientTokens e.2.ClientToken e.1).lookup c = none
        rw [deleteClientToken_lookup_eq, if_pos ⟨hD.2.1.symm, hD.2.2⟩]
      have hfin := ihA.mpr (Or.inl h1)
      refine ⟨⟨fun _ => Or.inr ⟨e, List.mem_cons_self _ _, hD⟩, fun _ => hfin⟩, ?_⟩
      intro a ha
      rw [hfin] at ha
      cases ha
    · have h1 : (signoutStep userID st e).clientTokens.lookup c = st.clientTokens.lookup c := by
        unfold signoutStep
        by_cases hU : e.2.UserID = userID
        · rw [if_pos hU]
          show (deleteClientToken st.clientTokens e.2.ClientToken e.1).lookup c = _
          rw [deleteClientToken_lookup_eq, if_neg]
          rintro ⟨h2, h3⟩
          exact hD ⟨hU, h2.symm, h3⟩
        · rw [if_neg hU]
      rw [h1] at ihA ihB
      refine ⟨ihA.trans ⟨?_, ?_⟩, ihB⟩
      · rintro (h | ⟨e', he', h⟩)
        · exact Or.inl h
        · exact Or.inr ⟨e', List.mem_cons_of_mem _ he', h⟩
      · rintro (h | ⟨e', he', h⟩)
        · exact Or.inl h
        · rcases List.mem_cons.mp he' with rfl | he'
          · exact absurd h hD
          · exact Or.inr ⟨e', he', h⟩

theorem signout_fold_kept (userID : String) (l : List ((_ : String) × AccessTokenInfo))
    (st : MemoryYggdrasilService) (k : String) (info : AccessTokenInfo)
    (hk : st.accessTokens.lookup k = some info)
    (hne : ∀ e ∈ l, e.1 = k → e.2.UserID ≠ userID) :
    (l.foldl (signoutStep userID) st).accessTokens.lookup k = some info := by
  induction l generalizing st with
  | nil => exact hk
  | cons e l ih =>
    rw [List.foldl_cons]
    refine ih _ ?_ (fun e' he' => hne e' (List.mem_cons_of_mem _ he'))
    unfold signoutStep
    by_cases hU : e.2.UserID = userID
    · rw [if_pos hU]
      have hne1 : k ≠ e.1 := fun h => hne e (List.mem_cons_self _ _) h.symm hU
      show (st.accessTokens.erase e.1).lookup k = some info
      rw [AList.lookup_erase_ne hne1]
      exact hk
    · rw [if_neg hU]
      exact hk

/-- Effect of a successful `Signout` on any store: `users` and `profiles` are unchanged,
the sessions of other users are kept with their records, no entry of `clientTokens` is added
or changed, and an entry `c ↦ a` is removed exactly when `a` is a session of the user that
carries the client token `c`. -/
theorem Signout_entries (s : MemoryYggdrasilService) (req : SignoutRequest) (u : UserCredentials)
    (hu : s.users.lookup req.Username = some u) (hp : u.Password = req.Password) :
    (Signout s req).2 = none
    ∧ (Signout s req).1.users = s.users
    ∧ (Signout s req).1.profiles = s.profiles
    ∧ (∀ a info, s.accessTokens.lookup a = some info → info.UserID ≠ u.ID →
        (Signout s req).1.accessTokens.lookup a = some info
        ∧ ∀ x, (Validate (Signout s req).1 ⟨a, x⟩).2 = (Validate s ⟨a, x⟩).2)
    ∧ (∀ c a, (Signout s req).1.clientTokens.lookup c = some a →
        s.clientTokens.lookup c = some a)
    ∧ (∀ c a, s.clientTokens.lookup c = some a →
        ((Signout s req).1.clientTokens.lookup c = none ↔
          ∃ info, s.accessTokens.lookup a = some info ∧ info.UserID = u.ID
            ∧ info.ClientToken = c))
    ∧ (IndexSound s → ∀ c a, s.clientTokens.lookup c = some a →
        ((Signout s req).1.clientTokens.lookup c = none ↔
          ∃ info, s.accessTokens.lookup a = some info ∧ info.UserID = u.ID)) := by
  rw [Signout_eq_ok s req u hu hp]
  obtain ⟨hfu, hfp⟩ := signout_fold_frame u.ID s.accessTokens.entries s
  have hrem : ∀ c a, s.clientTokens.lookup c = some a →
      ((s.accessTokens.entries.foldl (signoutStep u.ID) s).clientTokens.lookup c = none ↔
        ∃ info, s.accessTokens.lookup a = some info ∧ info.UserID = u.ID
          ∧ info.ClientToken = c) := by
    intro c a hc
    rw [(signout_fold_clientTokens u.ID s.accessTokens.entries s c).1]
    constructor
    · rintro (h | ⟨e, he, hU, hC, hl⟩)
      · rw [hc] at h
        cases h
      · rw [hc] at hl
        have hea : a = e.1 := Option.some.inj hl
        exact ⟨e.2, by rw [hea]; exact AList.mem_lookup_iff.mpr he, hU, hC⟩
    · rintro ⟨info, hi, hU, hC⟩
      exact Or.inr ⟨⟨a, info⟩, AList.mem_lookup_iff.mp hi, hU, hC, hc⟩
  refine ⟨rfl, hfu, hfp, ?_, ?_, hrem, ?_⟩
  · intro a info ha hne
    have hk := signout_fold_kept u.ID s.accessTokens.entries s a info ha (by
      intro e he hea hU
      have h1 : s.accessTokens.lookup e.1 = some e.2 := AList.mem_lookup_iff.mpr he
      rw [hea, ha] at h1
      exact hne ((Option.some.inj h1) ▸ hU))
    refine ⟨hk, fun x => ?_⟩
    simp only [Validate_eq, hk, ha]
  · intro c a h
    exact (signout_fold_clientTokens u.ID s.accessTokens.entries s c).2 a h
  · intro hI c a hc
    rw [hrem c a hc]
    constructor
    · rintro ⟨info, hi, hU, _⟩
      exact ⟨info, hi, hU⟩
    · rintro ⟨info, hi, hU⟩
      obtain ⟨info', hi', hC⟩ := hI c a hc
      rw [hi] at hi'
      exact ⟨info, hi, hU, (Option.some.inj hi') ▸ hC⟩

set_option maxRecDepth 10000 in
theorem twoSessions_facts :
    twoSessions.users.lookup "alice" = some ⟨"u1", "secret"⟩
    ∧ twoSessions.clientTokens.lookup "c1" = some "a1"
    ∧ (Signout twoSessions ⟨"alice", "secret"⟩).1.clientTokens.lookup "c1" = none :=
  ⟨by rfl, by rfl, by rfl⟩

/-! ## Concurrent `Refresh` -/

theorem runSchedule_single (s : MemoryYggdrasilService) (req : RefreshRequest) (a : String)
    (now : Nat) :
    (runSchedule s [⟨req, a, now, .start⟩] [0, 0, 0]).1 = (Refresh s req a now).1
    ∧ (runSchedule s [⟨req, a, now, .start⟩] [0, 0, 0]).2.map RefreshCaller.result
        = [some (Refresh s req a now).2] := by
  unfold runSchedule Refresh
  cases hi : s.accessTokens.lookup req.AccessToken with
  | none => simp [stepCaller, refreshSection, RefreshCaller.result, hi]
  | some info =>
    by_cases hc : req.ClientToken ≠ "" ∧ req.ClientToken ≠ info.ClientToken
    · simp [stepCaller, refreshSection, RefreshCaller.result, hi, hc.1, hc.2]
    · cases hq : s.profiles.lookup info.UserID with
      | none => simp [stepCaller, refreshSection, RefreshCaller.result, hi, hc, hq]
      | some p => simp [stepCaller, refreshSection, RefreshCaller.result, hi, hc, hq]

theorem runSchedule_race (s : MemoryYggdrasilService) (req : RefreshRequest) (n1 n2 : String)
    (now1 now2 : Nat) (resp : AuthResponse) (h : (Refresh s req n1 now1).2 = .ok resp) :
    ∃ r1 r2, (runSchedule s [⟨req, n1, now1, .start⟩, ⟨req, n2, now2, .start⟩]
        [0, 1, 0, 1, 0, 1]).2.map RefreshCaller.result = [some (.ok r1), some (.ok r2)]
      ∧ r1.AccessToken = n1 ∧ r2.AccessToken = n2 := by
  obtain ⟨info, p, hi, hc, hq, _, _⟩ := Refresh_ok_inv s req n1 now1 resp h
  have hc2 : ¬ (req.ClientToken ≠ "" ∧ req.ClientToken ≠ info.ClientToken) := by
    rintro ⟨h1, h2⟩
    rcases hc with h | h
    · exact h1 h
    · exact h2 h
  refine ⟨⟨n1, info.ClientToken, [], some p, responseUser req.RequestUser info.UserID⟩,
    ⟨n2, info.ClientToken, [], some p, responseUser req.RequestUser info.UserID⟩, ?_, rfl, rfl⟩
  simp [runSchedule, stepCaller, refreshSection, RefreshCaller.result, hi, hc2, hq]

set_option maxRecDepth 10000 in
theorem racingCallers_runs :
    (Validate oneSession ⟨"a1", "c1"⟩).2 = .ok true
    ∧ (runSchedule oneSession racingCallers [0, 1, 0, 1, 0, 1]).2.map RefreshCaller.result
        = [some (.ok ⟨"n1", "c1", [], some ⟨"p1", "Alice", []⟩, none⟩),
           some (.ok ⟨"n2", "c1", [], some ⟨"p1", "Alice", []⟩, none⟩)]
    ∧ (Validate (runSchedule oneSession racingCallers [0, 1, 0, 1, 0, 1]).1
        ⟨"n1", "c1"⟩).2 = .ok true
    ∧ (Validate (runSchedule oneSession racingCallers [0, 1, 0, 1, 0, 1]).1
        ⟨"n2", "c1"⟩).2 = .ok true
    ∧ (runSchedule oneSession racingCallers [0, 0, 0, 1, 1, 1]).2.map RefreshCaller.result
        = [some (.ok ⟨"n1", "c1", [], some ⟨"p1", "Alice", []⟩, none⟩),
           some (.error "Invalid token.")] :=
  ⟨by rfl, by rfl, by rfl, by rfl, by rfl⟩

/-- C22 fails on the code: two callers refresh the live access token `a1` with its client
token `c1`. When both run their first section (the read and check of `accessTokens`) before
either runs its locked update, both return a response, with the new tokens `n1` and `n2`,
and `Validate` then accepts both; when the sections of one caller all come first, the other
caller gets "Invalid token.". A single caller running its three sections gives `Refresh`. -/
theorem concurrent_refresh_both_succeed :
    ((Validate oneSession ⟨"a1", "c1"⟩).2 = .ok true
      ∧ (runSchedule oneSession racingCallers [0, 1, 0, 1, 0, 1]).2.map RefreshCaller.result
          = [some (.ok ⟨"n1", "c1", [], some ⟨"p1", "Alice", []⟩, none⟩),
             some (.ok ⟨"n2", "c1", [], some ⟨"p1", "Alice", []⟩, none⟩)]
      ∧ (Validate (runSchedule oneSession racingCallers [0, 1, 0, 1, 0, 1]).1
          ⟨"n1", "c1"⟩).2 = .ok true
      ∧ (Validate (runSchedule oneSession racingCallers [0, 1, 0, 1, 0, 1]).1
          ⟨"n2", "c1"⟩).2 = .ok true
      ∧ (runSchedule oneSession racingCallers [0, 0, 0, 1, 1, 1]).2.map RefreshCaller.result
          = [some (.ok ⟨"n1", "c1", [], some ⟨"p1", "Alice", []⟩, none⟩),
             some (.error "Invalid token.")])
    ∧ (∀ (s : MemoryYggdrasilService) (req : RefreshRequest) (a : String) (now : Nat),
        (runSchedule s [⟨req, a, now, .start⟩] [0, 0, 0]).1 = (Refresh s req a now).1
        ∧ (runSchedule s [⟨req, a, now, .start⟩] [0, 0, 0]).2.map RefreshCaller.result
            = [some (Refresh s req a now).2])
    ∧ ∀ (s : MemoryYggdrasilService) (req : RefreshRequest) (n1 n2 : String) (now1 now2 : Nat)
        (resp : AuthResponse), (Refresh s req n1 now1).2 = .ok resp →
        ∃ r1 r2, (runSchedule s [⟨req, n1, now1, .start⟩, ⟨req, n2, now2, .start⟩]
            [0, 1, 0, 1, 0, 1]).2.map RefreshCaller.result = [some (.ok r1), some (.ok r2)]
          ∧ r1.AccessToken = n1 ∧ r2.AccessToken = n2 :=
  ⟨racingCallers_runs, runSchedule_single, runSchedule_race⟩

/-! ## Every session is indexed -/

theorem IndexComplete_remove (st : MemoryYggdrasilService) (A c0 : String)
    (hJ : IndexComplete st) :
    IndexComplete { st with
      accessTokens := st.accessTokens.erase A,
      clientTokens := deleteClientToken st.clientTokens c0 A } := by
  intro x ix hx
  obtain ⟨hne, hl⟩ := lookup_erase_some _ _ _ _ hx
  have h := hJ x ix hl
  show (deleteClientToken st.clientTokens c0 A).lookup ix.ClientToken = some x
  rw [deleteClientToken_lookup_eq, if_neg, h]
  rintro ⟨_, h2⟩
  rw [h] at h2
  exact hne (Option.some.inj h2)

theorem IndexComplete_insert (st : MemoryYggdrasilService) (a : String)
    (info : AccessTokenInfo)
    (hnew : ∀ k i, st.accessTokens.lookup k = some i → i.ClientToken ≠ info.ClientToken)
    (hJ : IndexComplete st) :
    IndexComplete { st with
      accessTokens := st.accessTokens.insert a info,
      clientTokens := st.clientTokens.insert info.ClientToken a } := by
  intro x ix hx
  rcases lookup_insert_some _ _ _ _ _ hx with ⟨hxa, hxi⟩ | ⟨_, hl⟩
  · subst hxa hxi
    exact AList.lookup_insert _
  · show (st.clientTokens.insert info.ClientToken a).lookup ix.ClientToken = some x
    rw [AList.lookup_insert_ne (hnew x ix hl)]
    exact hJ x ix hl

theorem IndexComplete_step (s : MemoryYggdrasilService) (c : Call)
    (hok : clientTokenUnused s c) (hJ : IndexComplete s) : IndexComplete (c.run s) := by
  cases c with
  | addUser username password userID => exact hJ
  | addProfile userID name =>
    obtain ⟨p, hp⟩ := AddProfile_store s userID name
    show IndexComplete (AddProfile s userID name).1
    rw [hp]
    exact hJ
  | auth req a c now =>
    show IndexComplete (Auth s req a c now).1
    rcases Auth_store_cases s req a c now with h | ⟨u, p, _, _, h⟩
    · rw [h]
      exact hJ
    · rw [h]
      exact IndexComplete_insert s a
        { UserID := u.ID, ClientToken := if req.ClientToken = "" then c else req.ClientToken,
          ProfileID := p.ID, CreatedAt := now } hok hJ
  | refresh req a now =>
    show IndexComplete (Refresh s req a now).1
    rcases Refresh_store_cases s req a now with h | ⟨info, hi, h⟩
    · rw [h]
      exact hJ
    · rw [h]
      have h1 := IndexComplete_remove s req.AccessToken info.ClientToken hJ
      refine IndexComplete_insert _ a
        { UserID := info.UserID, ClientToken := info.ClientToken,
          ProfileID := info.ProfileID, CreatedAt := now } ?_ h1
      intro k i hk hc
      obtain ⟨hne, hl⟩ := lookup_erase_some _ _ _ _ hk
      have e1 := hJ k i hl
      have e2 := hJ req.AccessToken info hi
      rw [hc, e2] at e1
      exact hne (Option.some.inj e1).symm
  | validate req =>
    show IndexComplete (Validate s req).1
    rw [Validate_eq]
    exact hJ
  | invalidate req =>
    show IndexComplete (Invalidate s req).1
    rcases Invalidate_store_cases s req with h | ⟨info, _, h⟩
    · rw [h]
      exact hJ
    · rw [h]
      exact IndexComplete_remove s req.AccessToken info.ClientToken hJ
  | signout req =>
    show IndexComplete (Signout s req).1
    rcases Signout_store_cases s req with h | ⟨u, _, h⟩
    · rw [h]
      exact hJ
    · rw [h]
      refine foldl_preserves (signoutStep u.ID) IndexComplete s.accessTokens.entries ?_ s hJ
      intro b e _ hb
      unfold signoutStep
      split_ifs
      · exact IndexComplete_remove b e.1 e.2.ClientToken hb
      · exact hb

theorem IndexComplete_reachable (s : MemoryYggdrasilService)
    (h : ReachableBy clientTokenUnused s) : IndexComplete s := by
  induction h with
  | init =>
    intro a info ha
    simp [NewMemoryYggdrasilService] at ha
  | step c _ hok ih => exact IndexComplete_step _ c hok ih

/-- C11, amended: in every store reachable from the empty store through the public
operations run one after another (each call returns before the next one starts), each minted
access token being different from the access tokens already in the store and each `Auth`
recording a client token (the caller's when non-empty, the minted one otherwise) that no
session of the store carries yet, every access token that is a value of `clientTokens` is a
key of `accessTokens`, and every key of `accessTokens` is the value of `clientTokens` at its
session's `ClientToken`. -/
theorem index_cross_reference (s : MemoryYggdrasilService)
    (h : ReachableBy freshAndUnused s) :
    (∀ c a, s.clientTokens.lookup c = some a → a ∈ s.accessTokens)
    ∧ ∀ a info, s.accessTokens.lookup a = some info →
        s.clientTokens.lookup info.ClientToken = some a := by
  have hS := IndexSound_reachable_fresh s
    (ReachableBy_mono freshAndUnused accessTokenFresh (fun _ _ hc => hc.1) s h)
  have hJ := IndexComplete_reachable s
    (ReachableBy_mono freshAndUnused clientTokenUnused (fun _ _ hc => hc.2) s h)
  refine ⟨?_, hJ⟩
  intro c a hl
  obtain ⟨info, hi, _⟩ := hS c a hl
  exact mem_of_lookup _ _ _ hi

set_option maxRecDepth 100000 in
theorem registerAlice_sessions :
    (registerAlice.foldl Call.run NewMemoryYggdrasilService).accessTokens
      = (∅ : GoMap AccessTokenInfo)
    ∧ (Call.run (registerAlice.foldl Call.run NewMemoryYggdrasilService)
        (.auth aliceAuth "a1" "c1" 7)).accessTokens
      = (∅ : GoMap AccessTokenInfo).insert "a1"
          ⟨"u1", "c1", "10920508d5d83eed93d292f193afe7d7", 7⟩ :=
  ⟨by rfl, by rfl⟩

theorem twoChains_freshAndUnused : ReachableBy freshAndUnused twoChains := by
  have h0 := registerAlice_reachable freshAndUnused ⟨True.intro, True.intro⟩
    ⟨True.intro, True.intro⟩
  have hk1 : ∀ k info,
      (registerAlice.foldl Call.run NewMemoryYggdrasilService).accessTokens.lookup k
        = some info → False := by
    intro k info hk
    rw [registerAlice_sessions.1] at hk
    simp at hk
  have hk2 : ∀ k info,
      (Call.run (registerAlice.foldl Call.run NewMemoryYggdrasilService)
        (.auth aliceAuth "a1" "c1" 7)).accessTokens.lookup k = some info →
      k = "a1" ∧ info.ClientToken = "c1" := by
    intro k info hk
    rw [registerAlice_sessions.2] at hk
    rcases lookup_insert_some _ _ _ _ _ hk with ⟨hka, hi⟩ | ⟨_, hl⟩
    · exact ⟨hka, by rw [hi]⟩
    · simp at hl
  have h1 := ReachableBy.step (.auth aliceAuth "a1" "c1" 7) h0
    (show "a1" ∉ (registerAlice.foldl Call.run NewMemoryYggdrasilService).accessTokens
        ∧ ∀ k info,
          (registerAlice.foldl Call.run NewMemoryYggdrasilService).accessTokens.lookup k
            = some info → info.ClientToken ≠ "c1" from
      ⟨fun hm => by
          obtain ⟨i, hi⟩ := lookup_of_mem _ _ hm
          exact hk1 _ i hi,
        fun k info hk => (hk1 k info hk).elim⟩)
  exact ReachableBy.step (.auth { aliceAuth with ClientToken := "c2" } "a2" "m2" 8) h1
    (show "a2" ∉ (Call.run (registerAlice.foldl Call.run NewMemoryYggdrasilService)
          (.auth aliceAuth "a1" "c1" 7)).accessTokens
        ∧ ∀ k info,
          (Call.run (registerAlice.foldl Call.run NewMemoryYggdrasilService)
            (.auth aliceAuth "a1" "c1" 7)).accessTokens.lookup k = some info →
          info.ClientToken ≠ "c2" from
      ⟨fun hm => by
          obtain ⟨i, hi⟩ := lookup_of_mem _ _ hm
          exact absurd (hk2 _ i hi).1 (by decide),
        fun k info hk hc => by
          rw [(hk2 k info hk).2] at hc
          exact absurd hc (by decide)⟩)

set_option maxRecDepth 100000 in
theorem twoChains_index :
    twoChains.clientTokens.lookup "c1" = some "a1"
    ∧ twoChains.clientTokens.lookup "c2" = some "a2" :=
  ⟨by rfl, by rfl⟩

/-- Witness for C11: the two sessions of `alice` under `c1` and `c2`, each indexed. -/
theorem index_cross_reference_witness :
    ReachableBy freshAndUnused twoChains
    ∧ twoChains.clientTokens.lookup "c2" = some "a2"
    ∧ twoChains.accessTokens.lookup "a1"
        = some ⟨"u1", "c1", "10920508d5d83eed93d292f193afe7d7", 7⟩
    ∧ "a2" ∈ twoChains.accessTokens
    ∧ twoChains.clientTokens.lookup "c1" = some "a1" :=
  have h := index_cross_reference twoChains twoChains_freshAndUnused
  ⟨twoChains_freshAndUnused, twoChains_index.2, twoChains_sessions.1,
    h.1 "c2" "a2" twoChains_index.2,
    h.2 "a1" ⟨"u1", "c1", "10920508d5d83eed93d292f193afe7d7", 7⟩ twoChains_sessions.1⟩

/-! ## The frame of `Signout` on reachable stores -/

theorem Signout_removed_iff (s : MemoryYggdrasilService) (req : SignoutRequest)
    (u : UserCredentials) (hu : s.users.lookup req.Username = some u)
    (hp : u.Password = req.Password) (a : String) :
    (a ∈ s.accessTokens ∧ a ∉ (Signout s req).1.accessTokens) ↔
      ∃ info, s.accessTokens.lookup a = some info ∧ info.UserID = u.ID := by
  constructor
  · rintro ⟨hin, hout⟩
    obtain ⟨info, hi⟩ := lookup_of_mem _ _ hin
    refine ⟨info, hi, ?_⟩
    by_contra hne
    exact hout (mem_of_lookup _ _ _ ((Signout_entries s req u hu hp).2.2.2.1 a info hi hne).1)
  · rintro ⟨info, hi, hU⟩
    refine ⟨mem_of_lookup _ _ _ hi, ?_⟩
    rw [Signout_eq_ok s req u hu hp]
    exact AList.lookup_eq_none.mp
      (signout_fold_erased u.ID s.accessTokens.entries s ⟨a, info⟩
        (AList.mem_lookup_iff.mp hi) hU)

/-- C25: for every store that the public operations reach from the empty store with minted
access tokens different from those already in the store, and every successful
`Signout(u, p)`: the maps `users` and `profiles` are unchanged; every session whose `UserID`
differs from that user's ID is still in `accessTokens` with the same record, and `Validate`
answers on it as before; no entry of `clientTokens` is added or changed, and the entries
removed are exactly those that pointed at a removed access token. -/
theorem Signout_frame (s : MemoryYggdrasilService) (h : ReachableBy accessTokenFresh s)
    (req : SignoutRequest) (u : UserCredentials)
    (hu : s.users.lookup req.Username = some u) (hp : u.Password = req.Password) :
    (Signout s req).2 = none
    ∧ (Signout s req).1.users = s.users
    ∧ (Signout s req).1.profiles = s.profiles
    ∧ (∀ a info, s.accessTokens.lookup a = some info → info.UserID ≠ u.ID →
        (Signout s req).1.accessTokens.lookup a = some info
        ∧ ∀ x, (Validate (Signout s req).1 ⟨a, x⟩).2 = (Validate s ⟨a, x⟩).2)
    ∧ (∀ c a, (Signout s req).1.clientTokens.lookup c = some a →
        s.clientTokens.lookup c = some a)
    ∧ (∀ c a, s.clientTokens.lookup c = some a →
        ((Signout s req).1.clientTokens.lookup c = none ↔
          (a ∈ s.accessTokens ∧ a ∉ (Signout s req).1.accessTokens)))
    ∧ ∀ c a, s.clientTokens.lookup c = some a →
        (Signout s req).1.clientTokens.lookup c = none
        ∨ (Signout s req).1.clientTokens.lookup c = some a := by
  obtain ⟨h1, h2, h3, h4, h5, _, h7⟩ := Signout_entries s req u hu hp
  have hI := IndexSound_reachable_fresh s h
  refine ⟨h1, h2, h3, h4, h5, ?_, ?_⟩
  · intro c a hc
    rw [h7 hI c a hc, Signout_removed_iff s req u hu hp a]
  · intro c a hc
    cases ht : (Signout s req).1.clientTokens.lookup c with
    | none => exact Or.inl rfl
    | some b =>
      have := h5 c b ht
      rw [hc] at this
      exact Or.inr (by rw [Option.some.inj this])

theorem sharedClientStore_accessTokenFresh : ReachableBy accessTokenFresh sharedClientStore :=
  ReachableBy_mono mintsFresh accessTokenFresh accessTokenFresh_of_mintsFresh _
    sharedClientStore_fresh

set_option maxRecDepth 100000 in
theorem sharedClientStore_signout :
    sharedClientStore.users.lookup "alice" = some ⟨"u1", "secret"⟩
    ∧ (Signout sharedClientStore ⟨"alice", "secret"⟩).1.clientTokens.lookup "c1" = none
    ∧ (Signout sharedClientStore ⟨"alice", "secret"⟩).1.accessTokens.entries = [] :=
  ⟨by rfl, by rfl, by rfl⟩

/-- Witness for C25: `Signout` of `alice` on the reachable store where her sessions `a1` and
`a2` both carry `c1` and the index entry of `c1` points at `a2`. -/
theorem Signout_frame_witness :
    ReachableBy accessTokenFresh sharedClientStore
    ∧ sharedClientStore.users.lookup "alice" = some ⟨"u1", "secret"⟩
    ∧ (Signout sharedClientStore ⟨"alice", "secret"⟩).2 = none
    ∧ (Signout sharedClientStore ⟨"alice", "secret"⟩).1.users = sharedClientStore.users
    ∧ (Signout sharedClientStore ⟨"alice", "secret"⟩).1.profiles = sharedClientStore.profiles
    ∧ sharedClientStore.clientTokens.lookup "c1" = some "a2"
    ∧ (Signout sharedClientStore ⟨"alice", "secret"⟩).1.clientTokens.lookup "c1" = none
    ∧ "a2" ∈ sharedClientStore.accessTokens
    ∧ "a2" ∉ (Signout sharedClientStore ⟨"alice", "secret"⟩).1.accessTokens :=
  have h := Signout_frame sharedClientStore sharedClientStore_accessTokenFresh
    ⟨"alice", "secret"⟩ ⟨"u1", "secret"⟩ sharedClientStore_signout.1 rfl
  have hrem := (h.2.2.2.2.2.1 "c1" "a2" sharedClientStore_sessions.2.2).mp
    sharedClientStore_signout.2.1
  ⟨sharedClientStore_accessTokenFresh, sharedClientStore_signout.1, h.1, h.2.1, h.2.2.1,
    sharedClientStore_sessions.2.2, sharedClientStore_signout.2.1, hrem.1, hrem.2⟩

end Yggdrasil
